import Mathlib

/-!
GPU-over-IP: lease scheduler, partitioned service front, topology and dial targets.

A shallow embedding of the Go sources

* `juice-refactor/pkg/scheduler/scheduler.go` (lease scheduler),
* `cmd/grpcserver/main.go` (service front bound to one NUMA group),
* `modules/netbalance/topology.go`, `pkg/query/uuid.go` (bound sets),
* `juice-refactor/modules/netbalance/balance.go` (dial-target ranking),
* `modules/netbalance/scanner.go`, `juice-refactor/modules/netbalance/scanner.go`
  (link-speed probe, physical interfaces),
* `juice-refactor/modules/netbalance/netbalance.go` (peer records and their JSON text),
* `cmd/aitherion/start.go` (ports of the `start` command),
* `cmd/juice/utils/topogen.go` (topology files),

followed by the properties proved about them.
-/

namespace GpuOverIP

/-! ## Go maps -/

/-- A Go `map[K]V`, kept as the list of its entries.  The operations below never leave two
entries for one key behind a `mapSet`, and they read the first entry for a key. -/
abbrev GoMap (κ ν : Type) := List (κ × ν)

/-- Go `v, ok := m[k]`: `some v` when `k` is present, `none` otherwise. -/
def mapLookup {κ ν : Type} [DecidableEq κ] (m : GoMap κ ν) (k : κ) : Option ν :=
  match m.find? (fun e => e.1 == k) with
  | some e => some e.2
  | none => none

/-- Go `delete(m, k)`: every entry for `k` is dropped. -/
def mapDelete {κ ν : Type} [DecidableEq κ] (m : GoMap κ ν) (k : κ) : GoMap κ ν :=
  m.filter (fun e => !(e.1 == k))

/-- Go `m[k] = v`: the entry for `k` is replaced by `v`. -/
def mapSet {κ ν : Type} [DecidableEq κ] (m : GoMap κ ν) (k : κ) (v : ν) : GoMap κ ν :=
  (k, v) :: mapDelete m k

/-- A Go `map[string]bool`. -/
abbrev BoolMap := GoMap String Bool

/-- Go `m[k]` on a `map[string]bool`: the stored value, or the zero value `false` when `k`
is absent. -/
def mapGet (m : BoolMap) (k : String) : Bool :=
  match mapLookup m k with
  | some v => v
  | none => false

/-! ## Lease scheduler (`pkg/scheduler/scheduler.go`) -/

/-- One goroutine started by `Acquire`: it sleeps for the timeout and then calls
`Release(uuid)`.  `done` records whether it has already run. -/
structure TimeoutTask where
  uuid : String
  done : Bool
deriving DecidableEq, Repr

/-- The `Scheduler` struct, together with the goroutines it has spawned (in spawn order;
the position of a goroutine in `tasks` identifies it).  The mutex is modelled by every
operation being one atomic step on the state. -/
structure Scheduler where
  inUse : BoolMap
  timeout : Nat
  tasks : List TimeoutTask
deriving DecidableEq, Repr

/-- The constructor `NewScheduler(timeout)`: nothing is in use, no goroutine is running. -/
def NewScheduler (timeout : Nat) : Scheduler :=
  { inUse := [], timeout := timeout, tasks := [] }

namespace Scheduler

/-- The method `Scheduler.Acquire`: the new state and the returned error (`none` is Go's `nil`).
A successful call stores `true` and starts one timeout goroutine for `uuid`. -/
def Acquire (s : Scheduler) (uuid : String) : Scheduler × Option String :=
  if mapGet s.inUse uuid then
    (s, some "GPU already in use")
  else
    ({ s with inUse := mapSet s.inUse uuid true,
              tasks := s.tasks ++ [{ uuid := uuid, done := false }] }, none)

/-- The method `Scheduler.Release`: the entry is deleted when the uuid is in use. -/
def Release (s : Scheduler) (uuid : String) : Scheduler :=
  if mapGet s.inUse uuid then
    { s with inUse := mapDelete s.inUse uuid }
  else s

/-- The method `Scheduler.IsInUse`. -/
def IsInUse (s : Scheduler) (uuid : String) : Bool :=
  mapGet s.inUse uuid

/-- The goroutine at position `t` wakes up after its sleep: it calls `s.Release(uuid)` with
the uuid it captured, whatever has happened to the lease in the meantime.  A goroutine runs
once; firing an unknown or finished one does nothing. -/
def timeoutFires (s : Scheduler) (t : Nat) : Scheduler :=
  match s.tasks[t]? with
  | some task =>
    if task.done then s
    else ({ s with tasks := s.tasks.set t { task with done := true } }).Release task.uuid
  | none => s

end Scheduler

/-- What can happen to a scheduler: a call of one of its two mutating methods, or the
wake-up of a timeout goroutine. -/
inductive Event where
  | acquire (uuid : String)
  | release (uuid : String)
  | timeout (task : Nat)
deriving DecidableEq, Repr

namespace Scheduler

/-- One event applied to the scheduler state. -/
def step (s : Scheduler) : Event → Scheduler
  | .acquire uuid => (s.Acquire uuid).1
  | .release uuid => s.Release uuid
  | .timeout t => s.timeoutFires t

/-- A sequence of events, applied from left to right. -/
def run (s : Scheduler) (es : List Event) : Scheduler :=
  es.foldl step s

end Scheduler

/-! ## RPC messages and collaborators of the service front -/

/-- Go's conversion `int32(x)`: the value is reduced to 32 bits, two's complement. -/
def toInt32 (x : Int) : Int :=
  (x + 2 ^ 31) % 2 ^ 32 - 2 ^ 31

/-- The message `pb.GPUInfo` (the fields the sources read or write). -/
structure GPUInfo where
  Index : Int
  Uuid : String
  Name : String
  TotalMemory : Int
deriving DecidableEq, Repr

/-- The status returned by `query.GetGPUStatus` and the message `pb.GPUStatus`. -/
structure GPUStatus where
  UsedMemory : Int
  Utilization : Int
deriving DecidableEq, Repr

/-- The message `pb.Ack`. -/
structure Ack where
  Ok : Bool
  Msg : String
deriving DecidableEq, Repr

/-- The message `pb.RunResponse`. -/
structure RunResponse where
  ExitCode : Int
  Output : String
deriving DecidableEq, Repr

/-- The external collaborators of a front, as the answers they give: the device query
`query.ListGPUs`, the status query `query.GetGPUStatus` and the command execution
`gpu.RunCommand`. -/
structure Collaborators where
  ListGPUs : List GPUInfo
  GetGPUStatus : String → GPUStatus
  RunCommand : String → String → String × Int

/-- A call that a front hands on: to a collaborator or to the shared scheduler. -/
inductive Delegation where
  | listGPUs
  | getGPUStatus (uuid : String)
  | acquire (uuid : String)
  | release (uuid : String)
  | runCommand (uuid : String) (cmd : String)
deriving DecidableEq, Repr

/-- What all fronts of one process share: the scheduler, and the record of the calls that
have been handed on so far. -/
structure World where
  sched : Scheduler
  delegated : List Delegation
deriving DecidableEq, Repr

/-- Modelled from the spec: the package-level `scheduler.Acquire(uuid)` that the front
calls is not among the sources (the scheduler package has only the method).  The spec has
the front delegate to the shared lease scheduler and report its result as a boolean
outcome: the method is run on the shared scheduler and the outcome is whether it returned
no error. -/
def schedulerAcquire (shared : Scheduler) (uuid : String) : Bool × Scheduler :=
  ((shared.Acquire uuid).2.isNone, (shared.Acquire uuid).1)

/-- Modelled from the spec: the package-level `scheduler.Release(uuid)` that the front
calls is not among the sources; it is the method `Release` run on the shared scheduler. -/
def schedulerRelease (shared : Scheduler) (uuid : String) : Scheduler :=
  shared.Release uuid

/-! ## Service front (`cmd/grpcserver/main.go`) -/

/-- The `server` struct: one front, bound to the GPUs of one NUMA group. -/
structure server where
  boundGPUs : BoolMap
deriving DecidableEq, Repr

namespace server

/-- The handler `server.ListGPUs`: the devices reported by the query are appended to `filtered` one by
one when their uuid is bound. -/
def ListGPUs (s : server) (env : Collaborators) (w : World) : List GPUInfo × World :=
  let infos := env.ListGPUs
  let filtered := infos.foldl
    (fun filtered g => if mapGet s.boundGPUs g.Uuid then filtered ++ [g] else filtered) []
  (filtered, { w with delegated := w.delegated ++ [Delegation.listGPUs] })

/-- The handler `server.GetGPUStatus`. -/
def GetGPUStatus (s : server) (env : Collaborators) (w : World) (uuid : String) :
    Except String GPUStatus × World :=
  if !mapGet s.boundGPUs uuid then
    (Except.error ("GPU " ++ uuid ++ " not bound to this NUMA group"), w)
  else
    let st := env.GetGPUStatus uuid
    (Except.ok { UsedMemory := st.UsedMemory, Utilization := st.Utilization },
      { w with delegated := w.delegated ++ [Delegation.getGPUStatus uuid] })

/-- The handler `server.AcquireGPU`. -/
def AcquireGPU (s : server) (w : World) (uuid : String) : Ack × World :=
  if !mapGet s.boundGPUs uuid then
    ({ Ok := false, Msg := "GPU not bound" }, w)
  else
    let r := schedulerAcquire w.sched uuid
    ({ Ok := r.1, Msg := "acquire result" },
      { sched := r.2, delegated := w.delegated ++ [Delegation.acquire uuid] })

/-- The handler `server.ReleaseGPU`: no look at the bound map. -/
def ReleaseGPU (_s : server) (w : World) (uuid : String) : Ack × World :=
  ({ Ok := true, Msg := "released" },
    { sched := schedulerRelease w.sched uuid,
      delegated := w.delegated ++ [Delegation.release uuid] })

/-- The handler `server.RunCommand`. -/
def RunCommand (s : server) (env : Collaborators) (w : World) (uuid cmd : String) :
    Except String RunResponse × World :=
  if !mapGet s.boundGPUs uuid then
    (Except.error ("GPU " ++ uuid ++ " not bound to this NUMA group"), w)
  else
    let r := env.RunCommand uuid cmd
    (Except.ok { ExitCode := toInt32 r.2, Output := r.1 },
      { w with delegated := w.delegated ++ [Delegation.runCommand uuid cmd] })

end server

/-- The function `runGRPCServer`: the bound map built from the uuid list, and the server registered with
it (listening on the port is not modelled). -/
def runGRPCServer (_port : Int) (gpuUUIDs : List String) : server :=
  { boundGPUs := gpuUUIDs.foldl (fun bound uuid => mapSet bound uuid true) [] }

/-! ## NUMA topology (`modules/netbalance/topology.go`) and bound uuids (`pkg/query/uuid.go`) -/

/-- The `NUMAGroup` struct. -/
structure NUMAGroup where
  NUMANode : Int
  GPUIDs : List Int
  NetIfs : List String
deriving DecidableEq, Repr

/-- The `NetDeviceInfo` struct of the interface scanner. -/
structure NetDeviceInfo where
  Name : String
  NUMANode : Int
  IsVirtual : Bool
deriving DecidableEq, Repr

/-- The lookup-or-create at the head of both loop bodies of `MapNUMATopology`:
`group, ok := groups[numaNode]`, and a fresh empty group when `!ok`. -/
def groupFor (groups : GoMap Int NUMAGroup) (numaNode : Int) : NUMAGroup :=
  match mapLookup groups numaNode with
  | some group => group
  | none => { NUMANode := numaNode, GPUIDs := [], NetIfs := [] }

/-- Body of the first loop of `MapNUMATopology`: a negative node is taken as node 0 and the
GPU id is appended to the group of the node.  The map holds pointers, so the append to the
group is an update of the map entry. -/
def addGPU (groups : GoMap Int NUMAGroup) (entry : Int × Int) : GoMap Int NUMAGroup :=
  let gpuID := entry.1
  let numaNode := if entry.2 < 0 then 0 else entry.2
  let group := groupFor groups numaNode
  mapSet groups numaNode { group with GPUIDs := group.GPUIDs ++ [gpuID] }

/-- Body of the second loop of `MapNUMATopology`, for one physical interface. -/
def addIface (groups : GoMap Int NUMAGroup) (iface : NetDeviceInfo) : GoMap Int NUMAGroup :=
  let numaNode := if iface.NUMANode < 0 then 0 else iface.NUMANode
  let group := groupFor groups numaNode
  mapSet groups numaNode { group with NetIfs := group.NetIfs ++ [iface.Name] }

/-- The function `MapNUMATopology`, given the results of `DetectAllPhysicalInterfaces` and of
`parseGPUNumaMapping`.  The GPU map is given as its entries in the order in which the first
loop visits them.  Go leaves the order of `range` over a map open, so the slice that the
function returns is some permutation of the list of groups computed here. -/
def MapNUMATopology (netIfs : Except String (List NetDeviceInfo))
    (gpuNumaMap : Except String (GoMap Int Int)) : Except String (List NUMAGroup) :=
  match netIfs with
  | Except.error err => Except.error ("detectAllPhysicalInterfaces error: " ++ err)
  | Except.ok netIfs =>
    match gpuNumaMap with
    | Except.error err => Except.error err
    | Except.ok gpuNumaMap =>
      let groups := gpuNumaMap.foldl addGPU []
      let groups := netIfs.foldl addIface groups
      Except.ok (groups.map Prod.snd)

/-- The function `GPUUUIDsByIDs`, given the device list that `ListGPUs()` reports: the index map is
filled in report order (a later device with the same index overwrites an earlier one), and
the uuid of every requested id that the map knows is appended. -/
def GPUUUIDsByIDs (allGPUs : List GPUInfo) (deviceIDs : List Int) : List String :=
  let indexMap : GoMap Int String :=
    allGPUs.foldl (fun indexMap g => mapSet indexMap g.Index g.Uuid) []
  deviceIDs.foldl
    (fun uuidList id =>
      match mapLookup indexMap id with
      | some uuid => uuidList ++ [uuid]
      | none => uuidList) []

/-- The fronts that `main` starts: for the group at position `i` of the topology, a server
on port `50051 + i` bound to the uuids of the group's GPU ids. -/
def mainFronts (allGPUs : List GPUInfo) (groups : List NUMAGroup) : List server :=
  groups.enum.map
    (fun p => runGRPCServer (50051 + (p.1 : Int)) (GPUUUIDsByIDs allGPUs p.2.GPUIDs))

/-! ## Dial-target ranking (`juice-refactor/modules/netbalance/balance.go`) -/

/-- Go `int64` arithmetic: the mathematical result reduced to 64 bits, two's complement. -/
def wrapInt64 (x : Int) : Int :=
  (x + 9223372036854775808) % 18446744073709551616 - 9223372036854775808

/-- Go `sort.SliceStable`, the inner loop of its insertion sort: the new element `x` stands
to the right of the sorted prefix and is swapped leftwards as long as `less x p` holds for
its left neighbour `p`.  The prefix is given from right to left. -/
def insertLeftwards {α : Type} (less : α → α → Bool) (x : α) : List α → List α
  | [] => [x]
  | p :: ps => if less x p then p :: insertLeftwards less x ps else x :: p :: ps

/-- Go `sort.SliceStable(slice, less)`, from the Go standard library (not part of the
repository): a stable sort, computed by insertion from left to right as the library does
on runs of up to 20 elements.  A stable sort has one result for a given `less` that orders
by a key, so longer inputs, which the library sorts by merging such runs, give the same
list. -/
def sliceStable {α : Type} (less : α → α → Bool) (slice : List α) : List α :=
  (slice.foldl (fun sortedRev x => insertLeftwards less x sortedRev) []).reverse

namespace netbalance

/-- The `GPUInfo` struct of package `netbalance`. -/
structure GPUInfo where
  ID : String
  Utilization : Int
  MemoryUsed : Int
deriving DecidableEq, Repr

/-- Modelled from the spec: the `NodeInfo` struct with the fields `LastSeen` and
`NetBandwidth`, which `GetBestDialTarget` reads but which the declaration in
`netbalance.go` (fields `IP`, `GPUs` and the lock) does not list.  `LastSeen` is the
`last_seen` timestamp in Unix seconds (an `int64`, as it is subtracted from
`time.Now().Unix()`), `NetBandwidth` the `bandwidth_mbps` integer of the spec's peer
record.  The slice `GPUs` is the list of its entries together with `GPUsNil`, which tells
whether the slice is `nil`: a `nil` slice has no entries, so `GPUsNil` is read only when
the list is empty (the slice that `NewNodeInfo` makes is not `nil`). -/
structure NodeInfo where
  IP : String
  GPUs : List GPUInfo
  LastSeen : Int
  NetBandwidth : Int
  GPUsNil : Bool := false
deriving DecidableEq, Repr

/-- The test `now-node.LastSeen <= 15` of the first loop, in `int64` arithmetic. -/
def isActive (now : Int) (node : NodeInfo) : Bool :=
  decide (wrapInt64 (now - node.LastSeen) ≤ 15)

/-- The comparison handed to `sort.SliceStable`:
`active[i].NetBandwidth > active[j].NetBandwidth`. -/
def lessByBandwidth (a b : NodeInfo) : Bool :=
  decide (a.NetBandwidth > b.NetBandwidth)

/-- The slice `active` of `GetBestDialTarget` after the sort: the nodes of `discovered`
(the package variable, here an argument) that pass the test at time `now` (the value of
`time.Now().Unix()`), appended one by one and then sorted. -/
def rankedNodes (discovered : List NodeInfo) (now : Int) : List NodeInfo :=
  let active := discovered.foldl
    (fun active node => if isActive now node then active ++ [node] else active) []
  sliceStable lessByBandwidth active

/-- The slice `targets` of `GetBestDialTarget`: one `IP:port` string per ranked node. -/
def dialTargets (discovered : List NodeInfo) (now : Int) (port : String) : List String :=
  (rankedNodes discovered now).foldl
    (fun targets node => targets ++ [node.IP ++ ":" ++ port]) []

/-- The function `GetBestDialTarget`: the targets joined by commas. -/
def GetBestDialTarget (discovered : List NodeInfo) (now : Int) (port : String) : String :=
  ",".intercalate (dialTargets discovered now port)

end netbalance

/-! ## Go library functions on strings (`strings`, `strconv`, `fmt`) -/

/-- Go `unicode.IsSpace`, which is also the space table of package `fmt`: the characters
with the Unicode White_Space property. -/
def unicodeIsSpace (c : Char) : Bool :=
  (9 ≤ c.toNat && c.toNat ≤ 13) || c.toNat == 32 || c.toNat == 0x85 || c.toNat == 0xA0 ||
  c.toNat == 0x1680 || (0x2000 ≤ c.toNat && c.toNat ≤ 0x200A) || c.toNat == 0x2028 ||
  c.toNat == 0x2029 || c.toNat == 0x202F || c.toNat == 0x205F || c.toNat == 0x3000

/-- Decimal digits `0` to `9`. -/
def isDecimalDigit (c : Char) : Bool :=
  48 ≤ c.toNat && c.toNat ≤ 57

/-- Go `strings.HasPrefix(s, pre)`. -/
def HasPrefix (s pre : String) : Bool :=
  pre.data.isPrefixOf s.data

/-- Go `strings.HasSuffix(s, suf)`. -/
def HasSuffix (s suf : String) : Bool :=
  suf.data.reverse.isPrefixOf s.data.reverse

/-- Go `strings.TrimSuffix(s, suf)`: `s` without the trailing `suf`, or `s` itself when it
does not end with `suf`. -/
def TrimSuffix (s suf : String) : String :=
  if HasSuffix s suf then String.mk (s.data.take (s.data.length - suf.data.length)) else s

/-- Go `strings.TrimSpace(s)`: leading and trailing white space removed. -/
def TrimSpace (s : String) : String :=
  String.mk ((s.data.dropWhile unicodeIsSpace).reverse.dropWhile unicodeIsSpace).reverse

/-- The loop of Go `strings.Fields`: `cur` holds the characters of the field being read,
last one first. -/
def fieldsLoop : List Char → List Char → List String
  | [], cur => if cur.isEmpty then [] else [String.mk cur.reverse]
  | c :: cs, cur =>
    if unicodeIsSpace c then
      if cur.isEmpty then fieldsLoop cs [] else String.mk cur.reverse :: fieldsLoop cs []
    else fieldsLoop cs (c :: cur)

/-- Go `strings.Fields(s)`: the maximal runs of characters that are not white space. -/
def Fields (s : String) : List String :=
  fieldsLoop s.data []

/-- Go `strings.ToLower(s)`.  A string of ASCII characters only is lowered byte by byte;
any other string is mapped through `unicode.ToLower`, whose tables are not part of the
sources and are taken as the argument `unicodeToLower`. -/
def ToLower (unicodeToLower : Char → Char) (s : String) : String :=
  if s.data.all (fun c => c.toNat < 128) then
    String.mk (s.data.map
      (fun c => if 65 ≤ c.toNat ∧ c.toNat ≤ 90 then Char.ofNat (c.toNat + 32) else c))
  else String.mk (s.data.map unicodeToLower)

/-- The digit loop of Go `strconv.ParseUint(s, 10, 64)`: `n` is the value read so far;
`none` stands for a syntax error, `some none` for a range error. -/
def parseUintLoop : List Char → Nat → Option (Option Nat)
  | [], n => some (some n)
  | c :: cs, n =>
    if isDecimalDigit c then
      if n ≥ 18446744073709551615 / 10 + 1 then some none
      else
        let n1 := n * 10 + (c.toNat - 48)
        if n1 > 18446744073709551615 then some none else parseUintLoop cs n1
    else none

/-- The two ways in which `strconv.ParseInt` fails: `ErrSyntax` and `ErrRange`. -/
inductive NumError where
  | invalidSyntax : NumError
  | outOfRange : NumError
deriving DecidableEq, Repr

/-- Go `strconv.ParseInt(s, 10, 64)`: an optional sign, then decimal digits only; the value
has to fit in `int64`. -/
def ParseInt (s : List Char) : Except NumError Int :=
  match s with
  | [] => Except.error NumError.invalidSyntax
  | c :: cs =>
    let neg := c == '-'
    let digits := if c == '+' || c == '-' then cs else c :: cs
    match digits with
    | [] => Except.error NumError.invalidSyntax
    | _ :: _ =>
      match parseUintLoop digits 0 with
      | none => Except.error NumError.invalidSyntax
      | some none => Except.error NumError.outOfRange
      | some (some un) =>
        if !neg && un ≥ 9223372036854775808 then Except.error NumError.outOfRange
        else if neg && un > 9223372036854775808 then Except.error NumError.outOfRange
        else Except.ok (if neg then -(un : Int) else (un : Int))

/-- Go `strconv.Atoi(s)` on a 64-bit platform: the value, or `none` for an error (the
callers only look at whether there is one). -/
def Atoi (s : String) : Option Int :=
  match ParseInt s.data with
  | Except.ok n => some n
  | Except.error _ => none

/-- The errors of `fmt.Sscanf(s, "%d", &val)`: a newline in the leading white space, the
end of the input where the number should start, a character that cannot start an integer,
and a token that `strconv.ParseInt` rejects. -/
inductive ScanError where
  | unexpectedNewline : ScanError
  | endOfInput : ScanError
  | expectedInteger : ScanError
  | parseInt (tok : String) (cause : NumError) : ScanError
deriving DecidableEq, Repr

/-- The method `SkipSpace` of the scanner of package `fmt`, as `Sscanf` uses it: white
space is skipped, a newline is an error. -/
def fmtSkipSpace : List Char → Except ScanError (List Char)
  | [] => Except.ok []
  | c :: cs =>
    if c == '\n' then Except.error ScanError.unexpectedNewline
    else if unicodeIsSpace c then fmtSkipSpace cs
    else Except.ok (c :: cs)

/-- Go `fmt.Sscanf(s, "%d", &val)` with `val` an `int` (64 bits): leading white space is
skipped, an optional sign is read, then the longest run of the digits `0` to `9`, which has
to start right there (the verb `%d` takes no underscore and no base prefix); the sign and
the digits are handed to `strconv.ParseInt`.  What follows the digits is left unread and is
no error.  The result is the value stored in `val`, or the error. -/
def SscanfInt (s : String) : Except ScanError Int :=
  match fmtSkipSpace s.data with
  | Except.error err => Except.error err
  | Except.ok [] => Except.error ScanError.endOfInput
  | Except.ok (c :: cs) =>
    let sign := if c == '+' || c == '-' then [c] else []
    let rest := if c == '+' || c == '-' then cs else c :: cs
    match rest with
    | [] => Except.error ScanError.endOfInput
    | d :: _ =>
      if isDecimalDigit d then
        let tok := sign ++ rest.takeWhile isDecimalDigit
        match ParseInt tok with
        | Except.ok v => Except.ok v
        | Except.error e => Except.error (ScanError.parseInt (String.mk tok) e)
      else Except.error ScanError.expectedInteger

/-! ## Link-speed probe (`modules/netbalance/scanner.go`) -/

/-- The errors of `parseSpeed`: "unsupported speed unit in ..." with the lowered string,
and "failed to parse speed value: ..." wrapping the error of `Sscanf`. -/
inductive SpeedError where
  | unsupportedUnit (speedStr : String) : SpeedError
  | parseValue (cause : ScanError) : SpeedError
deriving DecidableEq, Repr

/-- The function `parseSpeed`: the speed in Mb/s, or the error.  The product
`val * multiplier` is an `int` product, taken in 64 bits. -/
def parseSpeed (unicodeToLower : Char → Char) (speedStr : String) : Except SpeedError Int :=
  let speedStr := ToLower unicodeToLower speedStr
  if HasSuffix speedStr "gb/s" then
    match SscanfInt (TrimSuffix speedStr "gb/s") with
    | Except.error err => Except.error (SpeedError.parseValue err)
    | Except.ok val => Except.ok (wrapInt64 (val * 1000))
  else if HasSuffix speedStr "mb/s" then
    match SscanfInt (TrimSuffix speedStr "mb/s") with
    | Except.error err => Except.error (SpeedError.parseValue err)
    | Except.ok val => Except.ok (wrapInt64 (val * 1))
  else Except.error (SpeedError.unsupportedUnit speedStr)

/-- One run of the `ethtool` command as `ExecEthtoolSpeed` sees it: the errors of
`cmd.StdoutPipe()`, `cmd.Start()`, `scanner.Err()` and `cmd.Wait()` (`none` is `nil`), and
the lines that `scanner.Scan()` delivers. -/
structure EthtoolRun where
  pipeErr : Option String
  startErr : Option String
  lines : List String
  scanErr : Option String
  waitErr : Option String
deriving DecidableEq, Repr

/-- The errors of `ExecEthtoolSpeed`, in the order of the source: "failed to get stdout
pipe", "failed to start ethtool", "parse speed failed", "reading ethtool output failed",
"ethtool command failed" (each wrapping its cause) and "speed info not found in ethtool
output". -/
inductive ProbeError where
  | stdoutPipe (cause : String) : ProbeError
  | startFailed (cause : String) : ProbeError
  | parseSpeedFailed (cause : SpeedError) : ProbeError
  | readingFailed (cause : String) : ProbeError
  | commandFailed (cause : String) : ProbeError
  | speedNotFound : ProbeError
deriving DecidableEq, Repr

/-- The scan loop of `ExecEthtoolSpeed`: the values of `found` and `speedMbps` when the
loop is left, or the error returned from inside the loop. -/
def scanSpeedLines (unicodeToLower : Char → Char) :
    List String → Except ProbeError (Bool × Int)
  | [] => Except.ok (false, 0)
  | text :: more =>
    let line := TrimSpace text
    if HasPrefix line "Speed:" then
      let fields := Fields line
      if fields.length < 2 then scanSpeedLines unicodeToLower more
      else
        match parseSpeed unicodeToLower (fields.getD 1 "") with
        | Except.error err => Except.error (ProbeError.parseSpeedFailed err)
        | Except.ok speed => Except.ok (true, speed)
    else scanSpeedLines unicodeToLower more

/-- The method `Scanner.ExecEthtoolSpeed` (the version with the `found` flag of
`juice-refactor`; the other version tests `speedMbps == 0` alone, which is the same test
as `speedMbps` is 0 while nothing is found), on one run of the command. -/
def ExecEthtoolSpeed (unicodeToLower : Char → Char) (run : EthtoolRun) :
    Except ProbeError Int :=
  match run.pipeErr with
  | some err => Except.error (ProbeError.stdoutPipe err)
  | none =>
    match run.startErr with
    | some err => Except.error (ProbeError.startFailed err)
    | none =>
      match scanSpeedLines unicodeToLower run.lines with
      | Except.error err => Except.error err
      | Except.ok (found, speedMbps) =>
        match run.scanErr with
        | some err => Except.error (ProbeError.readingFailed err)
        | none =>
          match run.waitErr with
          | some err => Except.error (ProbeError.commandFailed err)
          | none =>
            if !found || speedMbps == 0 then Except.error ProbeError.speedNotFound
            else Except.ok speedMbps

/-! ## Discovery of devices and interfaces (`modules/netbalance/topology.go`, `scanner.go`) -/

/-- What the discovery reads from the host: the result of
`os.ReadFile("/sys/class/drm/card<id>/device/numa_node")` for every device id and of
`os.ReadFile` on `/sys/class/net/<iface>/device/numa_node` for every interface name (`none`
when the read fails), and the output lines of `ip -o link show` (`none` when the command
fails). -/
structure Host where
  cardNumaFile : Nat → Option String
  netNumaFile : String → Option String
  ipLinkShow : Option (List String)

/-- The NUMA node that `parseGPUNumaMapping` takes from the content of a `numa_node` file:
the integer in the trimmed content, or -1 when `strconv.Atoi` fails. -/
def numaOfContent (content : String) : Int :=
  match Atoi (TrimSpace content) with
  | some numa => numa
  | none => -1

/-- The loop of `parseGPUNumaMapping`, from device id `gpuID` on: it ends at the first id
whose file cannot be read.  `fuel` bounds the number of rounds; `none` means that the
bound was reached before the loop ended. -/
def parseGPUNumaLoop (cardNumaFile : Nat → Option String) :
    Nat → Nat → GoMap Int Int → Option (GoMap Int Int)
  | 0, _, _ => none
  | fuel + 1, gpuID, gpuNumaMap =>
    match cardNumaFile gpuID with
    | none => some gpuNumaMap
    | some content =>
      let numa := numaOfContent content
      parseGPUNumaLoop cardNumaFile fuel (gpuID + 1) (mapSet gpuNumaMap (gpuID : Int) numa)

/-- The function `parseGPUNumaMapping`: the map from device id to NUMA node, or the error
"no GPU NUMA info found in sysfs" when the map is empty. -/
def parseGPUNumaMapping (cardNumaFile : Nat → Option String) (fuel : Nat) :
    Option (Except String (GoMap Int Int)) :=
  match parseGPUNumaLoop cardNumaFile fuel 0 [] with
  | none => none
  | some gpuNumaMap =>
    if gpuNumaMap.length == 0 then some (Except.error "no GPU NUMA info found in sysfs")
    else some (Except.ok gpuNumaMap)

/-- The function `isVirtualInterface`: whether the name starts with one of the skipped
prefixes. -/
def isVirtualInterface (iface : String) : Bool :=
  ["lo", "docker", "br", "veth", "dummy", "ip6tnl", "virbr"].any
    (fun pre => HasPrefix iface pre)

/-- The function `GetInterfaceNUMANode`: the node in the interface's `numa_node` file, or
-1 when the file cannot be read, does not hold an integer, or holds a negative one. -/
def GetInterfaceNUMANode (host : Host) (iface : String) : Int :=
  match host.netNumaFile iface with
  | none => -1
  | some data =>
    match Atoi (TrimSpace data) with
    | none => -1
    | some numa => if numa < 0 then -1 else numa

/-- The first submatch of the regular expression `^\d+: ([^:@]+)[:@]` on a line, as
`re.FindStringSubmatch(line)` gives it in `matches[1]`: digits, a colon and a blank, then
the longest run of characters other than `:` and `@`, which has to be non-empty and
followed by `:` or `@`. -/
def linkNameOf (line : String) : Option String :=
  if (line.data.takeWhile isDecimalDigit).isEmpty then none
  else
    match line.data.dropWhile isDecimalDigit with
    | ':' :: ' ' :: rest =>
      let name := rest.takeWhile (fun c => !(c == ':' || c == '@'))
      if name.isEmpty then none
      else
        match rest.dropWhile (fun c => !(c == ':' || c == '@')) with
        | [] => none
        | _ :: _ => some (String.mk name)
    | _ => none

/-- The loop of `detectAllPhysicalInterfaces` over the lines of the `ip` output. -/
def collectPhysical (host : Host) (lines : List String) : List NetDeviceInfo :=
  lines.foldl
    (fun results line =>
      match linkNameOf line with
      | none => results
      | some iface =>
        if isVirtualInterface iface then results
        else results ++
          [{ Name := iface, NUMANode := GetInterfaceNUMANode host iface, IsVirtual := false }])
    []

/-- The function `detectAllPhysicalInterfaces`: no interface at all when `ip` fails. -/
def detectAllPhysicalInterfaces (host : Host) : List NetDeviceInfo :=
  match host.ipLinkShow with
  | none => []
  | some lines => collectPhysical host lines

/-- Modelled from the spec: the two-result `scanner.DetectAllPhysicalInterfaces()` that
`MapNUMATopology` calls is not among the sources; the sources have
`detectAllPhysicalInterfaces`, with one result, which answers a failed listing with no
interfaces.  The spec lets the aggregation fail only when no device is found and has every
other unreadable input skipped, so the call is taken as that function together with a
`nil` error. -/
def DetectAllPhysicalInterfaces (host : Host) : Except String (List NetDeviceInfo) :=
  Except.ok (detectAllPhysicalInterfaces host)

/-- The node under which `MapNUMATopology` files an entity of affinity `numaNode`: a
negative affinity counts as node 0. -/
def nodeOfAffinity (numaNode : Int) : Int :=
  if numaNode < 0 then 0 else numaNode

/-- The device ids of the map entries whose affinity belongs to node `node`, in the order
of the entries. -/
def gpusOfNode (entries : GoMap Int Int) (node : Int) : List Int :=
  (entries.filter (fun e => nodeOfAffinity e.2 == node)).map Prod.fst

/-- The names of the interfaces whose affinity belongs to node `node`, in the order of the
list. -/
def ifacesOfNode (netIfs : List NetDeviceInfo) (node : Int) : List String :=
  (netIfs.filter (fun i => nodeOfAffinity i.NUMANode == node)).map (fun i => i.Name)

namespace netbalance

/-- The method `NodeInfo.UpdateGPU`: the record after the call and the returned error
(`none` is `nil`). -/
def NodeInfo.UpdateGPU (n : NodeInfo) (index : Int) (gpu : GPUInfo) :
    NodeInfo × Option String :=
  if index < 0 ∨ index ≥ (n.GPUs.length : Int) then (n, some "gpu index out of range")
  else ({ n with GPUs := n.GPUs.set index.toNat gpu }, none)

/-- The method `NodeInfo.GetGPU`: the entry, or the zero `GPUInfo` and the error. -/
def NodeInfo.GetGPU (n : NodeInfo) (index : Int) : GPUInfo × Option String :=
  if index < 0 ∨ index ≥ (n.GPUs.length : Int) then
    ({ ID := "", Utilization := 0, MemoryUsed := 0 }, some "gpu index out of range")
  else (n.GPUs.getD index.toNat { ID := "", Utilization := 0, MemoryUsed := 0 }, none)

end netbalance

/-! ## JSON text (`encoding/json`) -/

/-- A JSON document as `encoding/json` reads it; a number is kept as its literal. -/
inductive Json where
  | null : Json
  | bool (b : Bool) : Json
  | num (lit : List Char) : Json
  | str (s : List Char) : Json
  | arr (elems : List Json) : Json
  | obj (members : List (List Char × Json)) : Json

/-- The ways in which `json.Unmarshal` fails: the text is no JSON document
(`SyntaxError`), or a value does not fit the Go type it is decoded into
(`UnmarshalTypeError`, with the name of the field). -/
inductive JsonError where
  | syntaxError : JsonError
  | typeError (field : String) : JsonError
deriving DecidableEq, Repr

/-- The escape that `json.Marshal` writes for a character of a string (Go 1.22 and later,
with HTML escaping, which `Marshal` always applies): quote and backslash get a backslash,
the control characters have their short form or `\u00XX`, the characters `<`, `>`, `&` and
the line separators U+2028, U+2029 are written as `\uXXXX`, everything else is copied. -/
def encodeChar (c : Char) : List Char :=
  if c == '"' then ['\\', '"']
  else if c == '\\' then ['\\', '\\']
  else if c == '\n' then ['\\', 'n']
  else if c == '\r' then ['\\', 'r']
  else if c == '\t' then ['\\', 't']
  else if c.toNat == 8 then ['\\', 'b']
  else if c.toNat == 12 then ['\\', 'f']
  else if c.toNat < 32 || c == '<' || c == '>' || c == '&' || c.toNat == 0x2028 ||
      c.toNat == 0x2029 then
    ['\\', 'u', Nat.digitChar (c.toNat / 4096 % 16), Nat.digitChar (c.toNat / 256 % 16),
      Nat.digitChar (c.toNat / 16 % 16), Nat.digitChar (c.toNat % 16)]
  else [c]

/-- The escapes of all characters of a string, in order. -/
def encodeChars : List Char → List Char
  | [] => []
  | c :: cs => encodeChar c ++ encodeChars cs

/-- A JSON string literal as `json.Marshal` writes it. -/
def encodeString (s : String) : List Char :=
  '"' :: (encodeChars s.data ++ ['"'])

/-- A Go `int` as `json.Marshal` writes it: decimal, with a minus sign when negative. -/
def encodeInt (i : Int) : List Char :=
  if i < 0 then '-' :: Nat.toDigits 10 (-i).toNat else Nat.toDigits 10 i.toNat

/-- JSON white space is skipped: blank, tab, carriage return, newline. -/
def jsonSkipSpace : List Char → List Char
  | [] => []
  | c :: cs =>
    if c == ' ' || c == '\t' || c == '\r' || c == '\n' then jsonSkipSpace cs else c :: cs

/-- The value of a hexadecimal digit. -/
def hexValue (c : Char) : Option Nat :=
  if 48 ≤ c.toNat ∧ c.toNat ≤ 57 then some (c.toNat - 48)
  else if 97 ≤ c.toNat ∧ c.toNat ≤ 102 then some (c.toNat - 87)
  else if 65 ≤ c.toNat ∧ c.toNat ≤ 70 then some (c.toNat - 55)
  else none

/-- The value of the four hexadecimal digits of a `\uXXXX` escape. -/
def hex4 (a b c d : Char) : Option Nat :=
  match hexValue a, hexValue b, hexValue c, hexValue d with
  | some x, some y, some z, some w => some (((x * 16 + y) * 16 + z) * 16 + w)
  | _, _, _, _ => none

/-- The character that a one-letter escape stands for. -/
def simpleEscape (e : Char) : Option Char :=
  if e == '"' then some '"'
  else if e == '\\' then some '\\'
  else if e == '/' then some '/'
  else if e == 'b' then some (Char.ofNat 8)
  else if e == 'f' then some (Char.ofNat 12)
  else if e == 'n' then some '\n'
  else if e == 'r' then some '\r'
  else if e == 't' then some '\t'
  else none

/-- One more character in front of the string read so far. -/
def consChar (c : Char) : Option (List Char × List Char) → Option (List Char × List Char)
  | some (s, rest) => some (c :: s, rest)
  | none => none

/-- The low surrogate that follows a high surrogate `hi`, when the text goes on with an
escape `\uXXXX` in the low surrogate range. -/
def lowSurrogate (hi : Nat) (cs : List Char) : Option Nat :=
  match cs with
  | b :: u :: l1 :: l2 :: l3 :: l4 :: _ =>
    match hex4 l1 l2 l3 l4 with
    | some lo =>
      if b == '\\' ∧ u == 'u' ∧ hi < 0xDC00 ∧ 0xDC00 ≤ lo ∧ lo < 0xE000 then some lo
      else none
    | none => none
  | _ => none

/-- The step of the string reader behind a `\u`: four hexadecimal digits give the
character; a value in the surrogate range is joined with a following low surrogate (and
that escape is consumed too), or stands for U+FFFD when there is none. -/
def unicodeStep (cs : List Char) : Option (Option Char × List Char) :=
  match cs with
  | h1 :: h2 :: h3 :: h4 :: rest =>
    match hex4 h1 h2 h3 h4 with
    | none => none
    | some hi =>
      if 0xD800 ≤ hi ∧ hi < 0xE000 then
        match lowSurrogate hi rest with
        | some lo =>
          some (some (Char.ofNat (0x10000 + (hi - 0xD800) * 0x400 + (lo - 0xDC00))),
            rest.drop 6)
        | none => some (some (Char.ofNat 0xFFFD), rest)
      else some (some (Char.ofNat hi), rest)
  | _ => none

/-- One step of the string reader: `none` for a syntax error (end of text, control
character, unknown escape); otherwise the text behind what was read, with `none` for the
closing quote or the character that was read. -/
def stringStep (cs : List Char) : Option (Option Char × List Char) :=
  match cs with
  | [] => none
  | c :: rest =>
    if c == '"' then some (none, rest)
    else if c == '\\' then
      match rest with
      | [] => none
      | e :: rest1 =>
        if e == 'u' then unicodeStep rest1
        else
          match simpleEscape e with
          | some ch => some (some ch, rest1)
          | none => none
    else if c.toNat < 32 then none
    else some (some c, rest)

/-- The loop of the string reader, at most `fuel` steps. -/
def parseStringLoop : Nat → List Char → Option (List Char × List Char)
  | 0, _ => none
  | fuel + 1, cs =>
    match stringStep cs with
    | none => none
    | some (none, rest) => some ([], rest)
    | some (some ch, rest) => consChar ch (parseStringLoop fuel rest)

/-- A JSON string literal is read, from behind its opening quote: the string and the text
behind the closing quote.  Every step takes at least one character, so the length of the
text bounds the number of steps. -/
def parseStringBody (cs : List Char) : Option (List Char × List Char) :=
  parseStringLoop (cs.length + 1) cs

/-- A run of digits that has to be non-empty: the run and the text behind it. -/
def scanDigits (cs : List Char) : Option (List Char × List Char) :=
  if (cs.takeWhile isDecimalDigit).isEmpty then none
  else some (cs.takeWhile isDecimalDigit, cs.dropWhile isDecimalDigit)

/-- The optional minus sign of a number literal, and the text behind it. -/
def scanSign (cs : List Char) : List Char × List Char :=
  match cs with
  | [] => ([], [])
  | c :: rest => if c == '-' then (['-'], rest) else ([], c :: rest)

/-- The integer part of a number literal: `0`, or a run of digits that does not start with
`0`. -/
def scanWhole (cs : List Char) : Option (List Char × List Char) :=
  match cs with
  | [] => none
  | d :: rest =>
    if d == '0' then some (['0'], rest)
    else if isDecimalDigit d then
      some (d :: rest.takeWhile isDecimalDigit, rest.dropWhile isDecimalDigit)
    else none

/-- The optional fraction of a number literal: a point and a run of digits. -/
def scanFraction (cs : List Char) : Option (List Char × List Char) :=
  match cs with
  | [] => some ([], [])
  | c :: rest =>
    if c == '.' then
      match scanDigits rest with
      | some (ds, rest1) => some ('.' :: ds, rest1)
      | none => none
    else some ([], c :: rest)

/-- The optional exponent of a number literal: `e` or `E`, an optional sign and a run of
digits. -/
def scanExponent (cs : List Char) : Option (List Char × List Char) :=
  match cs with
  | [] => some ([], [])
  | e :: rest =>
    if e == 'e' || e == 'E' then
      match rest with
      | [] => none
      | x :: rest1 =>
        if x == '+' || x == '-' then
          match scanDigits rest1 with
          | some (ds, rest2) => some (e :: x :: ds, rest2)
          | none => none
        else
          match scanDigits (x :: rest1) with
          | some (ds, rest2) => some (e :: ds, rest2)
          | none => none
    else some ([], e :: rest)

/-- A JSON number literal is read: sign, integer part, fraction and exponent.  The result
is the literal and the text behind it. -/
def scanNumber (cs : List Char) : Option (List Char × List Char) :=
  match scanWhole (scanSign cs).2 with
  | none => none
  | some (whole, rest1) =>
    match scanFraction rest1 with
    | none => none
    | some (frac, rest2) =>
      match scanExponent rest2 with
      | none => none
      | some (expo, rest3) => some ((scanSign cs).1 ++ whole ++ frac ++ expo, rest3)

mutual

/-- A JSON value is read: the document and the text behind it.  `fuel` bounds the number
of nested calls (one per value, member and element); a text never needs more than its
length. -/
def parseValue : Nat → List Char → Option (Json × List Char)
  | 0, _ => none
  | fuel + 1, cs =>
    match jsonSkipSpace cs with
    | [] => none
    | c :: rest =>
      if c == '"' then
        match parseStringBody rest with
        | some (s, rest1) => some (Json.str s, rest1)
        | none => none
      else if c == '\x7b' then
        match jsonSkipSpace rest with
        | [] => none
        | c1 :: rest1 =>
          if c1 == '\x7d' then some (Json.obj [], rest1)
          else
            match parseMembers fuel (c1 :: rest1) with
            | some (members, rest2) => some (Json.obj members, rest2)
            | none => none
      else if c == '[' then
        match jsonSkipSpace rest with
        | [] => none
        | c1 :: rest1 =>
          if c1 == ']' then some (Json.arr [], rest1)
          else
            match parseElems fuel (c1 :: rest1) with
            | some (elems, rest2) => some (Json.arr elems, rest2)
            | none => none
      else if c == 't' then
        match rest with
        | 'r' :: 'u' :: 'e' :: rest1 => some (Json.bool true, rest1)
        | _ => none
      else if c == 'f' then
        match rest with
        | 'a' :: 'l' :: 's' :: 'e' :: rest1 => some (Json.bool false, rest1)
        | _ => none
      else if c == 'n' then
        match rest with
        | 'u' :: 'l' :: 'l' :: rest1 => some (Json.null, rest1)
        | _ => none
      else
        match scanNumber (c :: rest) with
        | some (lit, rest1) => some (Json.num lit, rest1)
        | none => none

/-- The members of a JSON object are read, from the first key to the closing brace. -/
def parseMembers : Nat → List Char → Option (List (List Char × Json) × List Char)
  | 0, _ => none
  | fuel + 1, cs =>
    match jsonSkipSpace cs with
    | [] => none
    | q :: rest =>
      if q == '"' then
        match parseStringBody rest with
        | none => none
        | some (key, rest1) =>
          match jsonSkipSpace rest1 with
          | [] => none
          | colon :: rest2 =>
            if colon == ':' then
              match parseValue fuel rest2 with
              | none => none
              | some (v, rest3) =>
                match jsonSkipSpace rest3 with
                | [] => none
                | sep :: rest4 =>
                  if sep == ',' then
                    match parseMembers fuel rest4 with
                    | some (members, rest5) => some ((key, v) :: members, rest5)
                    | none => none
                  else if sep == '\x7d' then some ([(key, v)], rest4)
                  else none
            else none
      else none

/-- The elements of a JSON array are read, from the first element to the closing
bracket. -/
def parseElems : Nat → List Char → Option (List Json × List Char)
  | 0, _ => none
  | fuel + 1, cs =>
    match parseValue fuel cs with
    | none => none
    | some (v, rest) =>
      match jsonSkipSpace rest with
      | [] => none
      | sep :: rest1 =>
        if sep == ',' then
          match parseElems fuel rest1 with
          | some (elems, rest2) => some (v :: elems, rest2)
          | none => none
        else if sep == ']' then some ([v], rest1)
        else none

end

/-- The whole text is read as one JSON document, with nothing but white space behind
it. -/
def parseJson (data : String) : Option Json :=
  match parseValue (data.data.length + 1) data.data with
  | some (doc, rest) => if (jsonSkipSpace rest).isEmpty then some doc else none
  | none => none

/-- The folding under which `json.Unmarshal` compares a key with a field name when no
field has exactly the key as its name: the letters `a` to `z` count as
their capitals, and so do the long s (U+017F) and the Kelvin sign (U+212A).  The simple
folding of the other characters is left out: it never meets a letter of an ASCII field
name. -/
def foldRune (c : Char) : Char :=
  if 97 ≤ c.toNat ∧ c.toNat ≤ 122 then Char.ofNat (c.toNat - 32)
  else if c.toNat == 0x17F then 'S'
  else if c.toNat == 0x212A then 'K'
  else c

/-- The index of the struct field that a key of a JSON object is decoded into: the field
with exactly this name, else the first field whose name equals the key under folding. -/
def fieldIndex (names : List String) (key : List Char) : Option Nat :=
  match names.findIdx? (fun name => name.data == key) with
  | some i => some i
  | none => names.findIdx? (fun name => name.data.map foldRune == key.map foldRune)

/-- A JSON value is decoded into a Go `string` that holds `old`: `null` leaves it as it
is, a string is stored, anything else is a type error. -/
def decodeString (field : String) (v : Json) (old : String) : Except JsonError String :=
  match v with
  | Json.null => Except.ok old
  | Json.str s => Except.ok (String.mk s)
  | _ => Except.error (JsonError.typeError field)

/-- A JSON value is decoded into a Go `int` that holds `old`: `null` leaves it as it is, a
number has to be a decimal integer in the `int64` range. -/
def decodeInt (field : String) (v : Json) (old : Int) : Except JsonError Int :=
  match v with
  | Json.null => Except.ok old
  | Json.num lit =>
    match ParseInt lit with
    | Except.ok n => Except.ok n
    | Except.error _ => Except.error (JsonError.typeError field)
  | _ => Except.error (JsonError.typeError field)

namespace netbalance

/-- The members of a JSON object are decoded one after the other into a `GPUInfo`: the
fields are found by their tags `id`, `utilization`, `memory_used`, a key without a field is
skipped. -/
def decodeGPUMembers : List (List Char × Json) → GPUInfo → Except JsonError GPUInfo
  | [], g => Except.ok g
  | (key, v) :: more, g =>
    match fieldIndex ["id", "utilization", "memory_used"] key with
    | some 0 =>
      match decodeString "id" v g.ID with
      | Except.ok s => decodeGPUMembers more { g with ID := s }
      | Except.error e => Except.error e
    | some 1 =>
      match decodeInt "utilization" v g.Utilization with
      | Except.ok i => decodeGPUMembers more { g with Utilization := i }
      | Except.error e => Except.error e
    | some 2 =>
      match decodeInt "memory_used" v g.MemoryUsed with
      | Except.ok i => decodeGPUMembers more { g with MemoryUsed := i }
      | Except.error e => Except.error e
    | _ => decodeGPUMembers more g

/-- A JSON value is decoded into a `GPUInfo` that holds `old`. -/
def decodeGPUInfo (v : Json) (old : GPUInfo) : Except JsonError GPUInfo :=
  match v with
  | Json.null => Except.ok old
  | Json.obj members => decodeGPUMembers members old
  | _ => Except.error (JsonError.typeError "gpus")

/-- The elements of a JSON array are decoded into a slice: the element at index `i` is
decoded into the entry that the slice held at `i` before, or into a zero `GPUInfo`. -/
def decodeGPUElems : List Json → List GPUInfo → Except JsonError (List GPUInfo)
  | [], _ => Except.ok []
  | e :: es, old =>
    match decodeGPUInfo e (old.headD { ID := "", Utilization := 0, MemoryUsed := 0 }) with
    | Except.error err => Except.error err
    | Except.ok g =>
      match decodeGPUElems es old.tail with
      | Except.error err => Except.error err
      | Except.ok gs => Except.ok (g :: gs)

/-- A JSON value is decoded into the field `GPUs`: `null` empties the slice. -/
def decodeGPUs (v : Json) (old : List GPUInfo) : Except JsonError (List GPUInfo) :=
  match v with
  | Json.null => Except.ok []
  | Json.arr elems => decodeGPUElems elems old
  | _ => Except.error (JsonError.typeError "gpus")

/-- Whether the slice is `nil` after a JSON value was decoded into it: `null` sets the
slice to `nil`; an array, also an empty one, leaves a slice that is not `nil`. -/
def nilAfterDecode (v : Json) : Bool :=
  match v with
  | Json.null => true
  | _ => false

/-- The members of a JSON object are decoded one after the other into a `NodeInfo`: the
fields that the declaration in `netbalance.go` exports are `IP` with the tag `ip` and
`GPUs` with the tag `gpus`. -/
def decodeNodeMembers : List (List Char × Json) → NodeInfo → Except JsonError NodeInfo
  | [], n => Except.ok n
  | (key, v) :: more, n =>
    match fieldIndex ["ip", "gpus"] key with
    | some 0 =>
      match decodeString "ip" v n.IP with
      | Except.ok s => decodeNodeMembers more { n with IP := s }
      | Except.error e => Except.error e
    | some 1 =>
      match decodeGPUs v n.GPUs with
      | Except.ok gpus =>
        decodeNodeMembers more { n with GPUs := gpus, GPUsNil := nilAfterDecode v }
      | Except.error e => Except.error e
    | _ => decodeNodeMembers more n

/-- Go `json.Unmarshal(data, &node)` for a zero `node` of type `NodeInfo` (whose slice
`GPUs` is `nil`): the text has to be one JSON document; `null` leaves the record as it is,
an object is decoded member by member, any other value is a type error. -/
def unmarshalNodeInfo (data : String) : Except JsonError NodeInfo :=
  match parseJson data with
  | none => Except.error JsonError.syntaxError
  | some Json.null =>
    Except.ok { IP := "", GPUs := [], LastSeen := 0, NetBandwidth := 0, GPUsNil := true }
  | some (Json.obj members) =>
    decodeNodeMembers members
      { IP := "", GPUs := [], LastSeen := 0, NetBandwidth := 0, GPUsNil := true }
  | some _ => Except.error (JsonError.typeError "")

/-- The text that `json.Marshal` writes for a `GPUInfo`: an object with the members `id`,
`utilization`, `memory_used`, in the order of the fields. -/
def encodeGPUInfo (g : GPUInfo) : List Char :=
  '\x7b' :: (encodeString "id" ++ ':' :: (encodeString g.ID ++ ',' ::
    (encodeString "utilization" ++ ':' :: (encodeInt g.Utilization ++ ',' ::
      (encodeString "memory_used" ++ ':' :: (encodeInt g.MemoryUsed ++ ['\x7d']))))))

/-- The further elements of the array of devices, each behind a comma, and the closing
bracket. -/
def encodeGPUTail : List GPUInfo → List Char
  | [] => [']']
  | g :: gs => ',' :: (encodeGPUInfo g ++ encodeGPUTail gs)

/-- The text that `json.Marshal` writes for a slice of `GPUInfo` that is not `nil`: an
array, `[]` when the slice is empty. -/
def encodeGPUs : List GPUInfo → List Char
  | [] => ['[', ']']
  | g :: gs => '[' :: (encodeGPUInfo g ++ encodeGPUTail gs)

/-- The text that `json.Marshal` writes for the slice `GPUs` of a record: `null` for a
`nil` slice, the array of the entries otherwise. -/
def encodeGPUSlice (n : NodeInfo) : List Char :=
  if n.GPUsNil && n.GPUs.isEmpty then ['n', 'u', 'l', 'l'] else encodeGPUs n.GPUs

/-- The text that `json.Marshal` writes for a `NodeInfo`: an object with the members `ip`
and `gpus`; the lock is not exported and not written. -/
def encodeNodeInfo (n : NodeInfo) : List Char :=
  '\x7b' :: (encodeString "ip" ++ ':' :: (encodeString n.IP ++ ',' ::
    (encodeString "gpus" ++ ':' :: (encodeGPUSlice n ++ ['\x7d']))))

/-- The method `NodeInfo.ToJSON`: the text and the error (`none` is `nil`; `json.Marshal`
has no error for a record of strings, integers and slices). -/
def NodeInfo.ToJSON (n : NodeInfo) : String × Option JsonError :=
  (String.mk (encodeNodeInfo n), none)

/-- The function `FromJSON`: the record, or the error of `json.Unmarshal`. -/
def FromJSON (data : String) : Except JsonError NodeInfo :=
  unmarshalNodeInfo data

end netbalance

namespace netbalance

/-- The JSON document that the text written for a `GPUInfo` stands for. -/
def gpuDocument (g : GPUInfo) : Json :=
  Json.obj [("id".data, Json.str g.ID.data),
    ("utilization".data, Json.num (encodeInt g.Utilization)),
    ("memory_used".data, Json.num (encodeInt g.MemoryUsed))]

/-- The JSON value that the text written for the slice `GPUs` stands for. -/
def sliceDocument (n : NodeInfo) : Json :=
  if n.GPUsNil && n.GPUs.isEmpty then Json.null else Json.arr (n.GPUs.map gpuDocument)

/-- The JSON document that the text written by `ToJSON` stands for. -/
def documentOf (n : NodeInfo) : Json :=
  Json.obj [("ip".data, Json.str n.IP.data), ("gpus".data, sliceDocument n)]

end netbalance

/-- The field names of a JSON object, in the order of the text; `none` for a document that
is no object. -/
def Json.memberNames : Json → Option (List String)
  | Json.obj members => some (members.map (fun m => String.mk m.1))
  | _ => none

/-- The elements of a JSON array; a value that is no array has none. -/
def Json.elements : Json → List Json
  | Json.arr elems => elems
  | _ => []

/-- The value that a JSON object holds under the field name `name`. -/
def Json.member (name : String) : Json → Option Json
  | Json.obj members => (members.find? (fun m => m.1 == name.data)).map Prod.snd
  | _ => none

/-! ## Default interface (`modules/netbalance/scanner.go`) -/

/-- The function `fallbackInterface`: the interface name assumed when none is found, by
the value of `runtime.GOARCH`. -/
def fallbackInterface (goarch : String) : String :=
  if goarch == "ppc64le" then "ens1f0" else "eth0"

/-- The function `detectDefaultInterface` of `modules/netbalance/scanner.go`: the first
physical interface, or the fallback. -/
def detectDefaultInterface (host : Host) (goarch : String) : String :=
  match detectAllPhysicalInterfaces host with
  | info :: _ => info.Name
  | [] => fallbackInterface goarch

namespace refactor

/-- The loop of `detectDefaultInterface` in `juice-refactor/modules/netbalance/scanner.go`:
the name on the first line that shows an interface which is not virtual. -/
def firstPhysical : List String → Option String
  | [] => none
  | line :: more =>
    match linkNameOf line with
    | none => firstPhysical more
    | some iface => if isVirtualInterface iface then firstPhysical more else some iface

/-- The function `detectDefaultInterface` of
`juice-refactor/modules/netbalance/scanner.go`: the fallback when `ip` fails or shows no
physical interface. -/
def detectDefaultInterface (host : Host) (goarch : String) : String :=
  match host.ipLinkShow with
  | none => fallbackInterface goarch
  | some lines =>
    match firstPhysical lines with
    | some iface => iface
    | none => fallbackInterface goarch

end refactor

/-! ## The `start` command (`cmd/aitherion/start.go`) -/

/-- The struct `config.CLIConfig`. -/
structure CLIConfig where
  EnableMemExt : Bool
  MemExtSizeMB : Int
  MemExtRatio : Float
  EnableHugePages : Bool
  DisableNUMABinding : Bool
  EnableNetBalance : Bool
  GRPCBasePort : Int
  ImageName : String
  Tag : String
  DryRun : Bool
  NumNUMA : Int
  CurrentNUMAIndex : Int

/-- What a run of the `start` command leaves behind: the package variable `cfg`, the calls
of `utils.StartContainerForNUMA` in order (the configuration handed over by value and the
index), and the exit code when the command ends the process with `os.Exit`. -/
structure StartRun where
  cfg : CLIConfig
  launches : List (CLIConfig × Int)
  exitCode : Option Int

/-- The loop `for i := 0; i < startNum; i++` of the `start` command from index `i` on, with
`remaining` the number of indexes below `startNum` that are left.  The helper
`utils.StartContainerForNUMA` is not among the sources and is the argument of the same name:
its result is the error (`none` is `nil`).  The sum `cfg.GRPCBasePort + i` is an `int` sum,
taken in 64 bits. -/
def startLoop (StartContainerForNUMA : CLIConfig → Int → Option String) :
    Nat → Int → StartRun → StartRun
  | 0, _, run => run
  | remaining + 1, i, run =>
    let cfg := { run.cfg with GRPCBasePort := wrapInt64 (run.cfg.GRPCBasePort + i),
                              CurrentNUMAIndex := i }
    let run := { run with cfg := cfg, launches := run.launches ++ [(cfg, i)] }
    match StartContainerForNUMA cfg i with
    | some _ => { run with exitCode := some 1 }
    | none => startLoop StartContainerForNUMA remaining (i + 1) run

/-- The function `Run` of `startCmd`, given the result of `filepath.Glob` on the topology
directory and whether the flag `no-numa-bind` was set on the command line. -/
def startCmdRun (StartContainerForNUMA : CLIConfig → Int → Option String)
    (numaFiles : Except String (List String)) (noNumaBindChanged : Bool) (cfg : CLIConfig) :
    StartRun :=
  match numaFiles with
  | Except.error _ => { cfg := cfg, launches := [], exitCode := some 1 }
  | Except.ok numaFiles =>
    if numaFiles.length == 0 then { cfg := cfg, launches := [], exitCode := some 1 }
    else
      let startNum : Int :=
        if cfg.NumNUMA > 0 ∧ cfg.NumNUMA < (numaFiles.length : Int) then cfg.NumNUMA
        else (numaFiles.length : Int)
      let cfg := if !noNumaBindChanged then { cfg with DisableNUMABinding := false } else cfg
      startLoop StartContainerForNUMA startNum.toNat 0
        { cfg := cfg, launches := [], exitCode := none }

/-- The function `DefaultCLIConfig`, which holds the defaults of the flags as well. -/
def DefaultCLIConfig : CLIConfig :=
  { EnableMemExt := false, MemExtSizeMB := 0, MemExtRatio := 0.9, EnableHugePages := true,
    DisableNUMABinding := false, EnableNetBalance := false, GRPCBasePort := 50051,
    ImageName := "aitherion-server", Tag := "latest", DryRun := false, NumNUMA := 0,
    CurrentNUMAIndex := 0 }

/-- The port rule of the sibling `utils.StartContainers` (`cmd/aitherion/utils/docker.go`):
`grpcPort := cfg.GRPCBasePort + i`. -/
def siblingGrpcPort (cfg : CLIConfig) (i : Int) : Int :=
  wrapInt64 (cfg.GRPCBasePort + i)

/-! ## The order of the returned groups (`modules/netbalance/topology.go`) -/

/-- The slices that a call of `MapNUMATopology` may return.  The last loop,
`for _, group := range groups`, appends the groups in the order in which `range` visits the
map, and Go leaves that order open (it differs from run to run): every ordering of the
groups is a possible result. -/
def mayReturn (netIfs : Except String (List NetDeviceInfo))
    (gpuNumaMap : Except String (GoMap Int Int)) (result : List NUMAGroup) : Prop :=
  match MapNUMATopology netIfs gpuNumaMap with
  | Except.ok groups => result.Perm groups
  | Except.error _ => False

/-! ## Topology files (`cmd/juice/utils/topogen.go`) -/

/-- The first result of Go `strconv.Atoi(s)` on a 64-bit platform, which is what a caller
that drops the error keeps: the value, 0 after a syntax error, and after a range error the
bound of `int64` on the side of the sign. -/
def AtoiValue (s : String) : Int :=
  match ParseInt s.data with
  | Except.ok n => n
  | Except.error NumError.invalidSyntax => 0
  | Except.error NumError.outOfRange =>
    if s.data.head? == some '-' then -9223372036854775808 else 9223372036854775807

/-- The first result of Go `strconv.ParseUint(s, 10, 64)`: the value, 0 after a syntax
error (which an empty string is), the largest `uint64` after a range error. -/
def ParseUintValue (s : String) : Nat :=
  match s.data with
  | [] => 0
  | c :: cs =>
    match parseUintLoop (c :: cs) 0 with
    | none => 0
    | some none => 18446744073709551615
    | some (some n) => n

/-- The loop of Go `strings.Split(s, "\n")`: `cur` holds the characters of the piece being
read, last one first. -/
def splitLoop : List Char → List Char → List String
  | [], cur => [String.mk cur.reverse]
  | c :: cs, cur =>
    if c == '\n' then String.mk cur.reverse :: splitLoop cs [] else splitLoop cs (c :: cur)

/-- Go `strings.Split(s, "\n")`: the pieces between the newlines (one piece more than
there are newlines). -/
def SplitLines (s : String) : List String :=
  splitLoop s.data []

/-- Go `strings.Join(elems, sep)`. -/
def Join (elems : List String) (sep : String) : String :=
  sep.intercalate elems

/-- The value type of `numaMap` in `GenerateTopologyFiles`: the anonymous struct with the
fields `GPUs`, `IFaces` and `Memory` (a `uint64`). -/
structure NumaInfo where
  GPUs : List String
  IFaces : List String
  Memory : Nat
deriving DecidableEq, Repr

/-- What `GenerateTopologyFiles` reads from the machine: the error of `os.MkdirAll`
(`none` is `nil`), the entry names that `ioutil.ReadDir` lists under `/sys/class/drm` and
under `/sys/class/net` (sorted by name; nothing when the directory cannot be read), the
content of the file `device/numa_node` of an entry of either directory, and the content of
the file `meminfo` of a node (`none` when `os.ReadFile` fails). -/
structure TopoHost where
  mkdirErr : Option String
  drmEntries : List String
  drmNumaFile : String → Option String
  netEntries : List String
  netNumaFile : String → Option String
  meminfo : Int → Option String

/-- Go `numaMap[nodeID]` on the map of `GenerateTopologyFiles`: the stored struct, or the
zero struct when the node is absent. -/
def numaInfoAt (numaMap : GoMap Int NumaInfo) (nodeID : Int) : NumaInfo :=
  match mapLookup numaMap nodeID with
  | some info => info
  | none => { GPUs := [], IFaces := [], Memory := 0 }

/-- Body of the first loop of `GenerateTopologyFiles`, for one entry of `/sys/class/drm`:
an entry that is no `card`, whose file cannot be read or whose node is negative is passed
over with `continue`. -/
def scanCard (host : TopoHost) (numaMap : GoMap Int NumaInfo) (name : String) :
    GoMap Int NumaInfo :=
  if !HasPrefix name "card" then numaMap
  else
    match host.drmNumaFile name with
    | none => numaMap
    | some data =>
      let nodeID := AtoiValue (TrimSpace data)
      if nodeID < 0 then numaMap
      else
        let info := numaInfoAt numaMap nodeID
        mapSet numaMap nodeID { info with GPUs := info.GPUs ++ [name] }

/-- Body of the second loop of `GenerateTopologyFiles`, for one entry of
`/sys/class/net`. -/
def scanNet (host : TopoHost) (numaMap : GoMap Int NumaInfo) (name : String) :
    GoMap Int NumaInfo :=
  match host.netNumaFile name with
  | none => numaMap
  | some data =>
    let nodeID := AtoiValue (TrimSpace data)
    if nodeID < 0 then numaMap
    else
      let info := numaInfoAt numaMap nodeID
      mapSet numaMap nodeID { info with IFaces := info.IFaces ++ [name] }

/-- The inner loop of the third loop over the lines of a `meminfo` file: the first line
that starts with `MemTotal:` ends the loop; when it has two fields or more, the memory in
bytes is `memKb * 1024` in `uint64` arithmetic. -/
def memTotalBytes : List String → Option Nat
  | [] => none
  | line :: more =>
    if HasPrefix line "MemTotal:" then
      match Fields line with
      | _ :: kb :: _ => some (ParseUintValue kb * 1024 % 2 ^ 64)
      | _ => none
    else memTotalBytes more

/-- Body of the third loop of `GenerateTopologyFiles`, for one node of the map. -/
def scanMemory (host : TopoHost) (numaMap : GoMap Int NumaInfo) (node : Int) :
    GoMap Int NumaInfo :=
  match host.meminfo node with
  | none => numaMap
  | some data =>
    match memTotalBytes (SplitLines data) with
    | none => numaMap
    | some bytes =>
      let info := numaInfoAt numaMap node
      mapSet numaMap node { info with Memory := bytes }

/-- The map `numaMap` of `GenerateTopologyFiles` after its three scanning loops.  The
third loop visits the nodes in the order of `range`; each node only touches its own
entry. -/
def topologyMap (host : TopoHost) : GoMap Int NumaInfo :=
  let numaMap := host.drmEntries.foldl (scanCard host) []
  let numaMap := host.netEntries.foldl (scanNet host) numaMap
  (numaMap.map Prod.fst).foldl (scanMemory host) numaMap

/-- The three files that the last loop of `GenerateTopologyFiles` writes for one node, as
pairs of path and content.  The text of the memory size is `fmt.Sprintf("%.2f", memGb)`
with `memGb := float64(info.Memory) / 1e9`, a floating-point computation that is taken as
the argument `formatGb`. -/
def nodeFiles (formatGb : Nat → String) (entry : Int × NumaInfo) : List (String × String) :=
  [("/var/lib/juice/topology/numa" ++ String.mk (encodeInt entry.1) ++ "_gpus.txt",
      Join entry.2.GPUs ","),
   ("/var/lib/juice/topology/numa" ++ String.mk (encodeInt entry.1) ++ "_iface.txt",
      Join entry.2.IFaces ","),
   ("/var/lib/juice/topology/numa" ++ String.mk (encodeInt entry.1) ++ "_mem_gb.txt",
      formatGb entry.2.Memory)]

/-- The result of `GenerateTopologyFiles`: the returned error and the files written (the
errors of `os.WriteFile` are dropped by the code). -/
structure TopologyOutput where
  err : Option String
  files : List (String × String)
deriving DecidableEq, Repr

/-- The function `GenerateTopologyFiles`: nothing is written when the directory cannot be
made; otherwise the files of every node of the map. -/
def GenerateTopologyFiles (formatGb : Nat → String) (host : TopoHost) : TopologyOutput :=
  match host.mkdirErr with
  | some err => { err := some ("创建目录失败: " ++ err), files := [] }
  | none =>
    { err := none,
      files := (topologyMap host).foldl (fun files entry => files ++ nodeFiles formatGb entry) [] }

/-- The invariant of `numaMap` used below: the entry of node `node` lists only cards and
interfaces whose affinity file is readable and holds `node`, and `node` is not negative. -/
def wellFiled (host : TopoHost) (node : Int) (info : NumaInfo) : Prop :=
  0 ≤ node ∧
  (∀ name ∈ info.GPUs, ∃ data, host.drmNumaFile name = some data ∧
    AtoiValue (TrimSpace data) = node) ∧
  (∀ name ∈ info.IFaces, ∃ data, host.netNumaFile name = some data ∧
    AtoiValue (TrimSpace data) = node)

/-- A machine without NUMA nodes next to one device on node 0: `card0` and the interface
`eth0` report the affinity -1, `card1` and `eth1` report node 0. -/
def flatHost : TopoHost :=
  { mkdirErr := none,
    drmEntries := ["card0", "card1", "renderD128"],
    drmNumaFile := fun name =>
      if name == "card0" then some "-1\n" else if name == "card1" then some "0\n" else none,
    netEntries := ["eth0", "eth1", "lo"],
    netNumaFile := fun name =>
      if name == "eth0" then some "-1\n" else if name == "eth1" then some "0\n" else none,
    meminfo := fun _ => none }

/-! ## Texts that start with a decimal integer -/

/-- The value of a run of decimal digits, read from left to right. -/
def digitsValue (digits : List Char) : Nat :=
  digits.foldl (fun a c => a * 10 + (c.toNat - 48)) 0

/-- The text starts with the decimal integer `value`: white space without a newline, an
optional sign, and a run of decimal digits that is not empty and not continued by a further
digit, whose value with the sign is `value` and lies in the range of a signed 64-bit
integer.  What follows the digits is free. -/
def StartsWithInteger (text : List Char) (value : Int) : Prop :=
  ∃ ws sign digits rest, text = ws ++ (sign ++ (digits ++ rest)) ∧
    (∀ c ∈ ws, unicodeIsSpace c = true ∧ c ≠ '\n') ∧
    (sign = [] ∨ sign = ['+'] ∨ sign = ['-']) ∧
    digits ≠ [] ∧ (∀ c ∈ digits, isDecimalDigit c = true) ∧
    (∀ c ∈ rest.head?, isDecimalDigit c = false) ∧
    value = (if sign = ['-'] then -(digitsValue digits : Int) else (digitsValue digits : Int)) ∧
    -9223372036854775808 ≤ value ∧ value < 9223372036854775808

/-! ## Properties of the map operations -/

section MapLemmas

variable {κ ν : Type} [DecidableEq κ]

theorem find?_filter_self (m : GoMap κ ν) (k : κ) :
    (List.filter (fun e => !(e.1 == k)) m).find? (fun e => e.1 == k) = none := by
  rw [List.find?_eq_none]
  intro x hx
  have := (List.mem_filter.mp hx).2
  simpa using this

theorem find?_filter_ne (m : GoMap κ ν) (k j : κ) (h : j ≠ k) :
    (List.filter (fun e => !(e.1 == k)) m).find? (fun e => e.1 == j)
      = m.find? (fun e => e.1 == j) := by
  induction m with
  | nil => rfl
  | cons e m ih =>
    by_cases hk : e.1 = k
    · have hj : (e.1 == j) = false := by
        rw [beq_eq_false_iff_ne]
        exact fun hj => h (hj.symm.trans hk)
      rw [List.filter_cons_of_neg (by simp [hk]), List.find?_cons_of_neg _ (by simp [hj])]
      exact ih
    · rw [List.filter_cons_of_pos (by simp [hk])]
      by_cases hj : e.1 = j
      · rw [List.find?_cons_of_pos _ (by simp [hj]), List.find?_cons_of_pos _ (by simp [hj])]
      · rw [List.find?_cons_of_neg _ (by simp [hj]), List.find?_cons_of_neg _ (by simp [hj])]
        exact ih

theorem mapLookup_mapDelete_self (m : GoMap κ ν) (k : κ) :
    mapLookup (mapDelete m k) k = none := by
  unfold mapLookup mapDelete
  rw [find?_filter_self]

theorem mapLookup_mapDelete_ne (m : GoMap κ ν) (k j : κ) (h : j ≠ k) :
    mapLookup (mapDelete m k) j = mapLookup m j := by
  unfold mapLookup mapDelete
  rw [find?_filter_ne m k j h]

theorem mapLookup_mapSet_self (m : GoMap κ ν) (k : κ) (v : ν) :
    mapLookup (mapSet m k v) k = some v := by
  simp [mapLookup, mapSet]

theorem mapLookup_mapSet_ne (m : GoMap κ ν) (k j : κ) (v : ν) (h : j ≠ k) :
    mapLookup (mapSet m k v) j = mapLookup m j := by
  have hkj : ¬ ((fun e : κ × ν => e.1 == j) (k, v)) = true := by
    simp only [beq_iff_eq]
    exact fun e => h e.symm
  have := mapLookup_mapDelete_ne m k j h
  unfold mapLookup at this ⊢
  unfold mapSet
  rw [List.find?_cons_of_neg (p := fun e : κ × ν => e.1 == j) _ hkj]
  exact this

theorem mem_of_mapLookup (m : GoMap κ ν) (k : κ) (v : ν) (h : mapLookup m k = some v) :
    (k, v) ∈ m := by
  unfold mapLookup at h
  cases hf : m.find? (fun e => e.1 == k) with
  | none => rw [hf] at h; cases h
  | some e =>
    rw [hf] at h
    have hmem := List.mem_of_find?_eq_some hf
    have hk : e.1 = k := by simpa using List.find?_some hf
    have hv : e.2 = v := by simpa using h
    rw [← hk, ← hv]
    exact hmem

theorem mem_mapSet (m : GoMap κ ν) (k : κ) (v : ν) (e : κ × ν) :
    e ∈ mapSet m k v ↔ e = (k, v) ∨ (e ∈ m ∧ e.1 ≠ k) := by
  unfold mapSet mapDelete
  simp [List.mem_filter]

end MapLemmas

theorem mapGet_mapDelete_self (m : BoolMap) (k : String) : mapGet (mapDelete m k) k = false := by
  unfold mapGet
  rw [mapLookup_mapDelete_self]

theorem mapGet_mapSet_self (m : BoolMap) (k : String) (v : Bool) :
    mapGet (mapSet m k v) k = v := by
  unfold mapGet
  rw [mapLookup_mapSet_self]

theorem mapGet_mapDelete_ne (m : BoolMap) (k j : String) (h : j ≠ k) :
    mapGet (mapDelete m k) j = mapGet m j := by
  unfold mapGet
  rw [mapLookup_mapDelete_ne m k j h]

theorem mapGet_mapSet_ne (m : BoolMap) (k j : String) (v : Bool) (h : j ≠ k) :
    mapGet (mapSet m k v) j = mapGet m j := by
  unfold mapGet
  rw [mapLookup_mapSet_ne m k j v h]

/-! ## Lease scheduler: auxiliary facts -/

theorem isInUse_release_self (s : Scheduler) (uuid : String) :
    (s.Release uuid).IsInUse uuid = false := by
  unfold Scheduler.Release Scheduler.IsInUse
  by_cases h : mapGet s.inUse uuid = true
  · simp only [h, if_true]
    exact mapGet_mapDelete_self _ _
  · simp only [h]
    simpa using h

theorem isInUse_release_of_free (s : Scheduler) (u v : String)
    (h : s.IsInUse u = false) : (s.Release v).IsInUse u = false := by
  by_cases huv : u = v
  · subst huv
    exact isInUse_release_self s u
  · unfold Scheduler.Release Scheduler.IsInUse at *
    by_cases hv : mapGet s.inUse v = true
    · simp only [hv, if_true]
      rw [mapGet_mapDelete_ne _ _ _ huv]
      exact h
    · simp only [hv]
      exact h

theorem isInUse_timeoutFires_of_free (s : Scheduler) (u : String) (t : Nat)
    (h : s.IsInUse u = false) : (s.timeoutFires t).IsInUse u = false := by
  unfold Scheduler.timeoutFires
  cases ht : s.tasks[t]? with
  | none => exact h
  | some task =>
    by_cases hd : task.done = true
    · simp only [hd, if_true]
      exact h
    · simp only [hd, Bool.false_eq_true, if_false]
      exact isInUse_release_of_free _ u task.uuid h

theorem isInUse_acquire_other_of_free (s : Scheduler) (u v : String) (huv : v ≠ u)
    (h : s.IsInUse u = false) : (s.Acquire v).1.IsInUse u = false := by
  unfold Scheduler.Acquire Scheduler.IsInUse at *
  by_cases hv : mapGet s.inUse v = true
  · simp only [hv, if_true]
    exact h
  · simp only [hv, Bool.false_eq_true, if_false]
    rw [mapGet_mapSet_ne _ _ _ _ (Ne.symm huv)]
    exact h

theorem isInUse_run_of_free (later : List Event) (s : Scheduler) (u : String)
    (hlater : Event.acquire u ∉ later) (h : s.IsInUse u = false) :
    (s.run later).IsInUse u = false := by
  induction later generalizing s with
  | nil => exact h
  | cons e es ih =>
    have he : Event.acquire u ≠ e := fun c => hlater (c ▸ List.mem_cons_self _ _)
    have hes : Event.acquire u ∉ es := fun c => hlater (List.mem_cons_of_mem _ c)
    show ((s.step e).run es).IsInUse u = false
    apply ih _ hes
    cases e with
    | acquire v =>
      have hv : v ≠ u := fun c => he (by rw [c])
      exact isInUse_acquire_other_of_free s u v hv h
    | release v => exact isInUse_release_of_free s u v h
    | timeout t => exact isInUse_timeoutFires_of_free s u t h

theorem tasks_release (s : Scheduler) (uuid : String) : (s.Release uuid).tasks = s.tasks := by
  unfold Scheduler.Release
  split <;> rfl

theorem pending_step (s : Scheduler) (e : Event) (t : Nat) (task : TimeoutTask)
    (he : e ≠ Event.timeout t) (h : s.tasks[t]? = some task) :
    (s.step e).tasks[t]? = some task := by
  cases e with
  | acquire v =>
    show (s.Acquire v).1.tasks[t]? = some task
    unfold Scheduler.Acquire
    by_cases hv : mapGet s.inUse v = true
    · simp only [hv, if_true]
      exact h
    · simp only [hv, Bool.false_eq_true, if_false]
      have hlt : t < s.tasks.length := by
        rcases List.getElem?_eq_some_iff.mp h with ⟨hlt, _⟩
        exact hlt
      show (s.tasks ++ [_])[t]? = some task
      rw [List.getElem?_append_left hlt]
      exact h
  | release v =>
    show (s.Release v).tasks[t]? = some task
    rw [tasks_release]
    exact h
  | timeout t2 =>
    have hne : t2 ≠ t := fun c => he (by rw [c])
    show (s.timeoutFires t2).tasks[t]? = some task
    unfold Scheduler.timeoutFires
    cases ht : s.tasks[t2]? with
    | none => exact h
    | some task2 =>
      by_cases hd : task2.done = true
      · simp only [hd, if_true]
        exact h
      · simp only [hd, Bool.false_eq_true, if_false]
        rw [tasks_release]
        show (s.tasks.set t2 _)[t]? = some task
        rw [List.getElem?_set_ne hne]
        exact h

theorem pending_run (mid : List Event) (s : Scheduler) (t : Nat) (task : TimeoutTask)
    (hmid : Event.timeout t ∉ mid) (h : s.tasks[t]? = some task) :
    (s.run mid).tasks[t]? = some task := by
  induction mid generalizing s with
  | nil => exact h
  | cons e es ih =>
    have he : e ≠ Event.timeout t := fun c => hmid (c ▸ List.mem_cons_self _ _)
    have hes : Event.timeout t ∉ es := fun c => hmid (List.mem_cons_of_mem _ c)
    show ((s.step e).run es).tasks[t]? = some task
    exact ih _ hes (pending_step s e t task he h)

theorem isInUse_timeoutFires_pending (s : Scheduler) (t : Nat) (uuid : String)
    (h : s.tasks[t]? = some { uuid := uuid, done := false }) :
    (s.timeoutFires t).IsInUse uuid = false := by
  unfold Scheduler.timeoutFires
  rw [h]
  exact isInUse_release_self _ uuid

theorem acquire_of_free (s : Scheduler) (uuid : String) (h : s.IsInUse uuid = false) :
    s.Acquire uuid =
      ({ s with inUse := mapSet s.inUse uuid true,
                tasks := s.tasks ++ [{ uuid := uuid, done := false }] }, none) := by
  unfold Scheduler.IsInUse at h
  unfold Scheduler.Acquire
  simp [h]

theorem acquire_of_inUse (s : Scheduler) (uuid : String) (h : s.IsInUse uuid = true) :
    s.Acquire uuid = (s, some "GPU already in use") := by
  unfold Scheduler.IsInUse at h
  unfold Scheduler.Acquire
  simp [h]

theorem isInUse_acquire_self (s : Scheduler) (uuid : String) :
    (s.Acquire uuid).1.IsInUse uuid = true := by
  by_cases h : s.IsInUse uuid = true
  · rw [acquire_of_inUse s uuid h]
    exact h
  · have hf : s.IsInUse uuid = false := by simpa using h
    rw [acquire_of_free s uuid hf]
    exact mapGet_mapSet_self _ _ _

/-! ## Lease scheduler: the contract -/

/-- C1: `Acquire(uuid)` returns `nil` exactly when `uuid` is free just before the call and
the error "GPU already in use" exactly when it is in use; hence, starting from a state in
which `uuid` is free, of two `Acquire(uuid)` calls run one after the other under the lock
the first succeeds and the second gets "GPU already in use". -/
theorem acquire_exclusive (s : Scheduler) (uuid : String) :
    ((s.Acquire uuid).2 = none ↔ s.IsInUse uuid = false) ∧
    ((s.Acquire uuid).2 = some "GPU already in use" ↔ s.IsInUse uuid = true) ∧
    (s.IsInUse uuid = false →
      (s.Acquire uuid).2 = none ∧
      ((s.Acquire uuid).1.Acquire uuid).2 = some "GPU already in use") := by
  by_cases h : s.IsInUse uuid = true
  · rw [acquire_of_inUse s uuid h]
    simp [h]
  · have hf : s.IsInUse uuid = false := by simpa using h
    refine ⟨?_, ?_, ?_⟩
    · rw [acquire_of_free s uuid hf]
      simp [hf]
    · rw [acquire_of_free s uuid hf]
      simp [hf]
    · intro _
      refine ⟨by rw [acquire_of_free s uuid hf], ?_⟩
      rw [acquire_of_inUse _ uuid (isInUse_acquire_self s uuid)]

/-- Witness for C1: a fresh scheduler and the uuid "GPU-0". -/
theorem acquire_exclusive_witness :
    (NewScheduler 30).IsInUse "GPU-0" = false ∧
    ((NewScheduler 30).Acquire "GPU-0").2 = none ∧
    (((NewScheduler 30).Acquire "GPU-0").1.Acquire "GPU-0").2 = some "GPU already in use" :=
  ⟨by decide, (acquire_exclusive (NewScheduler 30) "GPU-0").2.2 (by decide)⟩

/-- C2, as stated, fails: on a fresh scheduler, `Acquire("GPU-0")` starts goroutine 0,
`Release("GPU-0")` frees the device, a second `Acquire("GPU-0")` succeeds and starts
goroutine 1, and when goroutine 0 wakes up the second lease is gone. -/
theorem stale_timeout_counterexample :
    ((NewScheduler 30).Acquire "GPU-0").2 = none ∧
    ((NewScheduler 30).Acquire "GPU-0").1.tasks = [{ uuid := "GPU-0", done := false }] ∧
    ((((NewScheduler 30).Acquire "GPU-0").1.Release "GPU-0").Acquire "GPU-0").2 = none ∧
    ((((NewScheduler 30).Acquire "GPU-0").1.Release "GPU-0").Acquire "GPU-0").1.IsInUse "GPU-0"
      = true ∧
    (((((NewScheduler 30).Acquire "GPU-0").1.Release "GPU-0").Acquire "GPU-0").1.timeoutFires
      0).IsInUse "GPU-0" = false := by
  decide

/-- C2, amended: in the sequence `Acquire(u)` (starting goroutine `T1`), `Release(u)`,
`Acquire(u)` (starting goroutine `T2`), `T1` wakes up, both acquisitions succeed, `u` is in
use until `T1` wakes up and free afterwards: the goroutine calls `Release(u)` without
looking at which acquisition holds the lease. -/
theorem stale_timeout_releases_new_lease (s : Scheduler) (u : String)
    (hfree : s.IsInUse u = false) :
    (s.Acquire u).2 = none ∧
    (s.Acquire u).1.tasks[s.tasks.length]? = some { uuid := u, done := false } ∧
    (((s.Acquire u).1.Release u).Acquire u).2 = none ∧
    (((s.Acquire u).1.Release u).Acquire u).1.tasks[s.tasks.length + 1]?
      = some { uuid := u, done := false } ∧
    (((s.Acquire u).1.Release u).Acquire u).1.IsInUse u = true ∧
    ((((s.Acquire u).1.Release u).Acquire u).1.timeoutFires s.tasks.length).IsInUse u
      = false := by
  have h1 : (s.Acquire u).1.tasks[s.tasks.length]? = some { uuid := u, done := false } := by
    rw [acquire_of_free s u hfree]
    simp
  have hrel : ((s.Acquire u).1.Release u).IsInUse u = false := isInUse_release_self _ u
  have hlen : ((s.Acquire u).1.Release u).tasks.length = s.tasks.length + 1 := by
    rw [tasks_release, acquire_of_free s u hfree]
    simp
  have h2 : (((s.Acquire u).1.Release u).Acquire u).1.tasks[s.tasks.length]?
      = some { uuid := u, done := false } := by
    have := pending_step ((s.Acquire u).1.Release u) (Event.acquire u) s.tasks.length
      { uuid := u, done := false } (by simp) (by rw [tasks_release]; exact h1)
    exact this
  refine ⟨by rw [acquire_of_free s u hfree], h1, by rw [acquire_of_free _ u hrel], ?_,
    isInUse_acquire_self _ u, isInUse_timeoutFires_pending _ _ u h2⟩
  rw [← hlen, acquire_of_free _ u hrel]
  simp

/-- Witness for the amended C2: a fresh scheduler and the uuid "GPU-0". -/
theorem stale_timeout_releases_new_lease_witness :
    (NewScheduler 30).IsInUse "GPU-0" = false ∧
    (((((NewScheduler 30).Acquire "GPU-0").1.Release "GPU-0").Acquire "GPU-0").1.timeoutFires
      (NewScheduler 30).tasks.length).IsInUse "GPU-0" = false :=
  ⟨by decide,
    (stale_timeout_releases_new_lease (NewScheduler 30) "GPU-0" (by decide)).2.2.2.2.2⟩

/-- C3: after a successful `Acquire(u)` (which starts goroutine `T`), whatever else happens
before `T` wakes up (in particular when no `Release` is called), `u` is free once `T` has
woken up, and it stays free under every further sequence of events that contains no
`Acquire(u)`: releases, timeouts, and acquisitions of other uuids. -/
theorem timeout_release (s : Scheduler) (u : String) (mid later : List Event)
    (hfree : s.IsInUse u = false)
    (hmid : Event.timeout s.tasks.length ∉ mid)
    (hlater : Event.acquire u ∉ later) :
    (s.Acquire u).2 = none ∧
    (s.Acquire u).1.IsInUse u = true ∧
    (((s.Acquire u).1.run mid).timeoutFires s.tasks.length).IsInUse u = false ∧
    ((((s.Acquire u).1.run mid).timeoutFires s.tasks.length).run later).IsInUse u = false := by
  have h1 : (s.Acquire u).1.tasks[s.tasks.length]? = some { uuid := u, done := false } := by
    rw [acquire_of_free s u hfree]
    simp
  have h2 := pending_run mid _ _ _ hmid h1
  have h3 := isInUse_timeoutFires_pending _ _ u h2
  exact ⟨by rw [acquire_of_free s u hfree], isInUse_acquire_self s u, h3,
    isInUse_run_of_free later _ u hlater h3⟩

/-- Witness for C3: "GPU-0" is acquired on a fresh scheduler, another device is acquired
meanwhile, goroutine 0 wakes up, then releases and a second timeout follow. -/
theorem timeout_release_witness :
    ((((NewScheduler 30).Acquire "GPU-0").1.run [Event.acquire "GPU-1"]).timeoutFires
      0).IsInUse "GPU-0" = false ∧
    (((((NewScheduler 30).Acquire "GPU-0").1.run [Event.acquire "GPU-1"]).timeoutFires
      0).run [Event.release "GPU-0", Event.timeout 1, Event.release "GPU-1"]).IsInUse "GPU-0"
      = false :=
  (timeout_release (NewScheduler 30) "GPU-0" [Event.acquire "GPU-1"]
    [Event.release "GPU-0", Event.timeout 1, Event.release "GPU-1"]
    (by decide) (by decide) (by decide)).2.2

/-- C4: `Release(u)` on a free uuid returns (it has no error result) and leaves the
scheduler state as it was; and for every state, releasing twice gives the same state as
releasing once. -/
theorem release_idempotent (s : Scheduler) (u : String) :
    (s.IsInUse u = false → s.Release u = s) ∧
    (s.Release u).Release u = s.Release u := by
  have hfree : ∀ t : Scheduler, t.IsInUse u = false → t.Release u = t := by
    intro t ht
    unfold Scheduler.IsInUse at ht
    unfold Scheduler.Release
    simp [ht]
  exact ⟨hfree s, hfree _ (isInUse_release_self s u)⟩

/-- Witness for C4: releasing "GPU-0" on a fresh scheduler changes nothing. -/
theorem release_idempotent_witness :
    (NewScheduler 30).IsInUse "GPU-0" = false ∧
    (NewScheduler 30).Release "GPU-0" = NewScheduler 30 :=
  ⟨by decide, (release_idempotent (NewScheduler 30) "GPU-0").1 (by decide)⟩

/-! ## Service front: the contract -/

theorem foldl_append_eq_filter {α : Type} (p : α → Bool) (l acc : List α) :
    l.foldl (fun filtered g => if p g then filtered ++ [g] else filtered) acc
      = acc ++ l.filter p := by
  induction l generalizing acc with
  | nil => simp
  | cons g l ih =>
    rw [List.foldl_cons, ih]
    by_cases hg : p g = true
    · simp [hg, List.filter_cons]
    · simp [hg, List.filter_cons]

theorem mapGet_bound_foldl (gpuUUIDs : List String) (bound : BoolMap) (uuid : String) :
    mapGet (gpuUUIDs.foldl (fun bound uuid => mapSet bound uuid true) bound) uuid = true ↔
      uuid ∈ gpuUUIDs ∨ mapGet bound uuid = true := by
  induction gpuUUIDs generalizing bound with
  | nil => simp
  | cons a l ih =>
    rw [List.foldl_cons, ih]
    by_cases ha : uuid = a
    · subst ha
      simp [mapGet_mapSet_self]
    · rw [mapGet_mapSet_ne _ _ _ _ ha]
      simp [ha]

theorem mapGet_runGRPCServer (port : Int) (gpuUUIDs : List String) (uuid : String) :
    mapGet (runGRPCServer port gpuUUIDs).boundGPUs uuid = true ↔ uuid ∈ gpuUUIDs := by
  unfold runGRPCServer
  rw [mapGet_bound_foldl]
  simp [mapGet, mapLookup]

/-- C5: on a front whose bound map does not hold `uuid` (whatever other fronts are bound
to), `GetGPUStatus` and `RunCommand` return the error "GPU uuid not bound to this NUMA
group" and `AcquireGPU` returns an ack with `Ok = false`; in all three the shared world is
returned as it was: nothing is handed on to the status query, the command execution or the
scheduler, and the lease state is unchanged. -/
theorem unbound_refused (s : server) (env : Collaborators) (w : World) (uuid cmd : String)
    (h : mapGet s.boundGPUs uuid = false) :
    s.GetGPUStatus env w uuid
      = (Except.error ("GPU " ++ uuid ++ " not bound to this NUMA group"), w) ∧
    s.RunCommand env w uuid cmd
      = (Except.error ("GPU " ++ uuid ++ " not bound to this NUMA group"), w) ∧
    s.AcquireGPU w uuid = ({ Ok := false, Msg := "GPU not bound" }, w) := by
  unfold server.GetGPUStatus server.RunCommand server.AcquireGPU
  simp [h]

/-- Witness for C5: front `F` is bound to "GPU-A", another front to "GPU-B"; "GPU-B" is
refused on `F` and the shared world is untouched. -/
theorem unbound_refused_witness :
    mapGet (runGRPCServer 50051 ["GPU-A"]).boundGPUs "GPU-B" = false ∧
    mapGet (runGRPCServer 50052 ["GPU-B"]).boundGPUs "GPU-B" = true ∧
    (runGRPCServer 50051 ["GPU-A"]).AcquireGPU
        { sched := NewScheduler 30, delegated := [] } "GPU-B"
      = ({ Ok := false, Msg := "GPU not bound" },
          { sched := NewScheduler 30, delegated := [] }) :=
  ⟨by decide, by decide,
    (unbound_refused (runGRPCServer 50051 ["GPU-A"])
      { ListGPUs := [], GetGPUStatus := fun _ => { UsedMemory := 0, Utilization := 0 },
        RunCommand := fun _ _ => ("", 0) }
      { sched := NewScheduler 30, delegated := [] } "GPU-B" "nvidia-smi" (by decide)).2.2⟩

/-- C6: on every front, for every uuid and every state of the shared scheduler,
`ReleaseGPU(uuid)` returns an ack with `Ok = true` and leaves `uuid` free in the shared
scheduler; the bound map of the front is not consulted, so this also holds for a lease
that was taken through any other front. -/
theorem release_never_blocked (s : server) (w : World) (uuid : String) :
    (s.ReleaseGPU w uuid).1.Ok = true ∧
    (s.ReleaseGPU w uuid).2.sched.IsInUse uuid = false ∧
    (∀ other : server,
      (s.ReleaseGPU (other.AcquireGPU w uuid).2 uuid).1.Ok = true ∧
      (s.ReleaseGPU (other.AcquireGPU w uuid).2 uuid).2.sched.IsInUse uuid = false) := by
  refine ⟨rfl, isInUse_release_self _ uuid, fun other => ⟨rfl, isInUse_release_self _ uuid⟩⟩

/-- C7: for every list of devices reported by the query and every bound map, `ListGPUs`
returns the reported devices whose uuid is bound, each as often and in the order the query
reported it: the result is the reported list filtered by the bound map, a device is in the
result iff it was reported and is bound. -/
theorem listGPUs_filters_bound (s : server) (env : Collaborators) (w : World) :
    (s.ListGPUs env w).1 = env.ListGPUs.filter (fun g => mapGet s.boundGPUs g.Uuid) ∧
    List.Sublist (s.ListGPUs env w).1 env.ListGPUs ∧
    (∀ g, g ∈ (s.ListGPUs env w).1 ↔ g ∈ env.ListGPUs ∧ mapGet s.boundGPUs g.Uuid = true) := by
  have h : (s.ListGPUs env w).1
      = env.ListGPUs.filter (fun g => mapGet s.boundGPUs g.Uuid) := by
    unfold server.ListGPUs
    exact (foldl_append_eq_filter (fun g : GPUInfo => mapGet s.boundGPUs g.Uuid)
      env.ListGPUs []).trans (List.nil_append _)
  refine ⟨h, ?_, ?_⟩
  · rw [h]
    exact List.filter_sublist _
  · intro g
    rw [h, List.mem_filter]

/-! ## Bound sets of the fronts -/

theorem nodup_keys_mapSet {κ ν : Type} [DecidableEq κ] (m : GoMap κ ν) (k : κ) (v : ν)
    (h : (m.map Prod.fst).Nodup) : ((mapSet m k v).map Prod.fst).Nodup := by
  unfold mapSet mapDelete
  rw [List.map_cons, List.nodup_cons]
  constructor
  · intro hk
    rcases List.mem_map.mp hk with ⟨e, he, hek⟩
    have := (List.mem_filter.mp he).2
    simp [hek] at this
  · exact List.Nodup.sublist ((List.filter_sublist m).map Prod.fst) h

theorem groupFor_GPUIDs (P : Int → Int → Prop) (groups : GoMap Int NUMAGroup) (k : Int)
    (hinv : ∀ e ∈ groups, ∀ id ∈ e.2.GPUIDs, P id e.1) :
    ∀ id ∈ (groupFor groups k).GPUIDs, P id k := by
  intro id hid
  unfold groupFor at hid
  cases hl : mapLookup groups k with
  | none =>
    rw [hl] at hid
    cases hid
  | some group =>
    rw [hl] at hid
    exact hinv (k, group) (mem_of_mapLookup groups k group hl) id hid

theorem groups_inv_mapSet (P : Int → Int → Prop) (groups : GoMap Int NUMAGroup) (k : Int)
    (group : NUMAGroup)
    (hnodup : (groups.map Prod.fst).Nodup)
    (hinv : ∀ e ∈ groups, ∀ id ∈ e.2.GPUIDs, P id e.1)
    (hgroup : ∀ id ∈ group.GPUIDs, P id k) :
    ((mapSet groups k group).map Prod.fst).Nodup ∧
    ∀ e ∈ mapSet groups k group, ∀ id ∈ e.2.GPUIDs, P id e.1 := by
  refine ⟨nodup_keys_mapSet groups k group hnodup, ?_⟩
  intro e he id hid
  rcases (mem_mapSet groups k group e).mp he with h | h
  · subst h
    exact hgroup id hid
  · exact hinv e h.1 id hid

theorem groups_inv_addGPU (P : Int → Int → Prop) (groups : GoMap Int NUMAGroup)
    (entry : Int × Int)
    (hentry : P entry.1 (if entry.2 < 0 then 0 else entry.2))
    (hnodup : (groups.map Prod.fst).Nodup)
    (hinv : ∀ e ∈ groups, ∀ id ∈ e.2.GPUIDs, P id e.1) :
    ((addGPU groups entry).map Prod.fst).Nodup ∧
    ∀ e ∈ addGPU groups entry, ∀ id ∈ e.2.GPUIDs, P id e.1 := by
  unfold addGPU
  apply groups_inv_mapSet P groups _ _ hnodup hinv
  intro id hid
  rcases List.mem_append.mp hid with h | h
  · exact groupFor_GPUIDs P groups _ hinv id h
  · rw [List.mem_singleton.mp h]
    exact hentry

theorem groups_inv_addIface (P : Int → Int → Prop) (groups : GoMap Int NUMAGroup)
    (iface : NetDeviceInfo)
    (hnodup : (groups.map Prod.fst).Nodup)
    (hinv : ∀ e ∈ groups, ∀ id ∈ e.2.GPUIDs, P id e.1) :
    ((addIface groups iface).map Prod.fst).Nodup ∧
    ∀ e ∈ addIface groups iface, ∀ id ∈ e.2.GPUIDs, P id e.1 := by
  unfold addIface
  exact groups_inv_mapSet P groups _ _ hnodup hinv
    (fun id hid => groupFor_GPUIDs P groups _ hinv id hid)

theorem groups_inv_foldl_addGPU (P : Int → Int → Prop) (entries : List (Int × Int))
    (groups : GoMap Int NUMAGroup)
    (hentries : ∀ entry ∈ entries, P entry.1 (if entry.2 < 0 then 0 else entry.2))
    (hnodup : (groups.map Prod.fst).Nodup)
    (hinv : ∀ e ∈ groups, ∀ id ∈ e.2.GPUIDs, P id e.1) :
    ((entries.foldl addGPU groups).map Prod.fst).Nodup ∧
    ∀ e ∈ entries.foldl addGPU groups, ∀ id ∈ e.2.GPUIDs, P id e.1 := by
  induction entries generalizing groups with
  | nil => exact ⟨hnodup, hinv⟩
  | cons entry entries ih =>
    have h := groups_inv_addGPU P groups entry (hentries entry (List.mem_cons_self _ _))
      hnodup hinv
    exact ih _ (fun x hx => hentries x (List.mem_cons_of_mem _ hx)) h.1 h.2

theorem groups_inv_foldl_addIface (P : Int → Int → Prop) (netIfs : List NetDeviceInfo)
    (groups : GoMap Int NUMAGroup)
    (hnodup : (groups.map Prod.fst).Nodup)
    (hinv : ∀ e ∈ groups, ∀ id ∈ e.2.GPUIDs, P id e.1) :
    ((netIfs.foldl addIface groups).map Prod.fst).Nodup ∧
    ∀ e ∈ netIfs.foldl addIface groups, ∀ id ∈ e.2.GPUIDs, P id e.1 := by
  induction netIfs generalizing groups with
  | nil => exact ⟨hnodup, hinv⟩
  | cons iface netIfs ih =>
    have h := groups_inv_addIface P groups iface hnodup hinv
    exact ih _ h.1 h.2

/-- The groups computed by `MapNUMATopology` have pairwise disjoint GPU id lists, when the
GPU map has one entry per key. -/
theorem mapNUMATopology_GPUIDs_disjoint (netIfs : Except String (List NetDeviceInfo))
    (gpuNumaMap : GoMap Int Int) (groups : List NUMAGroup)
    (hmap : (gpuNumaMap.map Prod.fst).Nodup)
    (hres : MapNUMATopology netIfs (Except.ok gpuNumaMap) = Except.ok groups) :
    groups.Pairwise (fun a b => ∀ id, id ∈ a.GPUIDs → id ∈ b.GPUIDs → False) := by
  cases netIfs with
  | error err => simp [MapNUMATopology] at hres
  | ok ifs =>
    simp only [MapNUMATopology, Except.ok.injEq] at hres
    subst hres
    have hG := groups_inv_foldl_addGPU
      (fun id k => ∃ n, (id, n) ∈ gpuNumaMap ∧ (if n < 0 then 0 else n) = k) gpuNumaMap []
      (fun entry h => ⟨entry.2, h, rfl⟩)
      List.nodup_nil (fun e he => absurd he (List.not_mem_nil e))
    have hP := groups_inv_foldl_addIface
      (fun id k => ∃ n, (id, n) ∈ gpuNumaMap ∧ (if n < 0 then 0 else n) = k) ifs
      (gpuNumaMap.foldl addGPU []) hG.1 hG.2
    rw [List.pairwise_map]
    have hkeys := hP.1
    unfold List.Nodup at hkeys
    rw [List.pairwise_map] at hkeys
    refine List.Pairwise.imp_of_mem ?_ hkeys
    intro a b ha hb hab id hida hidb
    rcases hP.2 a ha id hida with ⟨n, hn, hna⟩
    rcases hP.2 b hb id hidb with ⟨n', hn', hnb⟩
    have hnn : n = n' := by
      have hinj := List.inj_on_of_nodup_map hmap hn hn' rfl
      exact (Prod.mk.inj hinj).2
    subst hnn
    exact hab (hna.symm.trans hnb)

theorem mem_uuidList_foldl (indexMap : GoMap Int String) (deviceIDs : List Int)
    (acc : List String) (uuid : String)
    (h : uuid ∈ deviceIDs.foldl
      (fun uuidList id =>
        match mapLookup indexMap id with
        | some uuid => uuidList ++ [uuid]
        | none => uuidList) acc) :
    uuid ∈ acc ∨ ∃ id ∈ deviceIDs, mapLookup indexMap id = some uuid := by
  induction deviceIDs generalizing acc with
  | nil => exact Or.inl h
  | cons id ids ih =>
    rw [List.foldl_cons] at h
    rcases ih _ h with h1 | ⟨id', hid', hl⟩
    · cases hl : mapLookup indexMap id with
      | none =>
        rw [hl] at h1
        exact Or.inl h1
      | some u =>
        rw [hl] at h1
        rcases List.mem_append.mp h1 with h2 | h2
        · exact Or.inl h2
        · rw [List.mem_singleton.mp h2]
          exact Or.inr ⟨id, List.mem_cons_self _ _, hl⟩
    · exact Or.inr ⟨id', List.mem_cons_of_mem _ hid', hl⟩

theorem mapLookup_indexMap_foldl (allGPUs : List GPUInfo) (acc : GoMap Int String) (id : Int)
    (uuid : String)
    (h : mapLookup (allGPUs.foldl (fun indexMap g => mapSet indexMap g.Index g.Uuid) acc) id
      = some uuid) :
    mapLookup acc id = some uuid ∨ ∃ g ∈ allGPUs, g.Index = id ∧ g.Uuid = uuid := by
  induction allGPUs generalizing acc with
  | nil => exact Or.inl h
  | cons g gs ih =>
    rw [List.foldl_cons] at h
    rcases ih _ h with h1 | ⟨g', hg', hidx, hu⟩
    · by_cases hid : id = g.Index
      · subst hid
        rw [mapLookup_mapSet_self] at h1
        exact Or.inr ⟨g, List.mem_cons_self _ _, rfl, Option.some.inj h1⟩
      · rw [mapLookup_mapSet_ne _ _ _ _ hid] at h1
        exact Or.inl h1
    · exact Or.inr ⟨g', List.mem_cons_of_mem _ hg', hidx, hu⟩

theorem mem_GPUUUIDsByIDs (allGPUs : List GPUInfo) (deviceIDs : List Int) (uuid : String)
    (h : uuid ∈ GPUUUIDsByIDs allGPUs deviceIDs) :
    ∃ id ∈ deviceIDs, ∃ g ∈ allGPUs, g.Index = id ∧ g.Uuid = uuid := by
  unfold GPUUUIDsByIDs at h
  rcases mem_uuidList_foldl _ deviceIDs [] uuid h with h1 | ⟨id, hid, hl⟩
  · cases h1
  · rcases mapLookup_indexMap_foldl allGPUs [] id uuid hl with h2 | h2
    · simp [mapLookup] at h2
    · exact ⟨id, hid, h2⟩

theorem getElem?_mainFronts (allGPUs : List GPUInfo) (groups : List NUMAGroup) (i : Nat)
    (f : server) (h : (mainFronts allGPUs groups)[i]? = some f) :
    ∃ g, groups[i]? = some g ∧
      f = runGRPCServer (50051 + (i : Int)) (GPUUUIDsByIDs allGPUs g.GPUIDs) := by
  unfold mainFronts at h
  rw [List.getElem?_map, List.getElem?_enum] at h
  cases hg : groups[i]? with
  | none =>
    rw [hg] at h
    cases h
  | some g =>
    rw [hg] at h
    exact ⟨g, rfl, (Option.some.inj h).symm⟩

/-- C8: let the GPU map have one entry per device id and let the device query report
distinct uuids for distinct device indexes.  For the groups returned by `MapNUMATopology`,
in whatever order the final `range` puts them, the fronts that `main` starts for two
different positions of the result (through `GPUUUIDsByIDs` and the bound map of
`runGRPCServer`) have no bound uuid in common. -/
theorem bound_sets_disjoint (netIfs : Except String (List NetDeviceInfo))
    (gpuNumaMap : GoMap Int Int) (allGPUs : List GPUInfo) (groups result : List NUMAGroup)
    (i j : Nat) (fi fj : server) (uuid : String)
    (hmap : (gpuNumaMap.map Prod.fst).Nodup)
    (huuid : ∀ g ∈ allGPUs, ∀ g' ∈ allGPUs, g.Index ≠ g'.Index → g.Uuid ≠ g'.Uuid)
    (hres : MapNUMATopology netIfs (Except.ok gpuNumaMap) = Except.ok groups)
    (hperm : result.Perm groups)
    (hij : i ≠ j)
    (hi : (mainFronts allGPUs result)[i]? = some fi)
    (hj : (mainFronts allGPUs result)[j]? = some fj) :
    ¬ (mapGet fi.boundGPUs uuid = true ∧ mapGet fj.boundGPUs uuid = true) := by
  rintro ⟨hbi, hbj⟩
  rcases getElem?_mainFronts allGPUs result i fi hi with ⟨gi, hgi, rfl⟩
  rcases getElem?_mainFronts allGPUs result j fj hj with ⟨gj, hgj, rfl⟩
  rw [mapGet_runGRPCServer] at hbi hbj
  rcases mem_GPUUUIDsByIDs allGPUs _ uuid hbi with ⟨id, hid, g, hg, hgidx, hgu⟩
  rcases mem_GPUUUIDsByIDs allGPUs _ uuid hbj with ⟨id', hid', g', hg', hgidx', hgu'⟩
  have hsame : id = id' := by
    by_contra hne
    exact huuid g hg g' hg' (by rw [hgidx, hgidx']; exact hne) (hgu.trans hgu'.symm)
  subst hsame
  have hpw := mapNUMATopology_GPUIDs_disjoint netIfs gpuNumaMap groups hmap hres
  have hpw' : result.Pairwise (fun a b => ∀ id, id ∈ a.GPUIDs → id ∈ b.GPUIDs → False) :=
    (List.Perm.pairwise_iff (fun h id ha hb => h id hb ha) hperm).mpr hpw
  rw [List.pairwise_iff_getElem] at hpw'
  rcases List.getElem?_eq_some_iff.mp hgi with ⟨hil, hgi'⟩
  rcases List.getElem?_eq_some_iff.mp hgj with ⟨hjl, hgj'⟩
  rcases Nat.lt_or_gt_of_ne hij with hlt | hgt
  · exact hpw' i j hil hjl hlt id (hgi' ▸ hid) (hgj' ▸ hid')
  · exact hpw' j i hjl hil hgt id (hgj' ▸ hid') (hgi' ▸ hid)

/-- Witness for C8: two GPUs on two NUMA nodes, one interface, and a query that reports the
uuids "GPU-A" and "GPU-B" for the indexes 0 and 1; "GPU-A" is not bound to both fronts. -/
theorem bound_sets_disjoint_witness :
    MapNUMATopology (Except.ok [{ Name := "eth0", NUMANode := 1, IsVirtual := false }])
        (Except.ok [(0, 1), (1, 0)])
      = Except.ok [{ NUMANode := 1, GPUIDs := [0], NetIfs := ["eth0"] },
          { NUMANode := 0, GPUIDs := [1], NetIfs := [] }] ∧
    mapGet (runGRPCServer 50051 ["GPU-B"]).boundGPUs "GPU-A" = false ∧
    ¬ (mapGet (runGRPCServer 50051 ["GPU-B"]).boundGPUs "GPU-A" = true ∧
       mapGet (runGRPCServer 50052 ["GPU-A"]).boundGPUs "GPU-A" = true) :=
  ⟨rfl, by decide,
    bound_sets_disjoint (Except.ok [{ Name := "eth0", NUMANode := 1, IsVirtual := false }])
      [(0, 1), (1, 0)]
      [{ Index := 0, Uuid := "GPU-A", Name := "V100", TotalMemory := 16160 },
       { Index := 1, Uuid := "GPU-B", Name := "V100", TotalMemory := 16160 }]
      [{ NUMANode := 1, GPUIDs := [0], NetIfs := ["eth0"] },
       { NUMANode := 0, GPUIDs := [1], NetIfs := [] }]
      [{ NUMANode := 0, GPUIDs := [1], NetIfs := [] },
       { NUMANode := 1, GPUIDs := [0], NetIfs := ["eth0"] }]
      0 1 (runGRPCServer 50051 ["GPU-B"]) (runGRPCServer 50052 ["GPU-A"]) "GPU-A"
      (by decide) (by decide) rfl (by decide) (by decide) (by decide) (by decide)⟩

/-! ## Dial-target ranking -/

section Ranking

open netbalance

theorem foldl_append_eq_map {α β : Type} (f : α → β) (l : List α) (acc : List β) :
    l.foldl (fun targets node => targets ++ [f node]) acc = acc ++ l.map f := by
  induction l generalizing acc with
  | nil => simp
  | cons a l ih =>
    rw [List.foldl_cons, ih]
    simp

theorem insertLeftwards_perm {α : Type} (less : α → α → Bool) (x : α) (r : List α) :
    (insertLeftwards less x r).Perm (x :: r) := by
  induction r with
  | nil => exact List.Perm.refl _
  | cons p ps ih =>
    unfold insertLeftwards
    by_cases h : less x p = true
    · simp only [h, if_true]
      exact (List.Perm.cons p ih).trans (List.Perm.swap x p ps)
    · simp only [h, Bool.false_eq_true, if_false]
      exact List.Perm.refl _

theorem foldl_insertLeftwards_perm {α : Type} (less : α → α → Bool) (l acc : List α) :
    (l.foldl (fun sortedRev x => insertLeftwards less x sortedRev) acc).Perm (l ++ acc) := by
  induction l generalizing acc with
  | nil => exact List.Perm.refl _
  | cons x l ih =>
    rw [List.foldl_cons]
    refine (ih _).trans ?_
    refine (List.Perm.append_left l (insertLeftwards_perm less x acc)).trans ?_
    exact List.perm_middle

theorem sliceStable_perm {α : Type} (less : α → α → Bool) (l : List α) :
    (sliceStable less l).Perm l := by
  unfold sliceStable
  refine (List.reverse_perm _).trans ?_
  simpa using foldl_insertLeftwards_perm less l []

theorem insertLeftwards_ascending (x : NodeInfo) (r : List NodeInfo)
    (h : r.Pairwise (fun a b => a.NetBandwidth ≤ b.NetBandwidth)) :
    (insertLeftwards lessByBandwidth x r).Pairwise
      (fun a b => a.NetBandwidth ≤ b.NetBandwidth) := by
  induction r with
  | nil => simp [insertLeftwards]
  | cons p ps ih =>
    unfold insertLeftwards
    rw [List.pairwise_cons] at h
    by_cases hl : lessByBandwidth x p = true
    · simp only [hl, if_true]
      have hxp : p.NetBandwidth < x.NetBandwidth := by
        simpa [lessByBandwidth] using hl
      rw [List.pairwise_cons]
      refine ⟨?_, ih h.2⟩
      intro a ha
      rcases List.mem_cons.mp ((insertLeftwards_perm lessByBandwidth x ps).subset ha)
        with hax | hps
      · rw [hax]
        exact le_of_lt hxp
      · exact h.1 a hps
    · simp only [hl, Bool.false_eq_true, if_false]
      have hxp : x.NetBandwidth ≤ p.NetBandwidth := by
        simpa [lessByBandwidth] using hl
      rw [List.pairwise_cons, List.pairwise_cons]
      refine ⟨?_, h⟩
      intro a ha
      rcases List.mem_cons.mp ha with hap | hps
      · rw [hap]
        exact hxp
      · exact le_trans hxp (h.1 a hps)

theorem foldl_insertLeftwards_ascending (l acc : List NodeInfo)
    (h : acc.Pairwise (fun a b => a.NetBandwidth ≤ b.NetBandwidth)) :
    (l.foldl (fun sortedRev x => insertLeftwards lessByBandwidth x sortedRev) acc).Pairwise
      (fun a b => a.NetBandwidth ≤ b.NetBandwidth) := by
  induction l generalizing acc with
  | nil => exact h
  | cons x l ih =>
    rw [List.foldl_cons]
    exact ih _ (insertLeftwards_ascending x acc h)

theorem sliceStable_descending (l : List NodeInfo) :
    (sliceStable lessByBandwidth l).Pairwise
      (fun a b => a.NetBandwidth ≥ b.NetBandwidth) := by
  unfold sliceStable
  rw [List.pairwise_reverse]
  exact foldl_insertLeftwards_ascending l [] List.Pairwise.nil

theorem insertLeftwards_filter (w : Int) (x : NodeInfo) (r : List NodeInfo) :
    (insertLeftwards lessByBandwidth x r).filter (fun n => n.NetBandwidth == w)
      = [x].filter (fun n => n.NetBandwidth == w)
        ++ r.filter (fun n => n.NetBandwidth == w) := by
  induction r with
  | nil => simp [insertLeftwards]
  | cons p ps ih =>
    unfold insertLeftwards
    by_cases hl : lessByBandwidth x p = true
    · simp only [hl, if_true]
      have hxp : p.NetBandwidth < x.NetBandwidth := by
        simpa [lessByBandwidth] using hl
      by_cases hp : p.NetBandwidth = w
      · have hx : ¬ x.NetBandwidth = w := fun hx => by
          rw [hp, hx] at hxp
          exact lt_irrefl _ hxp
        rw [List.filter_cons_of_pos (by simp [hp]), ih]
        rw [List.filter_cons_of_neg (by simp [hx])]
        rw [List.filter_cons_of_pos (by simp [hp])]
        simp
      · rw [List.filter_cons_of_neg (by simp [hp]), ih]
        rw [List.filter_cons_of_neg (l := ps) (by simp [hp])]
    · simp only [hl, Bool.false_eq_true, if_false]
      exact List.filter_append [x] (p :: ps)

theorem foldl_insertLeftwards_filter (w : Int) (l acc : List NodeInfo) :
    (l.foldl (fun sortedRev x => insertLeftwards lessByBandwidth x sortedRev) acc).filter
        (fun n => n.NetBandwidth == w)
      = (l.filter (fun n => n.NetBandwidth == w)).reverse
        ++ acc.filter (fun n => n.NetBandwidth == w) := by
  induction l generalizing acc with
  | nil => simp
  | cons x l ih =>
    rw [List.foldl_cons, ih, insertLeftwards_filter]
    by_cases hx : x.NetBandwidth = w
    · simp [List.filter_cons, hx]
    · simp [List.filter_cons, hx]

theorem sliceStable_filter (w : Int) (l : List NodeInfo) :
    (sliceStable lessByBandwidth l).filter (fun n => n.NetBandwidth == w)
      = l.filter (fun n => n.NetBandwidth == w) := by
  unfold sliceStable
  rw [List.filter_reverse, foldl_insertLeftwards_filter]
  simp

theorem rankedNodes_eq (discovered : List NodeInfo) (now : Int) :
    rankedNodes discovered now
      = sliceStable lessByBandwidth (discovered.filter (isActive now)) := by
  unfold rankedNodes
  rw [foldl_append_eq_filter (isActive now) discovered []]
  rfl

theorem dialTargets_eq (discovered : List NodeInfo) (now : Int) (port : String) :
    dialTargets discovered now port
      = (rankedNodes discovered now).map (fun node => node.IP ++ ":" ++ port) := by
  unfold dialTargets
  rw [foldl_append_eq_map (fun node : NodeInfo => node.IP ++ ":" ++ port)]
  rfl

theorem wrapInt64_of_range (x : Int)
    (h : -9223372036854775808 ≤ x ∧ x < 9223372036854775808) : wrapInt64 x = x := by
  unfold wrapInt64
  rw [Int.emod_eq_of_lt (by omega) (by omega)]
  omega

theorem isActive_iff_of_range (now : Int) (node : NodeInfo)
    (h : -9223372036854775808 ≤ now - node.LastSeen ∧
      now - node.LastSeen < 9223372036854775808) :
    isActive now node = true ↔ now - node.LastSeen ≤ 15 := by
  unfold isActive
  rw [wrapInt64_of_range _ h]
  simp

/-- The ranked peers are, up to order, the discovered peers that pass the test of the code,
`now - LastSeen <= 15` in `int64` arithmetic, each as often as it was discovered. -/
theorem rankedNodes_perm_test (discovered : List NodeInfo) (now : Int) :
    (rankedNodes discovered now).Perm (discovered.filter (isActive now)) := by
  rw [rankedNodes_eq]
  exact sliceStable_perm _ _

theorem filter_isActive_of_range (discovered : List NodeInfo) (now : Int)
    (hrange : ∀ node ∈ discovered, -9223372036854775808 ≤ now - node.LastSeen ∧
      now - node.LastSeen < 9223372036854775808) :
    discovered.filter (isActive now)
      = discovered.filter (fun node => decide (now - node.LastSeen ≤ 15)) := by
  apply List.filter_congr
  intro node hnode
  have htest := isActive_iff_of_range now node (hrange node hnode)
  by_cases h : now - node.LastSeen ≤ 15
  · simp [h, htest.mpr h]
  · have hf : isActive now node = false := by
      cases hc : isActive now node with
      | false => rfl
      | true => exact absurd (htest.mp hc) h
    simp [h, hf]

/-- C9, as the claim has it: a peer whose `LastSeen` is the least `int64` is aged far more
than 16 s at the time 1793796729, yet it is among the targets: the difference
`now - LastSeen` is not representable in 64 bits, and the wrapped value passes the test
`<= 15`. -/
theorem dial_targets_overflow_counterexample :
    netbalance.GetBestDialTarget
        [{ IP := "old", GPUs := [], LastSeen := -9223372036854775808, NetBandwidth := 1000 }]
        1793796729 "9000" = "old:9000" ∧
    ¬ ((1793796729 : Int) - (-9223372036854775808) ≤ 15) ∧
    (16 : Int) ≤ 1793796729 - (-9223372036854775808) := by
  decide

/-- C9, amended: for every list of discovered peers, every time `now` and every port such
that the difference `now - LastSeen` of every discovered peer is representable in 64 bits
(as it is for Unix timestamps), the targets of `GetBestDialTarget` are the renderings
`IP:port` of the ranked peers, and the ranked peers are, up to order, exactly the discovered
peers with `now - LastSeen <= 15`, each as often as it was discovered: a peer aged exactly
15 s is among them, a peer aged 16 s or more is not, and no active peer is dropped or
duplicated. -/
theorem dial_targets_exactly_active (discovered : List NodeInfo) (now : Int)
    (port : String)
    (hrange : ∀ node ∈ discovered, -9223372036854775808 ≤ now - node.LastSeen ∧
      now - node.LastSeen < 9223372036854775808) :
    GetBestDialTarget discovered now port
      = ",".intercalate ((rankedNodes discovered now).map (fun node => node.IP ++ ":" ++ port)) ∧
    (rankedNodes discovered now).Perm
      (discovered.filter (fun node => decide (now - node.LastSeen ≤ 15))) ∧
    (∀ node, (rankedNodes discovered now).count node
      = if now - node.LastSeen ≤ 15 then discovered.count node else 0) ∧
    (∀ node, node ∈ rankedNodes discovered now ↔
      node ∈ discovered ∧ now - node.LastSeen ≤ 15) ∧
    (∀ node ∈ discovered, now - node.LastSeen = 15 → node ∈ rankedNodes discovered now) ∧
    (∀ node, 16 ≤ now - node.LastSeen → node ∉ rankedNodes discovered now) := by
  have hperm : (rankedNodes discovered now).Perm
      (discovered.filter (fun node => decide (now - node.LastSeen ≤ 15))) := by
    rw [← filter_isActive_of_range discovered now hrange]
    exact rankedNodes_perm_test discovered now
  have hmem : ∀ node, node ∈ rankedNodes discovered now ↔
      node ∈ discovered ∧ now - node.LastSeen ≤ 15 := by
    intro node
    rw [hperm.mem_iff, List.mem_filter]
    simp
  refine ⟨?_, hperm, ?_, hmem, ?_, ?_⟩
  · unfold GetBestDialTarget
    rw [dialTargets_eq]
  · intro node
    rw [hperm.count_eq]
    by_cases h : now - node.LastSeen ≤ 15
    · rw [if_pos h, List.count_filter (by simpa using h)]
    · rw [if_neg h, List.count_eq_zero, List.mem_filter]
      intro hc
      exact h (by simpa using hc.2)
  · intro node hnode hage
    exact (hmem node).mpr ⟨hnode, by omega⟩
  · intro node hage hc
    have := ((hmem node).mp hc).2
    omega

/-- Witness for the amended C9: the peers X (bandwidth 1000, aged 5 s), Y (500, aged 15 s)
and Z (2000, aged 16 s) at time 1700000000: the target string is "X:9000,Y:9000". -/
theorem dial_targets_exactly_active_witness :
    (∀ node ∈ [({ IP := "X", GPUs := [], LastSeen := 1699999995, NetBandwidth := 1000 } :
          netbalance.NodeInfo),
        { IP := "Y", GPUs := [], LastSeen := 1699999985, NetBandwidth := 500 },
        { IP := "Z", GPUs := [], LastSeen := 1699999984, NetBandwidth := 2000 }],
      -9223372036854775808 ≤ 1700000000 - node.LastSeen ∧
      1700000000 - node.LastSeen < 9223372036854775808) ∧
    netbalance.GetBestDialTarget
        [{ IP := "X", GPUs := [], LastSeen := 1699999995, NetBandwidth := 1000 },
         { IP := "Y", GPUs := [], LastSeen := 1699999985, NetBandwidth := 500 },
         { IP := "Z", GPUs := [], LastSeen := 1699999984, NetBandwidth := 2000 }]
        1700000000 "9000" = "X:9000,Y:9000" ∧
    (netbalance.rankedNodes
        [{ IP := "X", GPUs := [], LastSeen := 1699999995, NetBandwidth := 1000 },
         { IP := "Y", GPUs := [], LastSeen := 1699999985, NetBandwidth := 500 },
         { IP := "Z", GPUs := [], LastSeen := 1699999984, NetBandwidth := 2000 }]
        1700000000).Perm
      (List.filter (fun node => decide (1700000000 - node.LastSeen ≤ 15))
        [{ IP := "X", GPUs := [], LastSeen := 1699999995, NetBandwidth := 1000 },
         { IP := "Y", GPUs := [], LastSeen := 1699999985, NetBandwidth := 500 },
         { IP := "Z", GPUs := [], LastSeen := 1699999984, NetBandwidth := 2000 }]) :=
  ⟨by decide, by decide,
    (dial_targets_exactly_active
      [{ IP := "X", GPUs := [], LastSeen := 1699999995, NetBandwidth := 1000 },
       { IP := "Y", GPUs := [], LastSeen := 1699999985, NetBandwidth := 500 },
       { IP := "Z", GPUs := [], LastSeen := 1699999984, NetBandwidth := 2000 }]
      1700000000 "9000" (by decide)).2.1⟩

/-- C10: for every list of discovered peers, the targets of `GetBestDialTarget` are the
renderings of the ranked peers, in the same order; in the ranked peers a peer never stands
after one of strictly smaller bandwidth, and for every bandwidth value the ranked peers of
that bandwidth are the discovered active peers of that bandwidth in discovery order. -/
theorem dial_targets_stable_descending (discovered : List NodeInfo) (now : Int)
    (port : String) :
    dialTargets discovered now port
      = (rankedNodes discovered now).map (fun node => node.IP ++ ":" ++ port) ∧
    (rankedNodes discovered now).Pairwise (fun a b => a.NetBandwidth ≥ b.NetBandwidth) ∧
    (∀ w : Int, (rankedNodes discovered now).filter (fun n => n.NetBandwidth == w)
      = discovered.filter (fun n => isActive now n && n.NetBandwidth == w)) ∧
    (rankedNodes discovered now).Perm (discovered.filter (isActive now)) := by
  refine ⟨dialTargets_eq discovered now port, ?_, ?_, ?_⟩
  · rw [rankedNodes_eq]
    exact sliceStable_descending _
  · intro w
    rw [rankedNodes_eq, sliceStable_filter, List.filter_filter]
    apply List.filter_congr
    intro n _
    exact Bool.and_comm _ _
  · rw [rankedNodes_eq]
    exact sliceStable_perm _ _

end Ranking

/-! ## Peer records -/

/-- C15: `UpdateGPU(i, g)` returns the error "gpu index out of range" iff `i < 0` or
`i >= len(n.GPUs)`, and then the record is unchanged; otherwise it returns no error,
`GetGPU(i)` on the new record returns `g` without error, `GetGPU(j)` returns for every
other index what it returned before, and the number of entries is unchanged. -/
theorem updateGPU_contract (n : netbalance.NodeInfo) (i : Int) (g : netbalance.GPUInfo) :
    ((n.UpdateGPU i g).2 = some "gpu index out of range" ↔
      (i < 0 ∨ i ≥ (n.GPUs.length : Int))) ∧
    ((n.UpdateGPU i g).2 = none ↔ (0 ≤ i ∧ i < (n.GPUs.length : Int))) ∧
    ((i < 0 ∨ i ≥ (n.GPUs.length : Int)) → (n.UpdateGPU i g).1 = n) ∧
    ((0 ≤ i ∧ i < (n.GPUs.length : Int)) →
      (n.UpdateGPU i g).1.GetGPU i = (g, none) ∧
      (∀ j : Int, j ≠ i → (n.UpdateGPU i g).1.GetGPU j = n.GetGPU j) ∧
      (n.UpdateGPU i g).1.GPUs.length = n.GPUs.length) := by
  by_cases h : i < 0 ∨ i ≥ (n.GPUs.length : Int)
  · have hu : n.UpdateGPU i g = (n, some "gpu index out of range") := by
      unfold netbalance.NodeInfo.UpdateGPU
      rw [if_pos h]
    rw [hu]
    refine ⟨by simp [h], ?_, fun _ => rfl, ?_⟩
    · constructor
      · intro hc
        cases hc
      · intro hc
        omega
    · intro hc
      omega
  · have hu : n.UpdateGPU i g = ({ n with GPUs := n.GPUs.set i.toNat g }, none) := by
      unfold netbalance.NodeInfo.UpdateGPU
      rw [if_neg h]
    have h0 : 0 ≤ i := by omega
    have h1 : i < (n.GPUs.length : Int) := by omega
    have hlt : i.toNat < n.GPUs.length := by omega
    rw [hu]
    refine ⟨by simp [h], ?_, fun hc => absurd hc h, ?_⟩
    · constructor
      · intro _
        exact ⟨h0, h1⟩
      · intro _
        rfl
    · intro _
      refine ⟨?_, ?_, by simp⟩
      · unfold netbalance.NodeInfo.GetGPU
        have hlen : ¬ (i < 0 ∨ i ≥ ((n.GPUs.set i.toNat g).length : Int)) := by
          rw [List.length_set]
          exact h
        simp only [hlen, if_false]
        rw [List.getD_eq_getElem?_getD, List.getElem?_set_self hlt]
        rfl
      · intro j hj
        unfold netbalance.NodeInfo.GetGPU
        simp only [List.length_set]
        by_cases hjr : j < 0 ∨ j ≥ (n.GPUs.length : Int)
        · simp only [hjr, if_true]
        · simp only [hjr, if_false]
          have hne : i.toNat ≠ j.toNat := by omega
          rw [List.getD_eq_getElem?_getD, List.getD_eq_getElem?_getD,
            List.getElem?_set_ne hne]

/-- Witness for C15: the record of a peer with two devices, updated at index 1. -/
theorem updateGPU_contract_witness :
    ((0 : Int) ≤ 1 ∧ (1 : Int) < (([{ ID := "GPU-0", Utilization := 0, MemoryUsed := 0 },
        { ID := "GPU-1", Utilization := 0, MemoryUsed := 0 }] :
        List netbalance.GPUInfo).length : Int)) ∧
    (netbalance.NodeInfo.UpdateGPU
        { IP := "10.0.0.2", LastSeen := 0, NetBandwidth := 0,
          GPUs := [{ ID := "GPU-0", Utilization := 0, MemoryUsed := 0 },
            { ID := "GPU-1", Utilization := 0, MemoryUsed := 0 }] }
        1 { ID := "GPU-1", Utilization := 70, MemoryUsed := 2048 }).1.GetGPU 1
      = ({ ID := "GPU-1", Utilization := 70, MemoryUsed := 2048 }, none) :=
  ⟨by decide,
    ((updateGPU_contract
      { IP := "10.0.0.2", LastSeen := 0, NetBandwidth := 0,
        GPUs := [{ ID := "GPU-0", Utilization := 0, MemoryUsed := 0 },
          { ID := "GPU-1", Utilization := 0, MemoryUsed := 0 }] }
      1 { ID := "GPU-1", Utilization := 70, MemoryUsed := 2048 }).2.2.2 (by decide)).1⟩

/-! ## Device enumeration and topology aggregation -/

section MapLemmas2

variable {κ ν : Type} [DecidableEq κ]

theorem mapLookup_ne_none_of_mem (m : GoMap κ ν) (k : κ) (v : ν) (h : (k, v) ∈ m) :
    mapLookup m k ≠ none := by
  unfold mapLookup
  cases hf : m.find? (fun e => e.1 == k) with
  | none =>
    rw [List.find?_eq_none] at hf
    exact absurd (by simp) (hf (k, v) h)
  | some e => simp

theorem mapLookup_of_mem_nodup (m : GoMap κ ν) (k : κ) (v : ν)
    (hnodup : (m.map Prod.fst).Nodup) (h : (k, v) ∈ m) : mapLookup m k = some v := by
  cases hl : mapLookup m k with
  | none => exact absurd hl (mapLookup_ne_none_of_mem m k v h)
  | some w =>
    have hw := mem_of_mapLookup m k w hl
    have := List.inj_on_of_nodup_map hnodup hw h rfl
    rw [(Prod.mk.inj this).2]

theorem mapDelete_of_not_mem (m : GoMap κ ν) (k : κ) (h : ∀ e ∈ m, e.1 ≠ k) :
    mapDelete m k = m := by
  unfold mapDelete
  rw [List.filter_eq_self]
  intro e he
  simp [h e he]

end MapLemmas2

theorem parseGPUNumaLoop_closed (cardNumaFile : Nat → Option String) (k : Nat)
    (hk : cardNumaFile k = none) :
    ∀ (fuel start : Nat) (m : GoMap Int Int), start ≤ k →
      (∀ i, start ≤ i → i < k → cardNumaFile i ≠ none) →
      (∀ e ∈ m, e.1 < (start : Int)) → k - start < fuel →
      parseGPUNumaLoop cardNumaFile fuel start m
        = some (((List.range' start (k - start)).map
            (fun i : Nat => ((i : Int), ((cardNumaFile i).map numaOfContent).getD (-1)))).reverse
            ++ m) := by
  intro fuel
  induction fuel with
  | zero =>
    intro start m _ _ _ hf
    omega
  | succ fuel ih =>
    intro start m hle hread hkeys hf
    unfold parseGPUNumaLoop
    by_cases hs : start = k
    · subst hs
      rw [hk]
      simp
    · have hlt : start < k := by omega
      cases hc : cardNumaFile start with
      | none => exact absurd hc (hread start (le_refl _) hlt)
      | some content =>
        simp only []
        have hdel : mapSet m (start : Int) (numaOfContent content)
            = ((start : Int), numaOfContent content) :: m := by
          unfold mapSet
          rw [mapDelete_of_not_mem m _ (fun e he => ne_of_lt (hkeys e he))]
        rw [hdel, ih (start + 1) _ (by omega) (fun i h1 h2 => hread i (by omega) h2) ?_
          (by omega)]
        · have hr : k - start = (k - (start + 1)) + 1 := by omega
          rw [hr, List.range'_succ]
          simp [hc]
        · intro e he
          rcases List.mem_cons.mp he with h1 | h1
          · rw [h1]
            push_cast
            omega
          · have := hkeys e h1
            push_cast
            omega

theorem parseGPUNumaLoop_from_zero (cardNumaFile : Nat → Option String) (k fuel : Nat)
    (hk : cardNumaFile k = none) (hread : ∀ i, i < k → cardNumaFile i ≠ none)
    (hfuel : k < fuel) :
    parseGPUNumaLoop cardNumaFile fuel 0 []
      = some (((List.range k).map
          (fun i : Nat => ((i : Int), ((cardNumaFile i).map numaOfContent).getD (-1)))).reverse) := by
  rw [parseGPUNumaLoop_closed cardNumaFile k hk fuel 0 [] (Nat.zero_le _)
    (fun i _ h => hread i h) (fun e he => absurd he (List.not_mem_nil e)) (by omega)]
  rw [List.append_nil, Nat.sub_zero, List.range_eq_range']

theorem keys_of_enumeration (cardNumaFile : Nat → Option String) (k : Nat) :
    (((List.range k).map
        (fun i : Nat => ((i : Int), ((cardNumaFile i).map numaOfContent).getD (-1)))).reverse).map
        Prod.fst
      = ((List.range k).map (fun i : Nat => (i : Int))).reverse := by
  rw [List.map_reverse, List.map_map]
  rfl

theorem nodup_keys_of_enumeration (k : Nat) :
    (((List.range k).map (fun i : Nat => (i : Int))).reverse).Nodup := by
  rw [List.nodup_reverse]
  exact (List.nodup_range k).map (fun a b h => by exact_mod_cast h)

/-- C19: let `k` be the least device id whose affinity file cannot be read.  Then, given
more than `k` rounds, the loop of `parseGPUNumaMapping` ends with a map whose keys are
exactly the ids `0, ..., k-1` (each once), whatever files exist at ids above `k`; the node
recorded for an id is the one read from its file; and `parseGPUNumaMapping` returns this
map, or its error when `k = 0`. -/
theorem parseGPUNumaMapping_contiguous (cardNumaFile : Nat → Option String) (k fuel : Nat)
    (hk : cardNumaFile k = none) (hread : ∀ i, i < k → cardNumaFile i ≠ none)
    (hfuel : k < fuel) :
    ∃ m : GoMap Int Int,
      parseGPUNumaLoop cardNumaFile fuel 0 [] = some m ∧
      parseGPUNumaMapping cardNumaFile fuel
        = some (if k = 0 then Except.error "no GPU NUMA info found in sysfs"
            else Except.ok m) ∧
      m.map Prod.fst = ((List.range k).map (fun i : Nat => (i : Int))).reverse ∧
      (∀ id : Int, (∃ numa, (id, numa) ∈ m) ↔ (0 ≤ id ∧ id < (k : Int))) ∧
      (∀ i, i < k → mapLookup m (i : Int) = (cardNumaFile i).map numaOfContent) := by
  have hloop := parseGPUNumaLoop_from_zero cardNumaFile k fuel hk hread hfuel
  have hkeys := keys_of_enumeration cardNumaFile k
  refine ⟨_, hloop, ?_, hkeys, ?_, ?_⟩
  · unfold parseGPUNumaMapping
    rw [hloop]
    by_cases h0 : k = 0
    · subst h0
      rfl
    · simp [h0]
  · intro id
    constructor
    · rintro ⟨numa, hmem⟩
      have : id ∈ ((List.range k).map (fun i : Nat => (i : Int))).reverse := by
        rw [← hkeys]
        exact List.mem_map.mpr ⟨(id, numa), hmem, rfl⟩
      rw [List.mem_reverse, List.mem_map] at this
      rcases this with ⟨i, hi, rfl⟩
      rw [List.mem_range] at hi
      omega
    · rintro ⟨h0, h1⟩
      refine ⟨((cardNumaFile id.toNat).map numaOfContent).getD (-1), ?_⟩
      rw [List.mem_reverse, List.mem_map]
      refine ⟨id.toNat, List.mem_range.mpr (by omega), ?_⟩
      simp [Int.toNat_of_nonneg h0]
  · intro i hi
    have hmem : ((i : Int), ((cardNumaFile i).map numaOfContent).getD (-1)) ∈
        ((List.range k).map (fun i : Nat =>
          ((i : Int), ((cardNumaFile i).map numaOfContent).getD (-1)))).reverse := by
      rw [List.mem_reverse, List.mem_map]
      exact ⟨i, List.mem_range.mpr hi, rfl⟩
    rw [mapLookup_of_mem_nodup _ _ _ (hkeys ▸ nodup_keys_of_enumeration k) hmem]
    cases hc : cardNumaFile i with
    | none => exact absurd hc (hread i hi)
    | some c => rfl

/-- Witness for C19: the files of the ids 0 and 1 can be read, that of id 2 cannot, and a
file exists again at id 3: the ids 0 and 1 are found. -/
theorem parseGPUNumaMapping_contiguous_witness :
    ∃ m : GoMap Int Int,
      parseGPUNumaLoop (fun i => if i = 2 then none else some "0\n") 5 0 [] = some m ∧
      m.map Prod.fst = ((List.range 2).map (fun i : Nat => (i : Int))).reverse :=
  match parseGPUNumaMapping_contiguous (fun i => if i = 2 then none else some "0\n") 2 5
    (by decide) (by decide) (by decide) with
  | ⟨m, h1, _, h3, _⟩ => ⟨m, h1, h3⟩

/-- C20: let `k` be the least device id whose affinity file cannot be read and let
`parseGPUNumaMapping` have more than `k` rounds.  Then `MapNUMATopology`, on the interface
list of the host and the result of `parseGPUNumaMapping`, returns an error iff the file of
device 0 cannot be read, that is iff no device is found; in every other case it returns
groups, in whatever order the map is visited, also when the `ip` command fails or lists
nothing and when affinity files hold no integer. -/
theorem mapNUMATopology_error_iff_no_device (host : Host) (k fuel : Nat)
    (hk : host.cardNumaFile k = none) (hread : ∀ i, i < k → host.cardNumaFile i ≠ none)
    (hfuel : k < fuel) :
    ∃ gpuRes : Except String (GoMap Int Int),
      parseGPUNumaMapping host.cardNumaFile fuel = some gpuRes ∧
      ((∃ err, MapNUMATopology (DetectAllPhysicalInterfaces host) gpuRes = Except.error err)
        ↔ host.cardNumaFile 0 = none) ∧
      (host.cardNumaFile 0 ≠ none →
        ∃ m, gpuRes = Except.ok m ∧
          ∀ entries : GoMap Int Int, entries.Perm m →
            ∃ groups, MapNUMATopology (DetectAllPhysicalInterfaces host) (Except.ok entries)
              = Except.ok groups) := by
  rcases parseGPUNumaMapping_contiguous host.cardNumaFile k fuel hk hread hfuel with
    ⟨m, _, hmap, _, _, _⟩
  have hk0 : k = 0 ↔ host.cardNumaFile 0 = none := by
    constructor
    · intro h
      rw [← h]
      exact hk
    · intro h
      by_contra hne
      exact hread 0 (Nat.pos_of_ne_zero hne) h
  refine ⟨_, hmap, ?_, ?_⟩
  · rw [← hk0]
    by_cases h0 : k = 0
    · simp [h0, MapNUMATopology, DetectAllPhysicalInterfaces]
    · simp [h0, MapNUMATopology, DetectAllPhysicalInterfaces]
  · intro hne
    have h0 : ¬ k = 0 := fun h => hne (hk0.mp h)
    refine ⟨m, by simp [h0], ?_⟩
    intro entries _
    exact ⟨_, rfl⟩

/-- Witness for C20: the `ip` command fails, the file of device 0 holds no integer and the
file of device 1 cannot be read: the result is the one group of node 0 with device 0. -/
theorem mapNUMATopology_error_iff_no_device_witness :
    parseGPUNumaMapping (fun i => if i = 0 then some "garbage" else none) 3
      = some (Except.ok [(0, -1)]) ∧
    MapNUMATopology
        (DetectAllPhysicalInterfaces
          { cardNumaFile := fun i => if i = 0 then some "garbage" else none,
            netNumaFile := fun _ => none, ipLinkShow := none })
        (Except.ok [(0, -1)])
      = Except.ok [{ NUMANode := 0, GPUIDs := [0], NetIfs := [] }] ∧
    ∃ gpuRes : Except String (GoMap Int Int),
      parseGPUNumaMapping (fun i => if i = 0 then some "garbage" else none) 3 = some gpuRes ∧
      ((∃ err, MapNUMATopology
          (DetectAllPhysicalInterfaces
            { cardNumaFile := fun i => if i = 0 then some "garbage" else none,
              netNumaFile := fun _ => none, ipLinkShow := none }) gpuRes = Except.error err)
        ↔ (if (0 : Nat) = 0 then some "garbage" else none) = none) :=
  ⟨rfl, rfl,
    match mapNUMATopology_error_iff_no_device
      { cardNumaFile := fun i => if i = 0 then some "garbage" else none,
        netNumaFile := fun _ => none, ipLinkShow := none } 1 3
      (by decide) (by decide) (by decide) with
    | ⟨gpuRes, h1, h2, _⟩ => ⟨gpuRes, h1, h2⟩⟩

theorem groupFor_of_inv (G : GoMap Int NUMAGroup) (es : GoMap Int Int)
    (ifs : List NetDeviceInfo) (k : Int)
    (hG : ∀ e ∈ G, e.2.NUMANode = e.1 ∧ e.2.GPUIDs = gpusOfNode es e.1 ∧
      e.2.NetIfs = ifacesOfNode ifs e.1)
    (hes : ∀ x ∈ es, ∃ g, (nodeOfAffinity x.2, g) ∈ G)
    (hifs : ∀ i ∈ ifs, ∃ g, (nodeOfAffinity i.NUMANode, g) ∈ G) :
    (groupFor G k).NUMANode = k ∧ (groupFor G k).GPUIDs = gpusOfNode es k ∧
      (groupFor G k).NetIfs = ifacesOfNode ifs k := by
  unfold groupFor
  cases hl : mapLookup G k with
  | some group => exact hG (k, group) (mem_of_mapLookup G k group hl)
  | none =>
    refine ⟨rfl, ?_, ?_⟩
    · show [] = gpusOfNode es k
      unfold gpusOfNode
      rw [eq_comm, List.map_eq_nil_iff, List.filter_eq_nil_iff]
      intro x hx hxk
      rcases hes x hx with ⟨g, hg⟩
      have hxk2 : nodeOfAffinity x.2 = k := by simpa using hxk
      exact mapLookup_ne_none_of_mem G k g (hxk2 ▸ hg) hl
    · show [] = ifacesOfNode ifs k
      unfold ifacesOfNode
      rw [eq_comm, List.map_eq_nil_iff, List.filter_eq_nil_iff]
      intro i hi hik
      rcases hifs i hi with ⟨g, hg⟩
      have hik2 : nodeOfAffinity i.NUMANode = k := by simpa using hik
      exact mapLookup_ne_none_of_mem G k g (hik2 ▸ hg) hl

theorem cover_mapSet (G : GoMap Int NUMAGroup) (k0 k : Int) (v : NUMAGroup)
    (h : ∃ g, (k, g) ∈ G) : ∃ g, (k, g) ∈ mapSet G k0 v := by
  rcases h with ⟨g, hg⟩
  by_cases hk : k = k0
  · exact ⟨v, (mem_mapSet G k0 v _).mpr (Or.inl (by rw [hk]))⟩
  · exact ⟨g, (mem_mapSet G k0 v _).mpr (Or.inr ⟨hg, hk⟩)⟩

theorem gpusOfNode_append (es : GoMap Int Int) (x : Int × Int) (k : Int) :
    gpusOfNode (es ++ [x]) k
      = gpusOfNode es k ++ (if nodeOfAffinity x.2 = k then [x.1] else []) := by
  unfold gpusOfNode
  rw [List.filter_append, List.map_append]
  by_cases h : nodeOfAffinity x.2 = k
  · simp [h, List.filter_cons]
  · simp [h, List.filter_cons]

theorem ifacesOfNode_append (ifs : List NetDeviceInfo) (i : NetDeviceInfo) (k : Int) :
    ifacesOfNode (ifs ++ [i]) k
      = ifacesOfNode ifs k ++ (if nodeOfAffinity i.NUMANode = k then [i.Name] else []) := by
  unfold ifacesOfNode
  rw [List.filter_append, List.map_append]
  by_cases h : nodeOfAffinity i.NUMANode = k
  · simp [h, List.filter_cons]
  · simp [h, List.filter_cons]

theorem topology_inv_addGPU (G : GoMap Int NUMAGroup) (es : GoMap Int Int)
    (ifs : List NetDeviceInfo) (x : Int × Int)
    (hnodup : (G.map Prod.fst).Nodup)
    (hG : ∀ e ∈ G, e.2.NUMANode = e.1 ∧ e.2.GPUIDs = gpusOfNode es e.1 ∧
      e.2.NetIfs = ifacesOfNode ifs e.1)
    (hes : ∀ x ∈ es, ∃ g, (nodeOfAffinity x.2, g) ∈ G)
    (hifs : ∀ i ∈ ifs, ∃ g, (nodeOfAffinity i.NUMANode, g) ∈ G) :
    ((addGPU G x).map Prod.fst).Nodup ∧
    (∀ e ∈ addGPU G x, e.2.NUMANode = e.1 ∧ e.2.GPUIDs = gpusOfNode (es ++ [x]) e.1 ∧
      e.2.NetIfs = ifacesOfNode ifs e.1) ∧
    (∀ y ∈ es ++ [x], ∃ g, (nodeOfAffinity y.2, g) ∈ addGPU G x) ∧
    (∀ i ∈ ifs, ∃ g, (nodeOfAffinity i.NUMANode, g) ∈ addGPU G x) := by
  have hgf := groupFor_of_inv G es ifs (nodeOfAffinity x.2) hG hes hifs
  have hadd : addGPU G x = mapSet G (nodeOfAffinity x.2)
      { groupFor G (nodeOfAffinity x.2) with
        GPUIDs := (groupFor G (nodeOfAffinity x.2)).GPUIDs ++ [x.1] } := rfl
  rw [hadd]
  refine ⟨nodup_keys_mapSet G _ _ hnodup, ?_, ?_, ?_⟩
  · intro e he
    rcases (mem_mapSet G _ _ e).mp he with h | ⟨h, hne⟩
    · subst h
      refine ⟨hgf.1, ?_, hgf.2.2⟩
      show (groupFor G (nodeOfAffinity x.2)).GPUIDs ++ [x.1] = _
      rw [gpusOfNode_append, hgf.2.1, if_pos rfl]
    · refine ⟨(hG e h).1, ?_, (hG e h).2.2⟩
      rw [gpusOfNode_append, if_neg (fun c => hne c.symm), List.append_nil]
      exact (hG e h).2.1
  · intro y hy
    rcases List.mem_append.mp hy with h | h
    · exact cover_mapSet G _ _ _ (hes y h)
    · rw [List.mem_singleton.mp h]
      exact ⟨_, (mem_mapSet G _ _ _).mpr (Or.inl rfl)⟩
  · intro i hi
    exact cover_mapSet G _ _ _ (hifs i hi)

theorem topology_inv_addIface (G : GoMap Int NUMAGroup) (es : GoMap Int Int)
    (ifs : List NetDeviceInfo) (i : NetDeviceInfo)
    (hnodup : (G.map Prod.fst).Nodup)
    (hG : ∀ e ∈ G, e.2.NUMANode = e.1 ∧ e.2.GPUIDs = gpusOfNode es e.1 ∧
      e.2.NetIfs = ifacesOfNode ifs e.1)
    (hes : ∀ x ∈ es, ∃ g, (nodeOfAffinity x.2, g) ∈ G)
    (hifs : ∀ i ∈ ifs, ∃ g, (nodeOfAffinity i.NUMANode, g) ∈ G) :
    ((addIface G i).map Prod.fst).Nodup ∧
    (∀ e ∈ addIface G i, e.2.NUMANode = e.1 ∧ e.2.GPUIDs = gpusOfNode es e.1 ∧
      e.2.NetIfs = ifacesOfNode (ifs ++ [i]) e.1) ∧
    (∀ y ∈ es, ∃ g, (nodeOfAffinity y.2, g) ∈ addIface G i) ∧
    (∀ j ∈ ifs ++ [i], ∃ g, (nodeOfAffinity j.NUMANode, g) ∈ addIface G i) := by
  have hgf := groupFor_of_inv G es ifs (nodeOfAffinity i.NUMANode) hG hes hifs
  have hadd : addIface G i = mapSet G (nodeOfAffinity i.NUMANode)
      { groupFor G (nodeOfAffinity i.NUMANode) with
        NetIfs := (groupFor G (nodeOfAffinity i.NUMANode)).NetIfs ++ [i.Name] } := rfl
  rw [hadd]
  refine ⟨nodup_keys_mapSet G _ _ hnodup, ?_, ?_, ?_⟩
  · intro e he
    rcases (mem_mapSet G _ _ e).mp he with h | ⟨h, hne⟩
    · subst h
      refine ⟨hgf.1, hgf.2.1, ?_⟩
      show (groupFor G (nodeOfAffinity i.NUMANode)).NetIfs ++ [i.Name] = _
      rw [ifacesOfNode_append, hgf.2.2, if_pos rfl]
    · refine ⟨(hG e h).1, (hG e h).2.1, ?_⟩
      rw [ifacesOfNode_append, if_neg (fun c => hne c.symm), List.append_nil]
      exact (hG e h).2.2
  · intro y hy
    exact cover_mapSet G _ _ _ (hes y hy)
  · intro j hj
    rcases List.mem_append.mp hj with h | h
    · exact cover_mapSet G _ _ _ (hifs j h)
    · rw [List.mem_singleton.mp h]
      exact ⟨_, (mem_mapSet G _ _ _).mpr (Or.inl rfl)⟩

theorem topology_inv_foldl_addGPU (rest : GoMap Int Int) :
    ∀ (G : GoMap Int NUMAGroup) (es : GoMap Int Int),
      (G.map Prod.fst).Nodup →
      (∀ e ∈ G, e.2.NUMANode = e.1 ∧ e.2.GPUIDs = gpusOfNode es e.1 ∧
        e.2.NetIfs = ifacesOfNode [] e.1) →
      (∀ x ∈ es, ∃ g, (nodeOfAffinity x.2, g) ∈ G) →
      ((rest.foldl addGPU G).map Prod.fst).Nodup ∧
      (∀ e ∈ rest.foldl addGPU G, e.2.NUMANode = e.1 ∧
        e.2.GPUIDs = gpusOfNode (es ++ rest) e.1 ∧ e.2.NetIfs = ifacesOfNode [] e.1) ∧
      (∀ y ∈ es ++ rest, ∃ g, (nodeOfAffinity y.2, g) ∈ rest.foldl addGPU G) := by
  induction rest with
  | nil =>
    intro G es h1 h2 h3
    rw [List.append_nil]
    exact ⟨h1, h2, h3⟩
  | cons x rest ih =>
    intro G es h1 h2 h3
    have h := topology_inv_addGPU G es [] x h1 h2 h3
      (fun i hi => absurd hi (List.not_mem_nil i))
    have := ih (addGPU G x) (es ++ [x]) h.1 h.2.1 h.2.2.1
    rw [List.append_assoc] at this
    exact this

theorem topology_inv_foldl_addIface (es : GoMap Int Int) (rest : List NetDeviceInfo) :
    ∀ (G : GoMap Int NUMAGroup) (ifs : List NetDeviceInfo),
      (G.map Prod.fst).Nodup →
      (∀ e ∈ G, e.2.NUMANode = e.1 ∧ e.2.GPUIDs = gpusOfNode es e.1 ∧
        e.2.NetIfs = ifacesOfNode ifs e.1) →
      (∀ x ∈ es, ∃ g, (nodeOfAffinity x.2, g) ∈ G) →
      (∀ i ∈ ifs, ∃ g, (nodeOfAffinity i.NUMANode, g) ∈ G) →
      ((rest.foldl addIface G).map Prod.fst).Nodup ∧
      (∀ e ∈ rest.foldl addIface G, e.2.NUMANode = e.1 ∧
        e.2.GPUIDs = gpusOfNode es e.1 ∧ e.2.NetIfs = ifacesOfNode (ifs ++ rest) e.1) ∧
      (∀ y ∈ es, ∃ g, (nodeOfAffinity y.2, g) ∈ rest.foldl addIface G) ∧
      (∀ j ∈ ifs ++ rest, ∃ g, (nodeOfAffinity j.NUMANode, g) ∈ rest.foldl addIface G) := by
  induction rest with
  | nil =>
    intro G ifs h1 h2 h3 h4
    rw [List.append_nil]
    exact ⟨h1, h2, h3, h4⟩
  | cons i rest ih =>
    intro G ifs h1 h2 h3 h4
    have h := topology_inv_addIface G es ifs i h1 h2 h3 h4
    have := ih (addIface G i) (ifs ++ [i]) h.1 h.2.1 h.2.2.1 h.2.2.2
    rw [List.append_assoc] at this
    exact this

/-- The groups computed by `MapNUMATopology`: one per node, each holding exactly the
devices and interfaces of its node, and every entity has its group. -/
theorem mapNUMATopology_characterised (netIfs : List NetDeviceInfo) (entries : GoMap Int Int)
    (groups : List NUMAGroup)
    (hres : MapNUMATopology (Except.ok netIfs) (Except.ok entries) = Except.ok groups) :
    (groups.map (fun g => g.NUMANode)).Nodup ∧
    (∀ g ∈ groups, g.GPUIDs = gpusOfNode entries g.NUMANode ∧
      g.NetIfs = ifacesOfNode netIfs g.NUMANode) ∧
    (∀ x ∈ entries, ∃ g ∈ groups, g.NUMANode = nodeOfAffinity x.2) ∧
    (∀ i ∈ netIfs, ∃ g ∈ groups, g.NUMANode = nodeOfAffinity i.NUMANode) := by
  simp only [MapNUMATopology, Except.ok.injEq] at hres
  subst hres
  have hA := topology_inv_foldl_addGPU entries [] [] List.nodup_nil
    (fun e he => absurd he (List.not_mem_nil e)) (fun e he => absurd he (List.not_mem_nil e))
  rw [List.nil_append] at hA
  have hB := topology_inv_foldl_addIface entries netIfs (entries.foldl addGPU []) []
    hA.1 hA.2.1 hA.2.2 (fun e he => absurd he (List.not_mem_nil e))
  rw [List.nil_append] at hB
  have hnode : ∀ e ∈ netIfs.foldl addIface (entries.foldl addGPU []),
      e.2.NUMANode = e.1 := fun e he => (hB.2.1 e he).1
  refine ⟨?_, ?_, ?_, ?_⟩
  · rw [List.map_map]
    have : List.map ((fun g => g.NUMANode) ∘ Prod.snd)
        (netIfs.foldl addIface (entries.foldl addGPU []))
        = List.map Prod.fst (netIfs.foldl addIface (entries.foldl addGPU [])) :=
      List.map_congr_left (fun e he => hnode e he)
    rw [this]
    exact hB.1
  · intro g hg
    rcases List.mem_map.mp hg with ⟨e, he, rfl⟩
    have := hB.2.1 e he
    rw [this.1]
    exact ⟨this.2.1, this.2.2⟩
  · intro x hx
    rcases hB.2.2.1 x hx with ⟨g, hg⟩
    exact ⟨g, List.mem_map.mpr ⟨_, hg, rfl⟩, (hnode _ hg)⟩
  · intro i hi
    rcases hB.2.2.2 i hi with ⟨g, hg⟩
    exact ⟨g, List.mem_map.mpr ⟨_, hg, rfl⟩, (hnode _ hg)⟩

/-- C18: for every device-affinity map (one entry per device id) and every list of
interfaces with affinities, the groups returned by `MapNUMATopology`, in whatever order,
partition the input.  There is one group per node; a group holds exactly the devices and
the interfaces whose affinity belongs to its node, in input order; every device id is in
the group of its node and in no other group; every interface name is in the group of its
node, and in no other group when the list gives the name one affinity.  An affinity
`a >= 0` belongs to node `a`; a negative affinity, which is also what an unparseable or
unreadable affinity file is read as, belongs to node 0. -/
theorem mapNUMATopology_partitions (netIfs : List NetDeviceInfo) (entries : GoMap Int Int)
    (groups result : List NUMAGroup)
    (hmap : (entries.map Prod.fst).Nodup)
    (hres : MapNUMATopology (Except.ok netIfs) (Except.ok entries) = Except.ok groups)
    (hperm : result.Perm groups) :
    (result.map (fun g => g.NUMANode)).Nodup ∧
    (∀ g ∈ result, g.GPUIDs = gpusOfNode entries g.NUMANode ∧
      g.NetIfs = ifacesOfNode netIfs g.NUMANode) ∧
    (∀ x ∈ entries, ∃ g ∈ result, g.NUMANode = nodeOfAffinity x.2 ∧ x.1 ∈ g.GPUIDs ∧
      ∀ g' ∈ result, x.1 ∈ g'.GPUIDs → g' = g) ∧
    (∀ i ∈ netIfs, ∃ g ∈ result, g.NUMANode = nodeOfAffinity i.NUMANode ∧
      i.Name ∈ g.NetIfs ∧
      ((∀ j ∈ netIfs, j.Name = i.Name → j.NUMANode = i.NUMANode) →
        ∀ g' ∈ result, i.Name ∈ g'.NetIfs → g' = g)) ∧
    (∀ a : Int, (0 ≤ a → nodeOfAffinity a = a) ∧ (a < 0 → nodeOfAffinity a = 0)) ∧
    (∀ content, Atoi (TrimSpace content) = none →
      nodeOfAffinity (numaOfContent content) = 0) ∧
    (∀ (host : Host) (iface : String),
      (host.netNumaFile iface = none ∨
        ∃ data, host.netNumaFile iface = some data ∧ Atoi (TrimSpace data) = none) →
      nodeOfAffinity (GetInterfaceNUMANode host iface) = 0) := by
  rcases mapNUMATopology_characterised netIfs entries groups hres with ⟨h1, h2, h3, h4⟩
  have hnodup : (result.map (fun g => g.NUMANode)).Nodup :=
    (hperm.map _).nodup_iff.mpr h1
  have hmem : ∀ g, g ∈ result ↔ g ∈ groups := fun g => hperm.mem_iff
  have hinj : ∀ g ∈ result, ∀ g' ∈ result, g'.NUMANode = g.NUMANode → g' = g :=
    fun g hg g' hg' h => List.inj_on_of_nodup_map hnodup hg' hg h
  refine ⟨hnodup, fun g hg => h2 g ((hmem g).mp hg), ?_, ?_, ?_, ?_, ?_⟩
  · intro x hx
    rcases h3 x hx with ⟨g, hg, hgn⟩
    have hgr : g ∈ result := (hmem g).mpr hg
    refine ⟨g, hgr, hgn, ?_, ?_⟩
    · rw [(h2 g hg).1, hgn]
      unfold gpusOfNode
      exact List.mem_map.mpr ⟨x, List.mem_filter.mpr ⟨hx, by simp⟩, rfl⟩
    · intro g' hg' hx'
      apply hinj g hgr g' hg'
      rw [(h2 g' ((hmem g').mp hg')).1] at hx'
      unfold gpusOfNode at hx'
      rcases List.mem_map.mp hx' with ⟨y, hy, hyx⟩
      rcases List.mem_filter.mp hy with ⟨hy1, hy2⟩
      have hyeq : y = x := List.inj_on_of_nodup_map hmap hy1 hx hyx
      rw [hyeq] at hy2
      rw [hgn]
      exact (by simpa using hy2 : nodeOfAffinity x.2 = g'.NUMANode).symm
  · intro i hi
    rcases h4 i hi with ⟨g, hg, hgn⟩
    have hgr : g ∈ result := (hmem g).mpr hg
    refine ⟨g, hgr, hgn, ?_, ?_⟩
    · rw [(h2 g hg).2, hgn]
      unfold ifacesOfNode
      exact List.mem_map.mpr ⟨i, List.mem_filter.mpr ⟨hi, by simp⟩, rfl⟩
    · intro hone g' hg' hi'
      apply hinj g hgr g' hg'
      rw [(h2 g' ((hmem g').mp hg')).2] at hi'
      unfold ifacesOfNode at hi'
      rcases List.mem_map.mp hi' with ⟨j, hj, hji⟩
      rcases List.mem_filter.mp hj with ⟨hj1, hj2⟩
      have hjn : j.NUMANode = i.NUMANode := hone j hj1 hji
      rw [hjn] at hj2
      rw [hgn]
      exact (by simpa using hj2 : nodeOfAffinity i.NUMANode = g'.NUMANode).symm
  · intro a
    unfold nodeOfAffinity
    constructor
    · intro h
      rw [if_neg (by omega)]
    · intro h
      rw [if_pos h]
  · intro content h
    unfold numaOfContent
    rw [h]
    rfl
  · intro host iface h
    unfold GetInterfaceNUMANode
    rcases h with h | ⟨data, h, ha⟩
    · rw [h]
      rfl
    · rw [h]
      simp only [ha]
      rfl

/-- Witness for C18: device 0 on node 1, device 1 on node 0 and `eth0` on node 1 give the
group of node 0 with device 1 and no interface, and the group of node 1 with device 0 and
`eth0`. -/
theorem mapNUMATopology_partitions_witness :
    MapNUMATopology (Except.ok [{ Name := "eth0", NUMANode := 1, IsVirtual := false }])
        (Except.ok [(0, 1), (1, 0)])
      = Except.ok [{ NUMANode := 1, GPUIDs := [0], NetIfs := ["eth0"] },
          { NUMANode := 0, GPUIDs := [1], NetIfs := [] }] ∧
    (∀ g ∈ [({ NUMANode := 0, GPUIDs := [1], NetIfs := [] } : NUMAGroup),
        { NUMANode := 1, GPUIDs := [0], NetIfs := ["eth0"] }],
      g.GPUIDs = gpusOfNode [(0, 1), (1, 0)] g.NUMANode ∧
      g.NetIfs = ifacesOfNode [{ Name := "eth0", NUMANode := 1, IsVirtual := false }]
        g.NUMANode) :=
  ⟨rfl,
    (mapNUMATopology_partitions [{ Name := "eth0", NUMANode := 1, IsVirtual := false }]
      [(0, 1), (1, 0)]
      [{ NUMANode := 1, GPUIDs := [0], NetIfs := ["eth0"] },
        { NUMANode := 0, GPUIDs := [1], NetIfs := [] }]
      [{ NUMANode := 0, GPUIDs := [1], NetIfs := [] },
        { NUMANode := 1, GPUIDs := [0], NetIfs := ["eth0"] }]
      (by decide) rfl (by decide)).2.1⟩

/-! ## Speed parsing -/

theorem digitChar_decimal (d : Nat) (h : d < 10) :
    isDecimalDigit (Nat.digitChar d) = true ∧ (Nat.digitChar d).toNat - 48 = d := by
  interval_cases d <;> decide

theorem toDigitsCore_split (fuel n : Nat) (ds : List Char) :
    ∃ pre, Nat.toDigitsCore 10 fuel n ds = pre ++ ds ∧
      (0 < fuel → pre ≠ []) ∧ ∀ c ∈ pre, isDecimalDigit c = true := by
  induction fuel generalizing n ds with
  | zero => exact ⟨[], rfl, fun h => absurd h (Nat.lt_irrefl 0), fun c hc => by cases hc⟩
  | succ fuel ih =>
    have hd := (digitChar_decimal (n % 10) (Nat.mod_lt _ (by decide))).1
    unfold Nat.toDigitsCore
    by_cases h0 : n / 10 = 0
    · simp only [h0, if_true]
      refine ⟨[Nat.digitChar (n % 10)], rfl, fun _ => by simp, ?_⟩
      intro c hc
      rw [List.mem_singleton.mp hc]
      exact hd
    · simp only [h0, if_false]
      rcases ih (n / 10) (Nat.digitChar (n % 10) :: ds) with ⟨pre, hpre, _, hdig⟩
      refine ⟨pre ++ [Nat.digitChar (n % 10)], ?_, fun _ => by simp, ?_⟩
      · rw [hpre]
        simp
      · intro c hc
        rcases List.mem_append.mp hc with h | h
        · exact hdig c h
        · rw [List.mem_singleton.mp h]
          exact hd

theorem toDigits_decimal (n : Nat) :
    Nat.toDigits 10 n ≠ [] ∧ ∀ c ∈ Nat.toDigits 10 n, isDecimalDigit c = true := by
  unfold Nat.toDigits
  rcases toDigitsCore_split (n + 1) n [] with ⟨pre, hpre, hne, hdig⟩
  rw [hpre, List.append_nil]
  exact ⟨hne (Nat.succ_pos n), hdig⟩

theorem foldl_digits_ge (cs : List Char) (acc : Nat) :
    acc ≤ cs.foldl (fun a c => a * 10 + (c.toNat - 48)) acc := by
  induction cs generalizing acc with
  | nil => exact le_refl _
  | cons c cs ih =>
    rw [List.foldl_cons]
    exact le_trans (by omega) (ih _)

theorem toDigitsCore_value (fuel n : Nat) (ds : List Char) (h : n < fuel) :
    (Nat.toDigitsCore 10 fuel n ds).foldl (fun a c => a * 10 + (c.toNat - 48)) 0
      = ds.foldl (fun a c => a * 10 + (c.toNat - 48)) n := by
  induction fuel generalizing n ds with
  | zero => omega
  | succ fuel ih =>
    have hd := (digitChar_decimal (n % 10) (Nat.mod_lt _ (by decide))).2
    unfold Nat.toDigitsCore
    by_cases h0 : n / 10 = 0
    · simp only [h0, if_true, List.foldl_cons, hd]
      have : n % 10 = n := Nat.mod_eq_of_lt (by omega)
      rw [Nat.zero_mul, Nat.zero_add, this]
    · simp only [h0, if_false]
      rw [ih (n / 10) _ (by omega), List.foldl_cons, hd]
      have : n / 10 * 10 + n % 10 = n := by omega
      rw [this]

theorem toDigits_value (n : Nat) :
    (Nat.toDigits 10 n).foldl (fun a c => a * 10 + (c.toNat - 48)) 0 = n := by
  unfold Nat.toDigits
  rw [toDigitsCore_value (n + 1) n [] (Nat.lt_succ_self n)]
  rfl

theorem parseUintLoop_digits (cs : List Char) (acc : Nat)
    (hdig : ∀ c ∈ cs, isDecimalDigit c = true)
    (hval : cs.foldl (fun a c => a * 10 + (c.toNat - 48)) acc ≤ 18446744073709551615) :
    parseUintLoop cs acc
      = some (some (cs.foldl (fun a c => a * 10 + (c.toNat - 48)) acc)) := by
  induction cs generalizing acc with
  | nil => rfl
  | cons c cs ih =>
    rw [List.foldl_cons] at hval ⊢
    have hge := foldl_digits_ge cs (acc * 10 + (c.toNat - 48))
    unfold parseUintLoop
    rw [if_pos (hdig c (List.mem_cons_self _ _))]
    rw [if_neg (by omega)]
    simp only []
    rw [if_neg (by omega)]
    exact ih _ (fun x hx => hdig x (List.mem_cons_of_mem _ hx)) hval

theorem decimalDigit_facts (c : Char) (h : isDecimalDigit c = true) :
    (c == '\n') = false ∧ unicodeIsSpace c = false ∧ (c == '+' || c == '-') = false ∧
      c.toNat < 128 ∧ ¬ (65 ≤ c.toNat ∧ c.toNat ≤ 90) := by
  unfold isDecimalDigit at h
  simp only [Bool.and_eq_true, decide_eq_true_eq] at h
  refine ⟨?_, ?_, ?_, by omega, by omega⟩
  · rw [beq_eq_false_iff_ne]
    intro hc
    rw [hc] at h
    revert h
    decide
  · unfold unicodeIsSpace
    simp only [Bool.or_eq_false_iff, Bool.and_eq_false_iff, decide_eq_false_iff_not,
      beq_eq_false_iff_ne]
    omega
  · rw [Bool.or_eq_false_iff, beq_eq_false_iff_ne, beq_eq_false_iff_ne]
    constructor
    · intro hc
      rw [hc] at h
      revert h
      decide
    · intro hc
      rw [hc] at h
      revert h
      decide

theorem parseInt_digits (cs : List Char) (hne : cs ≠ [])
    (hdig : ∀ c ∈ cs, isDecimalDigit c = true)
    (hval : cs.foldl (fun a c => a * 10 + (c.toNat - 48)) 0 < 9223372036854775808) :
    ParseInt cs
      = Except.ok ((cs.foldl (fun a c => a * 10 + (c.toNat - 48)) 0 : Nat) : Int) := by
  cases cs with
  | nil => exact absurd rfl hne
  | cons c cs =>
    have hc := (decimalDigit_facts c (hdig c (List.mem_cons_self _ _))).2.2.1
    have hminus : (c == '-') = false := (Bool.or_eq_false_iff.mp hc).2
    have hplus : (c == '+') = false := (Bool.or_eq_false_iff.mp hc).1
    unfold ParseInt
    simp only [hplus, hminus, Bool.or_self, Bool.false_eq_true, if_false]
    rw [parseUintLoop_digits (c :: cs) 0 hdig (by omega)]
    simp only [Bool.not_false, Bool.true_and, Bool.false_and, Bool.false_eq_true, if_false,
      decide_eq_true_eq]
    rw [if_neg (by omega)]

theorem sscanfInt_digits (cs : List Char) (hne : cs ≠ [])
    (hdig : ∀ c ∈ cs, isDecimalDigit c = true)
    (hval : cs.foldl (fun a c => a * 10 + (c.toNat - 48)) 0 < 9223372036854775808) :
    SscanfInt (String.mk cs)
      = Except.ok ((cs.foldl (fun a c => a * 10 + (c.toNat - 48)) 0 : Nat) : Int) := by
  cases cs with
  | nil => exact absurd rfl hne
  | cons c cs =>
    have hcd := hdig c (List.mem_cons_self _ _)
    have hc := decimalDigit_facts c hcd
    have hskip : fmtSkipSpace (c :: cs) = Except.ok (c :: cs) := by
      unfold fmtSkipSpace
      simp [hc.1, hc.2.1]
    have htake : List.takeWhile isDecimalDigit (c :: cs) = c :: cs := by
      rw [List.takeWhile_eq_self_iff]
      exact hdig
    have hminus : (c == '-') = false := (Bool.or_eq_false_iff.mp hc.2.2.1).2
    have hplus : (c == '+') = false := (Bool.or_eq_false_iff.mp hc.2.2.1).1
    unfold SscanfInt
    simp only [hskip, hplus, hminus, Bool.or_self, Bool.false_eq_true, if_false, hcd,
      if_true, htake, List.nil_append]
    rw [parseInt_digits (c :: cs) hne hdig hval]

theorem sscanfInt_repr (n : Nat) (h : n < 9223372036854775808) :
    SscanfInt (String.mk (Nat.toDigits 10 n)) = Except.ok (n : Int) := by
  have hd := toDigits_decimal n
  have := sscanfInt_digits (Nat.toDigits 10 n) hd.1 hd.2 (by rw [toDigits_value]; exact h)
  rw [toDigits_value] at this
  exact this

theorem hasSuffix_iff (s suf : String) : HasSuffix s suf = true ↔ suf.data <:+ s.data := by
  unfold HasSuffix
  rw [List.isPrefixOf_iff_prefix, List.reverse_prefix]

theorem hasSuffix_append (pre suf : List Char) :
    HasSuffix (String.mk (pre ++ suf)) (String.mk suf) = true := by
  rw [hasSuffix_iff]
  exact List.suffix_append pre suf

theorem trimSuffix_append (pre suf : List Char) :
    TrimSuffix (String.mk (pre ++ suf)) (String.mk suf) = String.mk pre := by
  unfold TrimSuffix
  rw [if_pos (hasSuffix_append pre suf)]
  show String.mk (List.take ((pre ++ suf).length - suf.length) (pre ++ suf)) = String.mk pre
  rw [List.take_left' (by simp)]

theorem not_hasSuffix_gb_of_mb (pre : List Char) :
    HasSuffix (String.mk (pre ++ "mb/s".data)) "gb/s" = false := by
  cases h : HasSuffix (String.mk (pre ++ "mb/s".data)) "gb/s" with
  | false => rfl
  | true =>
    rw [hasSuffix_iff] at h
    have h2 : "mb/s".data <:+ pre ++ "mb/s".data := List.suffix_append pre _
    have heq : "gb/s".data = "mb/s".data := by
      rcases List.suffix_or_suffix_of_suffix h h2 with h3 | h3
      · exact h3.eq_of_length rfl
      · exact (h3.eq_of_length rfl).symm
    exact absurd heq (by decide)

theorem toLower_digits_unit (unicodeToLower : Char → Char) (ds u : List Char)
    (hdig : ∀ c ∈ ds, isDecimalDigit c = true)
    (hu : u.all (fun c => decide (c.toNat < 128)) = true) :
    ToLower unicodeToLower (String.mk (ds ++ u))
      = String.mk (ds ++ u.map
          (fun c => if 65 ≤ c.toNat ∧ c.toNat ≤ 90 then Char.ofNat (c.toNat + 32) else c)) := by
  unfold ToLower
  have hall : (String.mk (ds ++ u)).data.all (fun c => decide (c.toNat < 128)) = true := by
    show (ds ++ u).all (fun c => decide (c.toNat < 128)) = true
    rw [List.all_append, hu, Bool.and_true, List.all_eq_true]
    intro c hc
    exact decide_eq_true (decimalDigit_facts c (hdig c hc)).2.2.2.1
  rw [if_pos hall]
  show String.mk (List.map _ (ds ++ u)) = _
  rw [List.map_append]
  congr 2
  conv_rhs => rw [← List.map_id ds]
  apply List.map_congr_left
  intro c hc
  rw [if_neg (decimalDigit_facts c (hdig c hc)).2.2.2.2]
  rfl

/-- C11: for every natural number `n` with `n * 1000 < 2^63`, written in decimal,
`parseSpeed` returns `n * 1000` for `n` followed by "Gb/s" and `n` for `n` followed by
"Mb/s", both without error. -/
theorem parseSpeed_decimal (unicodeToLower : Char → Char) (n : Nat)
    (h : n * 1000 < 9223372036854775808) :
    parseSpeed unicodeToLower (Nat.repr n ++ "Gb/s") = Except.ok ((n : Int) * 1000) ∧
    parseSpeed unicodeToLower (Nat.repr n ++ "Mb/s") = Except.ok (n : Int) := by
  have hd := toDigits_decimal n
  have hn : n < 9223372036854775808 := by omega
  have hG : ToLower unicodeToLower (Nat.repr n ++ "Gb/s")
      = String.mk (Nat.toDigits 10 n ++ "gb/s".data) :=
    toLower_digits_unit unicodeToLower (Nat.toDigits 10 n) "Gb/s".data hd.2 (by decide)
  have hM : ToLower unicodeToLower (Nat.repr n ++ "Mb/s")
      = String.mk (Nat.toDigits 10 n ++ "mb/s".data) :=
    toLower_digits_unit unicodeToLower (Nat.toDigits 10 n) "Mb/s".data hd.2 (by decide)
  constructor
  · unfold parseSpeed
    simp only [hG]
    rw [if_pos (hasSuffix_append _ _), trimSuffix_append, sscanfInt_repr n hn]
    simp only []
    rw [wrapInt64_of_range _ (by constructor <;> omega)]
  · unfold parseSpeed
    simp only [hM]
    rw [if_neg (by rw [not_hasSuffix_gb_of_mb]; simp), if_pos (hasSuffix_append _ _),
      trimSuffix_append, sscanfInt_repr n hn]
    simp only []
    rw [wrapInt64_of_range _ (by constructor <;> omega), Int.mul_one]

/-- Witness for C11: "1Gb/s" gives 1000 and "100Mb/s" gives 100. -/
theorem parseSpeed_decimal_witness :
    1 * 1000 < 9223372036854775808 ∧ 100 * 1000 < 9223372036854775808 ∧
    parseSpeed id "1Gb/s" = Except.ok 1000 ∧ parseSpeed id "100Mb/s" = Except.ok 100 :=
  ⟨by decide, by decide, (parseSpeed_decimal id 1 (by decide)).1,
    (parseSpeed_decimal id 100 (by decide)).2⟩

/-- C12: for every input string whose lower-cased form ends with neither "gb/s" nor
"mb/s", `parseSpeed` returns the error "unsupported speed unit" (with the lower-cased
string) and no speed. -/
theorem parseSpeed_unsupported_unit (unicodeToLower : Char → Char) (speedStr : String)
    (hg : ¬ "gb/s".data <:+ (ToLower unicodeToLower speedStr).data)
    (hm : ¬ "mb/s".data <:+ (ToLower unicodeToLower speedStr).data) :
    parseSpeed unicodeToLower speedStr
      = Except.error (SpeedError.unsupportedUnit (ToLower unicodeToLower speedStr)) := by
  unfold parseSpeed
  simp only []
  rw [if_neg (fun h => hg ((hasSuffix_iff _ _).mp h)),
    if_neg (fun h => hm ((hasSuffix_iff _ _).mp h))]

/-- Witness for C12: the input "10Kb/s". -/
theorem parseSpeed_unsupported_unit_witness :
    ¬ "gb/s".data <:+ (ToLower id "10Kb/s").data ∧
    ¬ "mb/s".data <:+ (ToLower id "10Kb/s").data ∧
    parseSpeed id "10Kb/s" = Except.error (SpeedError.unsupportedUnit "10kb/s") ∧
    parseSpeed id "weird" = Except.error (SpeedError.unsupportedUnit "weird") ∧
    parseSpeed id "Unknown!" = Except.error (SpeedError.unsupportedUnit "unknown!") ∧
    parseSpeed id "" = Except.error (SpeedError.unsupportedUnit "") :=
  ⟨by decide, by decide, parseSpeed_unsupported_unit id "10Kb/s" (by decide) (by decide),
    rfl, rfl, rfl⟩

/-- C13, as stated, fails: "1.5Gb/s" and "10xMb/s" end in a supported unit and the part
before the unit is not a decimal integer, yet `parseSpeed` returns the speeds 1000 and 10:
`Sscanf` reads the leading digits and leaves the rest unread. -/
theorem parseSpeed_trailing_text_counterexample :
    parseSpeed id "1.5Gb/s" = Except.ok 1000 ∧ parseSpeed id "10xMb/s" = Except.ok 10 :=
  ⟨rfl, rfl⟩

/-! ## Link-speed probe -/

theorem scanSpeedLines_no_value (unicodeToLower : Char → Char) (lines : List String)
    (h : ∀ text ∈ lines, ¬ (HasPrefix (TrimSpace text) "Speed:" = true ∧
      2 ≤ (Fields (TrimSpace text)).length)) :
    scanSpeedLines unicodeToLower lines = Except.ok (false, 0) := by
  induction lines with
  | nil => rfl
  | cons text more ih =>
    have hmore := ih (fun t ht => h t (List.mem_cons_of_mem _ ht))
    have ht := h text (List.mem_cons_self _ _)
    unfold scanSpeedLines
    simp only []
    by_cases hp : HasPrefix (TrimSpace text) "Speed:" = true
    · rw [if_pos hp]
      have hlen : (Fields (TrimSpace text)).length < 2 := by
        by_contra hc
        exact ht ⟨hp, by omega⟩
      rw [if_pos hlen]
      exact hmore
    · rw [if_neg hp]
      exact hmore

theorem scanSpeedLines_first_value (unicodeToLower : Char → Char)
    (before after : List String) (text : String)
    (hbefore : ∀ t ∈ before, ¬ (HasPrefix (TrimSpace t) "Speed:" = true ∧
      2 ≤ (Fields (TrimSpace t)).length))
    (hp : HasPrefix (TrimSpace text) "Speed:" = true)
    (hlen : 2 ≤ (Fields (TrimSpace text)).length) :
    scanSpeedLines unicodeToLower (before ++ text :: after)
      = match parseSpeed unicodeToLower ((Fields (TrimSpace text)).getD 1 "") with
        | Except.error err => Except.error (ProbeError.parseSpeedFailed err)
        | Except.ok speed => Except.ok (true, speed) := by
  induction before with
  | nil =>
    rw [List.nil_append]
    unfold scanSpeedLines
    simp only []
    rw [if_pos hp, if_neg (by omega)]
  | cons t before ih =>
    have hrest := ih (fun x hx => hbefore x (List.mem_cons_of_mem _ hx))
    have ht := hbefore t (List.mem_cons_self _ _)
    rw [List.cons_append]
    unfold scanSpeedLines
    simp only []
    by_cases hpt : HasPrefix (TrimSpace t) "Speed:" = true
    · rw [if_pos hpt]
      have hl : (Fields (TrimSpace t)).length < 2 := by
        by_contra hc
        exact ht ⟨hpt, by omega⟩
      rw [if_pos hl]
      exact hrest
    · rw [if_neg hpt]
      exact hrest

/-- C14, as stated, fails: for the output with the one speed line "Speed: Unknown!" the
result is the error "parse speed failed" (wrapping "unsupported speed unit"), not "speed
info not found in ethtool output". -/
theorem execEthtoolSpeed_unknown_counterexample :
    ExecEthtoolSpeed id
        { pipeErr := none, startErr := none,
          lines := ["Settings for eth0:", "\tSpeed: Unknown!", "\tDuplex: Unknown!"],
          scanErr := none, waitErr := none }
      = Except.error (ProbeError.parseSpeedFailed (SpeedError.unsupportedUnit "unknown!")) ∧
    ExecEthtoolSpeed id
        { pipeErr := none, startErr := none,
          lines := ["Settings for eth0:", "\tSpeed: Unknown!", "\tDuplex: Unknown!"],
          scanErr := none, waitErr := none }
      ≠ Except.error ProbeError.speedNotFound := by
  constructor
  · rfl
  · intro h
    cases h

/-- C14, amended: on a run of the command without errors of its own, an output in which no
line, trimmed, starts with "Speed:" and has a second field (in particular an output with no
"Speed:" line at all) gives the error "speed info not found in ethtool output"; an output
whose first such line carries a value that `parseSpeed` rejects gives the error "parse
speed failed" wrapping the error of `parseSpeed`, whatever lines follow. -/
theorem execEthtoolSpeed_not_found (unicodeToLower : Char → Char) (run : EthtoolRun)
    (hpipe : run.pipeErr = none) (hstart : run.startErr = none) :
    (run.scanErr = none → run.waitErr = none →
      (∀ text ∈ run.lines, ¬ (HasPrefix (TrimSpace text) "Speed:" = true ∧
        2 ≤ (Fields (TrimSpace text)).length)) →
      ExecEthtoolSpeed unicodeToLower run = Except.error ProbeError.speedNotFound) ∧
    (run.scanErr = none → run.waitErr = none →
      (∀ text ∈ run.lines, HasPrefix (TrimSpace text) "Speed:" = false) →
      ExecEthtoolSpeed unicodeToLower run = Except.error ProbeError.speedNotFound) ∧
    (∀ (before after : List String) (text : String) (err : SpeedError),
      run.lines = before ++ text :: after →
      (∀ t ∈ before, ¬ (HasPrefix (TrimSpace t) "Speed:" = true ∧
        2 ≤ (Fields (TrimSpace t)).length)) →
      HasPrefix (TrimSpace text) "Speed:" = true →
      2 ≤ (Fields (TrimSpace text)).length →
      parseSpeed unicodeToLower ((Fields (TrimSpace text)).getD 1 "") = Except.error err →
      ExecEthtoolSpeed unicodeToLower run
        = Except.error (ProbeError.parseSpeedFailed err)) := by
  have hA : run.scanErr = none → run.waitErr = none →
      (∀ text ∈ run.lines, ¬ (HasPrefix (TrimSpace text) "Speed:" = true ∧
        2 ≤ (Fields (TrimSpace text)).length)) →
      ExecEthtoolSpeed unicodeToLower run = Except.error ProbeError.speedNotFound := by
    intro hscan hwait hlines
    unfold ExecEthtoolSpeed
    rw [hpipe, hstart]
    simp only [scanSpeedLines_no_value unicodeToLower run.lines hlines, hscan, hwait]
    rfl
  refine ⟨hA, ?_, ?_⟩
  · intro hscan hwait hlines
    apply hA hscan hwait
    intro text ht hc
    rw [hlines text ht] at hc
    exact absurd hc.1 (by simp)
  · intro before after text err hl hbefore hp hlen hparse
    unfold ExecEthtoolSpeed
    rw [hpipe, hstart, hl]
    simp only [scanSpeedLines_first_value unicodeToLower before after text hbefore hp hlen,
      hparse]

/-- Witness for the amended C14: an output without any "Speed:" line. -/
theorem execEthtoolSpeed_not_found_witness :
    (∀ text ∈ ["Settings for eth0:", "\tLink detected: no"],
      HasPrefix (TrimSpace text) "Speed:" = false) ∧
    ExecEthtoolSpeed id
        { pipeErr := none, startErr := none,
          lines := ["Settings for eth0:", "\tLink detected: no"],
          scanErr := none, waitErr := none }
      = Except.error ProbeError.speedNotFound :=
  ⟨by decide,
    (execEthtoolSpeed_not_found id
      { pipeErr := none, startErr := none,
        lines := ["Settings for eth0:", "\tLink detected: no"],
        scanErr := none, waitErr := none } rfl rfl).2.1 rfl rfl (by decide)⟩

/-! ## Snapshots of peer records as JSON text -/

theorem hexValue_digitChar (k : Nat) (h : k < 16) : hexValue (Nat.digitChar k) = some k := by
  interval_cases k <;> rfl

theorem hex4_digits (n : Nat) (h : n < 65536) :
    hex4 (Nat.digitChar (n / 4096 % 16)) (Nat.digitChar (n / 256 % 16))
      (Nat.digitChar (n / 16 % 16)) (Nat.digitChar (n % 16)) = some n := by
  unfold hex4
  rw [hexValue_digitChar _ (Nat.mod_lt _ (by decide)),
    hexValue_digitChar _ (Nat.mod_lt _ (by decide)),
    hexValue_digitChar _ (Nat.mod_lt _ (by decide)),
    hexValue_digitChar _ (Nat.mod_lt _ (by decide))]
  simp only [Option.some.injEq]
  omega

theorem stringStep_literal (c : Char) (tail : List Char)
    (h1 : (c == '"') = false) (h2 : (c == '\\') = false) (h3 : ¬ c.toNat < 32) :
    stringStep (c :: tail) = some (some c, tail) := by
  unfold stringStep
  simp only [h1, h2, h3, Bool.false_eq_true, if_false]

theorem stringStep_u4 (n : Nat) (tail : List Char) (h : n < 0xD800) :
    stringStep ('\\' :: 'u' :: Nat.digitChar (n / 4096 % 16) ::
        Nat.digitChar (n / 256 % 16) :: Nat.digitChar (n / 16 % 16) ::
        Nat.digitChar (n % 16) :: tail)
      = some (some (Char.ofNat n), tail) := by
  have hq : ('\\' == '"') = false := by decide
  have hb : ('\\' == '\\') = true := by decide
  have hu : ('u' == 'u') = true := by decide
  unfold stringStep
  simp only [hq, hb, hu, Bool.false_eq_true, if_false, if_true]
  unfold unicodeStep
  simp only [hex4_digits n (by omega)]
  rw [if_neg (by omega)]

theorem stringStep_encodeChar (c : Char) (tail : List Char) :
    stringStep (encodeChar c ++ tail) = some (some c, tail) := by
  unfold encodeChar
  by_cases h1 : (c == '"') = true
  · rw [if_pos h1]
    have : c = '"' := by simpa using h1
    subst this
    rfl
  rw [if_neg h1]
  by_cases h2 : (c == '\\') = true
  · rw [if_pos h2]
    have : c = '\\' := by simpa using h2
    subst this
    rfl
  rw [if_neg h2]
  by_cases h3 : (c == '\n') = true
  · rw [if_pos h3]
    have : c = '\n' := by simpa using h3
    subst this
    rfl
  rw [if_neg h3]
  by_cases h4 : (c == '\r') = true
  · rw [if_pos h4]
    have : c = '\r' := by simpa using h4
    subst this
    rfl
  rw [if_neg h4]
  by_cases h5 : (c == '\t') = true
  · rw [if_pos h5]
    have : c = '\t' := by simpa using h5
    subst this
    rfl
  rw [if_neg h5]
  by_cases h6 : (c.toNat == 8) = true
  · rw [if_pos h6]
    have h6' : c.toNat = 8 := by simpa using h6
    have : c = Char.ofNat 8 := by rw [← h6', Char.ofNat_toNat]
    subst this
    rfl
  rw [if_neg h6]
  by_cases h7 : (c.toNat == 12) = true
  · rw [if_pos h7]
    have h7' : c.toNat = 12 := by simpa using h7
    have : c = Char.ofNat 12 := by rw [← h7', Char.ofNat_toNat]
    subst this
    rfl
  rw [if_neg h7]
  by_cases h8 : (decide (c.toNat < 32) || c == '<' || c == '>' || c == '&' ||
      c.toNat == 0x2028 || c.toNat == 0x2029) = true
  · rw [if_pos h8]
    have hlt : c.toNat < 0xD800 := by
      simp only [Bool.or_eq_true, decide_eq_true_eq, beq_iff_eq] at h8
      rcases h8 with ((((h | h) | h) | h) | h) | h
      · omega
      · rw [h]
        decide
      · rw [h]
        decide
      · rw [h]
        decide
      · omega
      · omega
    show stringStep ('\\' :: 'u' :: _ :: _ :: _ :: _ :: tail) = _
    rw [stringStep_u4 c.toNat tail hlt, Char.ofNat_toNat]
  · rw [if_neg h8]
    have h8' : ¬ c.toNat < 32 := by
      intro hc
      apply h8
      simp [hc]
    exact stringStep_literal c tail (by simpa using h1) (by simpa using h2) h8'

theorem parseStringLoop_encodeChars (s tail : List Char) (fuel : Nat)
    (hfuel : s.length < fuel) :
    parseStringLoop fuel (encodeChars s ++ '"' :: tail) = some (s, tail) := by
  induction s generalizing fuel with
  | nil =>
    cases fuel with
    | zero => exact absurd hfuel (Nat.lt_irrefl 0)
    | succ fuel => rfl
  | cons c s ih =>
    cases fuel with
    | zero => exact absurd hfuel (Nat.not_lt_zero _)
    | succ fuel =>
      show parseStringLoop (fuel + 1) ((encodeChar c ++ encodeChars s) ++ '"' :: tail) = _
      rw [List.append_assoc, parseStringLoop, stringStep_encodeChar]
      simp only []
      rw [ih fuel (by simpa using hfuel)]
      rfl

theorem length_le_encodeChars (s : List Char) : s.length ≤ (encodeChars s).length := by
  induction s with
  | nil => exact le_refl _
  | cons c s ih =>
    show (c :: s).length ≤ (encodeChar c ++ encodeChars s).length
    have hc : 1 ≤ (encodeChar c).length := by
      unfold encodeChar
      repeat' split
      all_goals simp
    rw [List.length_append, List.length_cons]
    omega

theorem parseStringBody_encodeChars (s tail : List Char) :
    parseStringBody (encodeChars s ++ '"' :: tail) = some (s, tail) := by
  unfold parseStringBody
  apply parseStringLoop_encodeChars
  have := length_le_encodeChars s
  rw [List.length_append, List.length_cons]
  omega

theorem encodeString_append (s : String) (tail : List Char) :
    encodeString s ++ tail = '"' :: (encodeChars s.data ++ '"' :: tail) := by
  unfold encodeString
  simp

theorem toDigitsCore_head (fuel n : Nat) (ds : List Char) (h : n < fuel) (hn : 0 < n) :
    ∃ d tl, Nat.toDigitsCore 10 fuel n ds = d :: tl ∧ (d == '0') = false := by
  induction fuel generalizing n ds with
  | zero => omega
  | succ fuel ih =>
    unfold Nat.toDigitsCore
    by_cases h0 : n / 10 = 0
    · simp only [h0, if_true]
      refine ⟨_, _, rfl, ?_⟩
      have hlt : n < 10 := by omega
      have : n % 10 = n := Nat.mod_eq_of_lt hlt
      rw [this]
      interval_cases n <;> decide
    · simp only [h0, if_false]
      exact ih (n / 10) _ (by omega) (Nat.pos_of_ne_zero h0)

theorem toDigits_shape (n : Nat) :
    ∃ d ds, Nat.toDigits 10 n = d :: ds ∧ isDecimalDigit d = true ∧
      (∀ c ∈ ds, isDecimalDigit c = true) ∧ ((d == '0') = true → ds = []) := by
  have hd := toDigits_decimal n
  cases hl : Nat.toDigits 10 n with
  | nil => exact absurd hl hd.1
  | cons d ds =>
    rw [hl] at hd
    refine ⟨d, ds, rfl, hd.2 d (List.mem_cons_self _ _),
      fun c hc => hd.2 c (List.mem_cons_of_mem _ hc), ?_⟩
    intro hz
    by_cases hn : n = 0
    · subst hn
      have : Nat.toDigits 10 0 = ['0'] := rfl
      rw [this] at hl
      exact (List.cons.inj hl).2.symm
    · rcases toDigitsCore_head (n + 1) n [] (Nat.lt_succ_self n) (Nat.pos_of_ne_zero hn) with
        ⟨d', tl, h1, h2⟩
      have h3 : Nat.toDigits 10 n = d' :: tl := h1
      rw [hl] at h3
      rw [(List.cons.inj h3).1, h2] at hz
      exact absurd hz (by simp)

theorem takeWhile_digits_append (ds : List Char) (c : Char) (rest : List Char)
    (hds : ∀ x ∈ ds, isDecimalDigit x = true) (hc : isDecimalDigit c = false) :
    (ds ++ c :: rest).takeWhile isDecimalDigit = ds ∧
    (ds ++ c :: rest).dropWhile isDecimalDigit = c :: rest := by
  induction ds with
  | nil => simp [List.takeWhile, List.dropWhile, hc]
  | cons d ds ih =>
    have hd := hds d (List.mem_cons_self _ _)
    have := ih (fun x hx => hds x (List.mem_cons_of_mem _ hx))
    simp [List.takeWhile, List.dropWhile, hd, this.1, this.2]

theorem scanWhole_digits (n : Nat) (c : Char) (rest : List Char)
    (hc : isDecimalDigit c = false) :
    scanWhole (Nat.toDigits 10 n ++ c :: rest) = some (Nat.toDigits 10 n, c :: rest) := by
  rcases toDigits_shape n with ⟨d, ds, hl, hd, hds, hz⟩
  rw [hl]
  show scanWhole (d :: (ds ++ c :: rest)) = _
  unfold scanWhole
  by_cases h0 : (d == '0') = true
  · have hnil := hz h0
    subst hnil
    have : d = '0' := by simpa using h0
    subst this
    rfl
  · simp only [h0, Bool.false_eq_true, if_false, hd, if_true]
    rw [(takeWhile_digits_append ds c rest hds hc).1,
      (takeWhile_digits_append ds c rest hds hc).2]

theorem scanNumber_encodeInt (i : Int) (c : Char) (rest : List Char)
    (hc : isDecimalDigit c = false) (hpoint : (c == '.') = false)
    (hexp : (c == 'e' || c == 'E') = false) :
    scanNumber (encodeInt i ++ c :: rest) = some (encodeInt i, c :: rest) := by
  have htail : scanFraction (c :: rest) = some ([], c :: rest) := by
    unfold scanFraction
    simp only [hpoint, Bool.false_eq_true, if_false]
  have htail2 : scanExponent (c :: rest) = some ([], c :: rest) := by
    unfold scanExponent
    simp only [hexp, Bool.false_eq_true, if_false]
  unfold encodeInt
  by_cases hneg : i < 0
  · rw [if_pos hneg]
    have hs : scanSign (('-' :: Nat.toDigits 10 (-i).toNat) ++ c :: rest)
        = (['-'], Nat.toDigits 10 (-i).toNat ++ c :: rest) := rfl
    unfold scanNumber
    rw [hs]
    simp only [scanWhole_digits _ c rest hc, htail, htail2]
    simp
  · rw [if_neg hneg]
    rcases toDigits_shape i.toNat with ⟨d, ds, hl, hd, _, _⟩
    have hminus : (d == '-') = false :=
      (Bool.or_eq_false_iff.mp (decimalDigit_facts d hd).2.2.1).2
    have hs : scanSign (Nat.toDigits 10 i.toNat ++ c :: rest)
        = ([], Nat.toDigits 10 i.toNat ++ c :: rest) := by
      rw [hl]
      show scanSign (d :: (ds ++ c :: rest)) = _
      unfold scanSign
      simp only [hminus, Bool.false_eq_true, if_false]
      rfl
    unfold scanNumber
    rw [hs]
    simp only [scanWhole_digits _ c rest hc, htail, htail2]
    simp

theorem parseInt_encodeInt (i : Int)
    (h : -9223372036854775808 ≤ i ∧ i < 9223372036854775808) :
    ParseInt (encodeInt i) = Except.ok i := by
  unfold encodeInt
  by_cases hneg : i < 0
  · rw [if_pos hneg]
    have hd := toDigits_decimal (-i).toNat
    have hval := toDigits_value (-i).toNat
    cases hl : Nat.toDigits 10 (-i).toNat with
    | nil => exact absurd hl hd.1
    | cons d ds =>
      rw [hl] at hd hval
      unfold ParseInt
      have h1 : ('-' == '-') = true := by decide
      have h2 : ('-' == '+') = false := by decide
      simp only [h1, h2, Bool.false_or, if_true]
      rw [parseUintLoop_digits (d :: ds) 0 hd.2 (by rw [hval]; omega), hval]
      simp only [Bool.not_true, Bool.false_and, Bool.false_eq_true, if_false, Bool.true_and,
        decide_eq_true_eq, if_true]
      rw [if_neg (by omega)]
      congr 1
      omega
  · rw [if_neg hneg]
    have hd := toDigits_decimal i.toNat
    have := parseInt_digits (Nat.toDigits 10 i.toNat) hd.1 hd.2
      (by rw [toDigits_value]; omega)
    rw [this, toDigits_value]
    congr 1
    omega

theorem parseValue_string (f : Nat) (s : String) (rest : List Char) :
    parseValue (f + 1) (encodeString s ++ rest) = some (Json.str s.data, rest) := by
  have h1 : jsonSkipSpace ('"' :: (encodeChars s.data ++ '"' :: rest))
      = '"' :: (encodeChars s.data ++ '"' :: rest) := rfl
  rw [encodeString_append, parseValue, h1]
  simp only [beq_self_eq_true, if_true, parseStringBody_encodeChars]

theorem encodeInt_head (i : Int) :
    ∃ h t, encodeInt i = h :: t ∧ (h = '-' ∨ isDecimalDigit h = true) := by
  unfold encodeInt
  by_cases hneg : i < 0
  · rw [if_pos hneg]
    exact ⟨_, _, rfl, Or.inl rfl⟩
  · rw [if_neg hneg]
    rcases toDigits_shape i.toNat with ⟨d, ds, hl, hd, _, _⟩
    exact ⟨d, ds, hl, Or.inr hd⟩

theorem number_head_tests (h : Char) (hh : h = '-' ∨ isDecimalDigit h = true) :
    jsonSkipSpace [h] = [h] ∧ (h == '"') = false ∧ (h == '\x7b') = false ∧
      (h == '[') = false ∧ (h == 't') = false ∧ (h == 'f') = false ∧ (h == 'n') = false := by
  rcases hh with hh | hh
  · subst hh
    decide
  · unfold isDecimalDigit at hh
    simp only [Bool.and_eq_true, decide_eq_true_eq] at hh
    have hne : ∀ x : Char, (x.toNat < 48 ∨ 57 < x.toNat) → (h == x) = false := by
      intro x hx
      rw [beq_eq_false_iff_ne]
      intro hc
      rw [hc] at hh
      omega
    refine ⟨?_, hne _ (by decide), hne _ (by decide), hne _ (by decide), hne _ (by decide),
      hne _ (by decide), hne _ (by decide)⟩
    unfold jsonSkipSpace
    rw [hne ' ' (by decide), hne '\t' (by decide), hne '\r' (by decide),
      hne '\n' (by decide)]
    rfl

theorem jsonSkipSpace_head (h : Char) (t : List Char) (hs : jsonSkipSpace [h] = [h]) :
    jsonSkipSpace (h :: t) = h :: t := by
  unfold jsonSkipSpace at hs ⊢
  by_cases hw : (h == ' ' || h == '\t' || h == '\r' || h == '\n') = true
  · rw [if_pos hw] at hs
    exact absurd hs (by simp [jsonSkipSpace])
  · rw [if_neg hw]

theorem parseValue_int (f : Nat) (i : Int) (c : Char) (rest : List Char)
    (hc : isDecimalDigit c = false) (hpoint : (c == '.') = false)
    (hexp : (c == 'e' || c == 'E') = false) :
    parseValue (f + 1) (encodeInt i ++ c :: rest)
      = some (Json.num (encodeInt i), c :: rest) := by
  have hscan := scanNumber_encodeInt i c rest hc hpoint hexp
  rcases encodeInt_head i with ⟨h, t, hl, hh⟩
  rcases number_head_tests h hh with ⟨h0, h1, h2, h3, h4, h5, h6⟩
  rw [hl] at hscan ⊢
  rw [List.cons_append] at hscan ⊢
  rw [parseValue, jsonSkipSpace_head h _ h0]
  simp only [h1, h2, h3, h4, h5, h6, Bool.false_eq_true, if_false, hscan]

theorem parseValue_object (f : Nat) (t rest : List Char) (ms : List (List Char × Json))
    (hm : parseMembers f ('"' :: t) = some (ms, rest)) :
    parseValue (f + 1) ('\x7b' :: '"' :: t) = some (Json.obj ms, rest) := by
  have h1 : jsonSkipSpace ('\x7b' :: '"' :: t) = '\x7b' :: '"' :: t := rfl
  have h2 : jsonSkipSpace ('"' :: t) = '"' :: t := rfl
  have h3 : ('\x7b' == '"') = false := by decide
  have h4 : ('"' == '\x7d') = false := by decide
  rw [parseValue, h1]
  simp only [h3, Bool.false_eq_true, if_false, beq_self_eq_true, if_true, h2, h4, hm]

theorem parseValue_array_nil (f : Nat) (rest : List Char) :
    parseValue (f + 1) ('[' :: ']' :: rest) = some (Json.arr [], rest) := by
  have h1 : jsonSkipSpace ('[' :: ']' :: rest) = '[' :: ']' :: rest := rfl
  have h2 : jsonSkipSpace (']' :: rest) = ']' :: rest := rfl
  have h3 : ('[' == '"') = false := by decide
  have h4 : ('[' == '\x7b') = false := by decide
  rw [parseValue, h1]
  simp only [h3, h4, Bool.false_eq_true, if_false, beq_self_eq_true, if_true, h2]

theorem parseValue_array (f : Nat) (t rest : List Char) (es : List Json)
    (he : parseElems f ('\x7b' :: t) = some (es, rest)) :
    parseValue (f + 1) ('[' :: '\x7b' :: t) = some (Json.arr es, rest) := by
  have h1 : jsonSkipSpace ('[' :: '\x7b' :: t) = '[' :: '\x7b' :: t := rfl
  have h2 : jsonSkipSpace ('\x7b' :: t) = '\x7b' :: t := rfl
  have h3 : ('[' == '"') = false := by decide
  have h4 : ('[' == '\x7b') = false := by decide
  have h5 : ('\x7b' == ']') = false := by decide
  rw [parseValue, h1]
  simp only [h3, h4, h5, Bool.false_eq_true, if_false, beq_self_eq_true, if_true, h2, he]

theorem parseMembers_more (f : Nat) (key : String) (text rest rest' : List Char) (v : Json)
    (ms : List (List Char × Json))
    (hv : parseValue f text = some (v, ',' :: rest))
    (hm : parseMembers f rest = some (ms, rest')) :
    parseMembers (f + 1) (encodeString key ++ ':' :: text)
      = some ((key.data, v) :: ms, rest') := by
  have h1 : jsonSkipSpace ('"' :: (encodeChars key.data ++ '"' :: ':' :: text))
      = '"' :: (encodeChars key.data ++ '"' :: ':' :: text) := rfl
  have h2 : jsonSkipSpace (':' :: text) = ':' :: text := rfl
  have h3 : jsonSkipSpace (',' :: rest) = ',' :: rest := rfl
  rw [encodeString_append, parseMembers, h1]
  simp only [beq_self_eq_true, if_true, parseStringBody_encodeChars, h2, hv, h3, hm]

theorem parseMembers_last (f : Nat) (key : String) (text rest : List Char) (v : Json)
    (hv : parseValue f text = some (v, '\x7d' :: rest)) :
    parseMembers (f + 1) (encodeString key ++ ':' :: text) = some ([(key.data, v)], rest) := by
  have h1 : jsonSkipSpace ('"' :: (encodeChars key.data ++ '"' :: ':' :: text))
      = '"' :: (encodeChars key.data ++ '"' :: ':' :: text) := rfl
  have h2 : jsonSkipSpace (':' :: text) = ':' :: text := rfl
  have h3 : jsonSkipSpace ('\x7d' :: rest) = '\x7d' :: rest := rfl
  have h4 : ('\x7d' == ',') = false := by decide
  rw [encodeString_append, parseMembers, h1]
  simp only [beq_self_eq_true, if_true, parseStringBody_encodeChars, h2, hv, h3, h4,
    Bool.false_eq_true, if_false]

theorem parseElems_more (f : Nat) (text rest rest' : List Char) (v : Json) (es : List Json)
    (hv : parseValue f text = some (v, ',' :: rest))
    (he : parseElems f rest = some (es, rest')) :
    parseElems (f + 1) text = some (v :: es, rest') := by
  have h3 : jsonSkipSpace (',' :: rest) = ',' :: rest := rfl
  rw [parseElems]
  simp only [hv, h3, beq_self_eq_true, if_true, he]

theorem parseElems_last (f : Nat) (text rest : List Char) (v : Json)
    (hv : parseValue f text = some (v, ']' :: rest)) :
    parseElems (f + 1) text = some ([v], rest) := by
  have h3 : jsonSkipSpace (']' :: rest) = ']' :: rest := rfl
  have h4 : (']' == ',') = false := by decide
  rw [parseElems]
  simp only [hv, h3, h4, Bool.false_eq_true, if_false, beq_self_eq_true, if_true]

section Snapshot

open netbalance

theorem parseValue_encodeGPUInfo (f : Nat) (g : netbalance.GPUInfo) (rest : List Char) :
    parseValue (f + 5) (encodeGPUInfo g ++ rest) = some (gpuDocument g, rest) := by
  have hcomma : isDecimalDigit ',' = false ∧ (',' == '.') = false ∧
      (',' == 'e' || ',' == 'E') = false := by decide
  have hbrace : isDecimalDigit '\x7d' = false ∧ ('\x7d' == '.') = false ∧
      ('\x7d' == 'e' || '\x7d' == 'E') = false := by decide
  have h3 := parseMembers_last (f + 1) "memory_used" _ rest _
    (parseValue_int f g.MemoryUsed '\x7d' rest hbrace.1 hbrace.2.1 hbrace.2.2)
  have h2 := parseMembers_more (f + 2) "utilization" _ _ _ _ _
    (parseValue_int (f + 1) g.Utilization ',' _ hcomma.1 hcomma.2.1 hcomma.2.2) h3
  have h1 := parseMembers_more (f + 3) "id" _ _ _ _ _
    (parseValue_string (f + 2) g.ID (',' :: _)) h2
  rw [encodeString_append] at h1
  have h0 := parseValue_object (f + 4) _ _ _ h1
  have hshape : encodeGPUInfo g ++ rest
      = '\x7b' :: '"' :: (encodeChars "id".data ++ '"' :: ':' :: (encodeString g.ID ++ ',' ::
          (encodeString "utilization" ++ ':' :: (encodeInt g.Utilization ++ ',' ::
            (encodeString "memory_used" ++ ':' ::
              (encodeInt g.MemoryUsed ++ '\x7d' :: rest)))))) := by
    unfold encodeGPUInfo
    rw [encodeString_append "id"]
    simp only [List.cons_append, List.append_assoc, List.nil_append]
  rw [hshape]
  exact h0

theorem parseElems_encodeGPUs (gs : List netbalance.GPUInfo) :
    ∀ (f : Nat) (g : netbalance.GPUInfo) (rest : List Char),
      parseElems (f + gs.length + 6) (encodeGPUInfo g ++ (encodeGPUTail gs ++ rest))
        = some ((g :: gs).map gpuDocument, rest) := by
  induction gs with
  | nil =>
    intro f g rest
    exact parseElems_last (f + 5) _ rest _ (parseValue_encodeGPUInfo f g (']' :: rest))
  | cons g' gs ih =>
    intro f g rest
    have hv := parseValue_encodeGPUInfo (f + gs.length + 1) g
      (',' :: (encodeGPUInfo g' ++ (encodeGPUTail gs ++ rest)))
    have he := ih f g' rest
    have hfuel : f + (g' :: gs).length + 6 = (f + gs.length + 1 + 5) + 1 := by
      simp only [List.length_cons]
      omega
    have hfuel2 : f + gs.length + 6 = f + gs.length + 1 + 5 := by omega
    rw [hfuel]
    rw [hfuel2] at he
    have hshape : encodeGPUInfo g ++ (encodeGPUTail (g' :: gs) ++ rest)
        = encodeGPUInfo g ++ ',' :: (encodeGPUInfo g' ++ (encodeGPUTail gs ++ rest)) := by
      show encodeGPUInfo g ++ ((',' :: (encodeGPUInfo g' ++ encodeGPUTail gs)) ++ rest) = _
      simp only [List.cons_append, List.append_assoc]
    rw [hshape]
    exact parseElems_more _ _ _ _ _ _ hv he

theorem encodeGPUInfo_head (g : netbalance.GPUInfo) : ∃ t, encodeGPUInfo g = '\x7b' :: t :=
  ⟨_, rfl⟩

theorem parseValue_encodeGPUs (gs : List netbalance.GPUInfo) (f : Nat) (rest : List Char) :
    parseValue (f + gs.length + 7) (encodeGPUs gs ++ rest)
      = some (Json.arr (gs.map gpuDocument), rest) := by
  cases gs with
  | nil => exact parseValue_array_nil _ rest
  | cons g gs =>
    have he := parseElems_encodeGPUs gs (f + 1) g rest
    rcases encodeGPUInfo_head g with ⟨t, ht⟩
    have hshape : encodeGPUs (g :: gs) ++ rest
        = '[' :: (encodeGPUInfo g ++ (encodeGPUTail gs ++ rest)) := by
      show ('[' :: (encodeGPUInfo g ++ encodeGPUTail gs)) ++ rest = _
      simp only [List.cons_append, List.append_assoc]
    have hfuel : f + (g :: gs).length + 7 = (f + 1 + gs.length + 6) + 1 := by
      simp only [List.length_cons]
      omega
    rw [hshape, hfuel]
    rw [ht, List.cons_append] at he ⊢
    exact parseValue_array _ _ _ _ he

theorem parseValue_null (f : Nat) (rest : List Char) :
    parseValue (f + 1) ('n' :: 'u' :: 'l' :: 'l' :: rest) = some (Json.null, rest) := by
  rw [parseValue]
  rfl

theorem parseValue_encodeGPUSlice (n : netbalance.NodeInfo) (f : Nat) (rest : List Char) :
    parseValue (f + n.GPUs.length + 7) (encodeGPUSlice n ++ rest)
      = some (sliceDocument n, rest) := by
  unfold encodeGPUSlice sliceDocument
  by_cases hnil : (n.GPUsNil && n.GPUs.isEmpty) = true
  · rw [if_pos hnil, if_pos hnil]
    exact parseValue_null (f + n.GPUs.length + 6) rest
  · rw [if_neg hnil, if_neg hnil]
    exact parseValue_encodeGPUs n.GPUs f rest

theorem parseValue_encodeNodeInfo (n : netbalance.NodeInfo) (f : Nat) (rest : List Char) :
    parseValue (f + n.GPUs.length + 10) (encodeNodeInfo n ++ rest)
      = some (documentOf n, rest) := by
  have hg := parseValue_encodeGPUSlice n f ('\x7d' :: rest)
  have h2 := parseMembers_last (f + n.GPUs.length + 7) "gpus" _ rest _ hg
  have h1 := parseMembers_more (f + n.GPUs.length + 8) "ip" _ _ _ _ _
    (parseValue_string (f + n.GPUs.length + 7) n.IP (',' :: _)) h2
  rw [encodeString_append] at h1
  have h0 := parseValue_object (f + n.GPUs.length + 9) _ _ _ h1
  have hshape : encodeNodeInfo n ++ rest
      = '\x7b' :: '"' :: (encodeChars "ip".data ++ '"' :: ':' :: (encodeString n.IP ++ ',' ::
          (encodeString "gpus" ++ ':' :: (encodeGPUSlice n ++ '\x7d' :: rest)))) := by
    unfold encodeNodeInfo
    rw [encodeString_append "ip"]
    simp only [List.cons_append, List.append_assoc, List.nil_append]
  rw [hshape]
  exact h0

theorem length_encodeGPUTail (gs : List netbalance.GPUInfo) : gs.length ≤ (encodeGPUTail gs).length := by
  induction gs with
  | nil => exact Nat.zero_le _
  | cons g gs ih =>
    show (g :: gs).length ≤ (',' :: (encodeGPUInfo g ++ encodeGPUTail gs)).length
    rw [List.length_cons, List.length_cons, List.length_append]
    omega

theorem length_encodeGPUs (gs : List netbalance.GPUInfo) : gs.length ≤ (encodeGPUs gs).length := by
  cases gs with
  | nil => exact Nat.zero_le _
  | cons g gs =>
    show (g :: gs).length ≤ ('[' :: (encodeGPUInfo g ++ encodeGPUTail gs)).length
    have := length_encodeGPUTail gs
    rw [List.length_cons, List.length_cons, List.length_append]
    omega

theorem length_encodeGPUSlice (n : netbalance.NodeInfo) :
    n.GPUs.length ≤ (encodeGPUSlice n).length := by
  unfold encodeGPUSlice
  by_cases hnil : (n.GPUsNil && n.GPUs.isEmpty) = true
  · have hboth : n.GPUsNil = true ∧ n.GPUs.isEmpty = true := by simpa using hnil
    have hempty : n.GPUs = [] := List.isEmpty_iff.mp hboth.2
    rw [if_pos hnil, hempty]
    exact Nat.zero_le _
  · rw [if_neg hnil]
    exact length_encodeGPUs n.GPUs

theorem length_encodeNodeInfo (n : netbalance.NodeInfo) :
    n.GPUs.length + 9 ≤ (encodeNodeInfo n).length := by
  have hg := length_encodeGPUSlice n
  have hip : (encodeString "ip").length = 4 := rfl
  have hgp : (encodeString "gpus").length = 6 := rfl
  have hs : 2 ≤ (encodeString n.IP).length := by
    unfold encodeString
    simp
  unfold encodeNodeInfo
  simp only [List.length_cons, List.length_append, List.length_nil, hip, hgp]
  omega

theorem parseJson_toJSON (n : netbalance.NodeInfo) : parseJson (n.ToJSON).1 = some (documentOf n) := by
  unfold parseJson
  show (match parseValue ((encodeNodeInfo n).length + 1) (encodeNodeInfo n) with
    | some (doc, rest) => if (jsonSkipSpace rest).isEmpty then some doc else none
    | none => none) = _
  have hlen := length_encodeNodeInfo n
  have hfuel : (encodeNodeInfo n).length + 1
      = ((encodeNodeInfo n).length - (n.GPUs.length + 9)) + n.GPUs.length + 10 := by omega
  have hp := parseValue_encodeNodeInfo n ((encodeNodeInfo n).length - (n.GPUs.length + 9)) []
  rw [List.append_nil] at hp
  rw [hfuel, hp]
  rfl

end Snapshot

section Restore

open netbalance

theorem fieldIndex_gpu_tags :
    fieldIndex ["id", "utilization", "memory_used"] "id".data = some 0 ∧
    fieldIndex ["id", "utilization", "memory_used"] "utilization".data = some 1 ∧
    fieldIndex ["id", "utilization", "memory_used"] "memory_used".data = some 2 := by
  decide

theorem fieldIndex_node_tags :
    fieldIndex ["ip", "gpus"] "ip".data = some 0 ∧
    fieldIndex ["ip", "gpus"] "gpus".data = some 1 := by
  decide

theorem decodeInt_encodeInt (field : String) (i old : Int)
    (h : -2 ^ 63 ≤ i ∧ i < 2 ^ 63) :
    decodeInt field (Json.num (encodeInt i)) old = Except.ok i := by
  unfold decodeInt
  simp only [parseInt_encodeInt i h]

theorem decodeGPUInfo_gpuDocument (g old : netbalance.GPUInfo)
    (hu : -2 ^ 63 ≤ g.Utilization ∧ g.Utilization < 2 ^ 63)
    (hm : -2 ^ 63 ≤ g.MemoryUsed ∧ g.MemoryUsed < 2 ^ 63) :
    decodeGPUInfo (gpuDocument g) old = Except.ok g := by
  unfold gpuDocument decodeGPUInfo
  simp only [decodeGPUMembers, fieldIndex_gpu_tags.1, fieldIndex_gpu_tags.2.1,
    fieldIndex_gpu_tags.2.2, decodeString, decodeInt_encodeInt _ _ _ hu,
    decodeInt_encodeInt _ _ _ hm]

theorem decodeGPUElems_documents (gs : List netbalance.GPUInfo) :
    ∀ old : List netbalance.GPUInfo,
      (∀ g ∈ gs, (-2 ^ 63 ≤ g.Utilization ∧ g.Utilization < 2 ^ 63) ∧
        (-2 ^ 63 ≤ g.MemoryUsed ∧ g.MemoryUsed < 2 ^ 63)) →
      decodeGPUElems (gs.map gpuDocument) old = Except.ok gs := by
  induction gs with
  | nil =>
    intro old _
    rfl
  | cons g gs ih =>
    intro old h
    have hg := h g (List.mem_cons_self g gs)
    have hrest := ih old.tail (fun x hx => h x (List.mem_cons_of_mem g hx))
    rw [List.map_cons, decodeGPUElems]
    simp only [decodeGPUInfo_gpuDocument g _ hg.1 hg.2, hrest]

theorem unmarshal_toJSON (n : netbalance.NodeInfo)
    (h : ∀ g ∈ n.GPUs, (-2 ^ 63 ≤ g.Utilization ∧ g.Utilization < 2 ^ 63) ∧
      (-2 ^ 63 ≤ g.MemoryUsed ∧ g.MemoryUsed < 2 ^ 63)) :
    unmarshalNodeInfo (n.ToJSON).1
      = Except.ok { IP := n.IP, GPUs := n.GPUs, LastSeen := 0, NetBandwidth := 0,
                    GPUsNil := n.GPUsNil && n.GPUs.isEmpty } := by
  unfold unmarshalNodeInfo
  rw [parseJson_toJSON]
  unfold documentOf sliceDocument
  by_cases hnil : (n.GPUsNil && n.GPUs.isEmpty) = true
  · have hboth : n.GPUsNil = true ∧ n.GPUs.isEmpty = true := by simpa using hnil
    have hempty : n.GPUs = [] := List.isEmpty_iff.mp hboth.2
    rw [if_pos hnil]
    simp only [decodeNodeMembers, fieldIndex_node_tags.1, fieldIndex_node_tags.2, decodeString,
      decodeGPUs, nilAfterDecode]
    rw [hnil, hempty]
  · rw [if_neg hnil]
    have hfalse : (n.GPUsNil && n.GPUs.isEmpty) = false := by simpa using hnil
    simp only [decodeNodeMembers, fieldIndex_node_tags.1, fieldIndex_node_tags.2, decodeString,
      decodeGPUs, nilAfterDecode, decodeGPUElems_documents n.GPUs [] h, hfalse]

/-- The record of the examples: a peer with two devices, whose identifiers hold a quote, a
backslash, an angle bracket and a letter beyond ASCII. -/
theorem toJSON_sample :
    (netbalance.NodeInfo.ToJSON
      { IP := "10.0.0.7",
        GPUs := [{ ID := "GPU-\"a\\<é", Utilization := 37, MemoryUsed := 2048 },
                 { ID := "", Utilization := -1, MemoryUsed := 0 }],
        LastSeen := 100, NetBandwidth := 25000 }).1
      = "\x7b\"ip\":\"10.0.0.7\",\"gpus\":[\x7b\"id\":\"GPU-\\\"a\\\\\\u003cé\"," ++
        "\"utilization\":37,\"memory_used\":2048\x7d," ++
        "\x7b\"id\":\"\",\"utilization\":-1,\"memory_used\":0\x7d]\x7d" := by
  decide

/-- C16: for every peer record whose device integers are in the range of a 64-bit Go
`int`, `ToJSON` returns a text and no error, and `FromJSON` of that text returns, without
error, a record with the same `IP` and the same list of devices (same order, same `ID`,
`Utilization` and `MemoryUsed`). -/
theorem fromJSON_toJSON (n : netbalance.NodeInfo)
    (h : ∀ g ∈ n.GPUs, (-2 ^ 63 ≤ g.Utilization ∧ g.Utilization < 2 ^ 63) ∧
      (-2 ^ 63 ≤ g.MemoryUsed ∧ g.MemoryUsed < 2 ^ 63)) :
    (n.ToJSON).2 = none ∧
    ∃ restored, netbalance.FromJSON (n.ToJSON).1 = Except.ok restored ∧
      restored.IP = n.IP ∧ restored.GPUs = n.GPUs :=
  ⟨rfl, _, unmarshal_toJSON n h, rfl, rfl⟩

theorem fromJSON_toJSON_witness :
    (∀ g ∈ [({ ID := "GPU-\"a\\<é", Utilization := 37, MemoryUsed := 2048 } :
          netbalance.GPUInfo), { ID := "", Utilization := -1, MemoryUsed := 0 }],
      (-2 ^ 63 ≤ g.Utilization ∧ g.Utilization < 2 ^ 63) ∧
        (-2 ^ 63 ≤ g.MemoryUsed ∧ g.MemoryUsed < 2 ^ 63)) ∧
    ((netbalance.NodeInfo.ToJSON
        { IP := "10.0.0.7",
          GPUs := [{ ID := "GPU-\"a\\<é", Utilization := 37, MemoryUsed := 2048 },
                   { ID := "", Utilization := -1, MemoryUsed := 0 }],
          LastSeen := 100, NetBandwidth := 25000 }).2 = none ∧
      ∃ restored, netbalance.FromJSON (netbalance.NodeInfo.ToJSON
          { IP := "10.0.0.7",
            GPUs := [{ ID := "GPU-\"a\\<é", Utilization := 37, MemoryUsed := 2048 },
                     { ID := "", Utilization := -1, MemoryUsed := 0 }],
            LastSeen := 100, NetBandwidth := 25000 }).1 = Except.ok restored ∧
        restored.IP = "10.0.0.7" ∧
        restored.GPUs = [{ ID := "GPU-\"a\\<é", Utilization := 37, MemoryUsed := 2048 },
                         { ID := "", Utilization := -1, MemoryUsed := 0 }]) :=
  ⟨by decide, fromJSON_toJSON _ (by decide)⟩

end Restore

section FieldNames

open netbalance

/-- C17, as the claim has it: the text written for a peer with one device has the top-level
field names `ip` and `gpus`; neither `address` nor `devices` is a field name of it. -/
theorem toJSON_field_names_counterexample :
    (parseJson (netbalance.NodeInfo.ToJSON
        { IP := "10.0.0.7", GPUs := [{ ID := "GPU-0", Utilization := 37, MemoryUsed := 2048 }],
          LastSeen := 100, NetBandwidth := 25000 }).1).bind Json.memberNames
      = some ["ip", "gpus"] ∧
    (netbalance.NodeInfo.ToJSON
        { IP := "10.0.0.7", GPUs := [{ ID := "GPU-0", Utilization := 37, MemoryUsed := 2048 }],
          LastSeen := 100, NetBandwidth := 25000 }).1
      = "\x7b\"ip\":\"10.0.0.7\",\"gpus\":[\x7b\"id\":\"GPU-0\",\"utilization\":37," ++
        "\"memory_used\":2048\x7d]\x7d" ∧
    (parseJson (netbalance.NodeInfo.ToJSON
        { IP := "10.0.0.7", GPUs := [{ ID := "GPU-0", Utilization := 37, MemoryUsed := 2048 }],
          LastSeen := 100, NetBandwidth := 25000 }).1).bind Json.memberNames
      ≠ some ["address", "devices"] := by
  decide

/-- The two texts for a record without devices: `null` stands for a slice that is `nil`
(as in a record read from a text without `gpus`), `[]` for an empty slice that is not. -/
theorem toJSON_without_devices :
    (netbalance.NodeInfo.ToJSON
        { IP := "10.0.0.7", GPUs := [], LastSeen := 0, NetBandwidth := 0, GPUsNil := true }).1
      = "\x7b\"ip\":\"10.0.0.7\",\"gpus\":null\x7d" ∧
    (netbalance.NodeInfo.ToJSON
        { IP := "10.0.0.7", GPUs := [], LastSeen := 0, NetBandwidth := 0, GPUsNil := false }).1
      = "\x7b\"ip\":\"10.0.0.7\",\"gpus\":[]\x7d" ∧
    netbalance.FromJSON "\x7b\"ip\":\"10.0.0.7\"\x7d"
      = Except.ok { IP := "10.0.0.7", GPUs := [], LastSeen := 0, NetBandwidth := 0,
                    GPUsNil := true } ∧
    netbalance.FromJSON "\x7b\"ip\":\"10.0.0.7\",\"gpus\":[]\x7d"
      = Except.ok { IP := "10.0.0.7", GPUs := [], LastSeen := 0, NetBandwidth := 0,
                    GPUsNil := false } := by
  refine ⟨by decide, by decide, rfl, rfl⟩

/-- C17, amended: for every peer record the text written by `ToJSON` is a JSON object
whose field names are exactly `ip` and `gpus`, in this order (there is no field `address`
or `devices`), and each element of `gpus` is an object whose field names are exactly `id`,
`utilization` and `memory_used`.  The value of `gpus` is `null`, which has no element, when
the slice is `nil`, and otherwise an array with one element per device. -/
theorem toJSON_field_names (n : netbalance.NodeInfo) :
    ∃ doc devices, parseJson (n.ToJSON).1 = some doc ∧
      doc.memberNames = some ["ip", "gpus"] ∧
      doc.member "address" = none ∧ doc.member "devices" = none ∧
      doc.member "gpus" = some devices ∧
      (∀ e ∈ devices.elements, e.memberNames = some ["id", "utilization", "memory_used"]) ∧
      devices.elements.length = n.GPUs.length ∧
      devices = if n.GPUsNil && n.GPUs.isEmpty then Json.null else Json.arr devices.elements := by
  refine ⟨documentOf n, sliceDocument n, parseJson_toJSON n, rfl, rfl, rfl, rfl, ?_, ?_, ?_⟩
  · intro e he
    unfold sliceDocument at he
    by_cases hnil : (n.GPUsNil && n.GPUs.isEmpty) = true
    · rw [if_pos hnil] at he
      exact absurd he (List.not_mem_nil e)
    · rw [if_neg hnil] at he
      rcases List.mem_map.mp he with ⟨g, _, hg⟩
      rw [← hg]
      rfl
  · unfold sliceDocument
    by_cases hnil : (n.GPUsNil && n.GPUs.isEmpty) = true
    · have hboth : n.GPUsNil = true ∧ n.GPUs.isEmpty = true := by simpa using hnil
      have hempty : n.GPUs = [] := List.isEmpty_iff.mp hboth.2
      rw [if_pos hnil, hempty]
      rfl
    · rw [if_neg hnil]
      exact List.length_map _ _
  · unfold sliceDocument
    by_cases hnil : (n.GPUsNil && n.GPUs.isEmpty) = true
    · rw [if_pos hnil, if_pos hnil]
    · rw [if_neg hnil, if_neg hnil]
      rfl

end FieldNames

/-! ## Lease scheduler: what a call leaves alone -/

theorem isInUse_acquire_ne (s : Scheduler) (u v : String) (huv : u ≠ v) :
    (s.Acquire u).1.IsInUse v = s.IsInUse v := by
  unfold Scheduler.Acquire Scheduler.IsInUse
  by_cases hu : mapGet s.inUse u = true
  · simp only [hu, if_true]
  · simp only [hu, Bool.false_eq_true, if_false]
    exact mapGet_mapSet_ne _ _ _ _ (Ne.symm huv)

theorem isInUse_release_ne (s : Scheduler) (u v : String) (huv : u ≠ v) :
    (s.Release u).IsInUse v = s.IsInUse v := by
  unfold Scheduler.Release Scheduler.IsInUse
  by_cases hu : mapGet s.inUse u = true
  · simp only [hu, if_true]
    exact mapGet_mapDelete_ne _ _ _ (Ne.symm huv)
  · simp only [hu, Bool.false_eq_true, if_false]

theorem isInUse_timeoutFires_ne (s : Scheduler) (u v : String) (t : Nat) (task : TimeoutTask)
    (huv : u ≠ v) (ht : s.tasks[t]? = some task) (hu : task.uuid = u) :
    (s.timeoutFires t).IsInUse v = s.IsInUse v := by
  unfold Scheduler.timeoutFires
  rw [ht]
  by_cases hd : task.done = true
  · simp only [hd, if_true]
  · simp only [hd, Bool.false_eq_true, if_false]
    rw [hu]
    exact isInUse_release_ne _ u v huv

/-- C25: for every scheduler state and all uuids `u ≠ v`, the answer of `IsInUse(v)` is the
same before and after `Acquire(u)` (whether it succeeds or fails), before and after
`Release(u)`, and before and after the wake-up of any timeout goroutine that was started
for `u`. -/
theorem other_lease_untouched (s : Scheduler) (u v : String) (huv : u ≠ v) :
    (s.Acquire u).1.IsInUse v = s.IsInUse v ∧
    (s.Release u).IsInUse v = s.IsInUse v ∧
    ∀ (t : Nat) (task : TimeoutTask), s.tasks[t]? = some task → task.uuid = u →
      (s.timeoutFires t).IsInUse v = s.IsInUse v :=
  ⟨isInUse_acquire_ne s u v huv, isInUse_release_ne s u v huv,
    fun t task ht hu => isInUse_timeoutFires_ne s u v t task huv ht hu⟩

theorem other_lease_untouched_witness :
    "GPU-a" ≠ "GPU-b" ∧
    ((((NewScheduler 30).run [Event.acquire "GPU-a", Event.acquire "GPU-b"]).Acquire
        "GPU-a").1.IsInUse "GPU-b"
      = ((NewScheduler 30).run [Event.acquire "GPU-a", Event.acquire "GPU-b"]).IsInUse "GPU-b" ∧
    (((NewScheduler 30).run [Event.acquire "GPU-a", Event.acquire "GPU-b"]).Release
        "GPU-a").IsInUse "GPU-b"
      = ((NewScheduler 30).run [Event.acquire "GPU-a", Event.acquire "GPU-b"]).IsInUse "GPU-b" ∧
    ∀ (t : Nat) (task : TimeoutTask),
      ((NewScheduler 30).run [Event.acquire "GPU-a", Event.acquire "GPU-b"]).tasks[t]?
          = some task → task.uuid = "GPU-a" →
        (((NewScheduler 30).run [Event.acquire "GPU-a", Event.acquire "GPU-b"]).timeoutFires
          t).IsInUse "GPU-b"
        = ((NewScheduler 30).run [Event.acquire "GPU-a", Event.acquire "GPU-b"]).IsInUse
          "GPU-b") :=
  ⟨by decide, other_lease_untouched _ "GPU-a" "GPU-b" (by decide)⟩

theorem acquire_fails_iff (s : Scheduler) (uuid : String) :
    (s.Acquire uuid).2 ≠ none ↔ s.IsInUse uuid = true := by
  by_cases h : s.IsInUse uuid = true
  · rw [acquire_of_inUse s uuid h]
    simp [h]
  · have hf : s.IsInUse uuid = false := by simpa using h
    rw [acquire_of_free s uuid hf]
    simp [hf]

/-- C26: an `Acquire(uuid)` that returns an error found the uuid leased and leaves the
scheduler as it was: the lease map is the same and no timeout goroutine is added.  Whatever
happens afterwards (calls and wake-ups of timeout goroutines) therefore goes exactly as if
the rejected call had not been made, so the rejected call releases no lease, of the holder
or of anyone else, then or later. -/
theorem failed_acquire_atomic (s : Scheduler) (uuid : String)
    (hfail : (s.Acquire uuid).2 ≠ none) :
    s.IsInUse uuid = true ∧
    (s.Acquire uuid).1.inUse = s.inUse ∧
    (s.Acquire uuid).1.tasks = s.tasks ∧
    (s.Acquire uuid).1 = s ∧
    ∀ later : List Event, (s.step (Event.acquire uuid)).run later = s.run later := by
  have hin := (acquire_fails_iff s uuid).mp hfail
  have hsame : (s.Acquire uuid).1 = s := by rw [acquire_of_inUse s uuid hin]
  refine ⟨hin, by rw [hsame], by rw [hsame], hsame, ?_⟩
  intro later
  show ((s.Acquire uuid).1).run later = s.run later
  rw [hsame]

theorem failed_acquire_atomic_witness :
    (((NewScheduler 30).Acquire "GPU-a").1.Acquire "GPU-a").2 ≠ none ∧
    (((NewScheduler 30).Acquire "GPU-a").1.IsInUse "GPU-a" = true ∧
    (((NewScheduler 30).Acquire "GPU-a").1.Acquire "GPU-a").1.inUse
      = ((NewScheduler 30).Acquire "GPU-a").1.inUse ∧
    (((NewScheduler 30).Acquire "GPU-a").1.Acquire "GPU-a").1.tasks
      = ((NewScheduler 30).Acquire "GPU-a").1.tasks ∧
    (((NewScheduler 30).Acquire "GPU-a").1.Acquire "GPU-a").1
      = ((NewScheduler 30).Acquire "GPU-a").1 ∧
    ∀ later : List Event,
      (((NewScheduler 30).Acquire "GPU-a").1.step (Event.acquire "GPU-a")).run later
        = ((NewScheduler 30).Acquire "GPU-a").1.run later) :=
  ⟨by decide, failed_acquire_atomic _ "GPU-a" (by decide)⟩

/-! ## Virtual interfaces -/

theorem isVirtualInterface_iff (name : String) :
    isVirtualInterface name = true ↔
      ∃ pre ∈ ["lo", "docker", "br", "veth", "dummy", "ip6tnl", "virbr"],
        List.IsPrefix (String.data pre) name.data := by
  unfold isVirtualInterface HasPrefix
  rw [List.any_eq_true]
  constructor
  · rintro ⟨pre, hpre, h⟩
    exact ⟨pre, hpre, List.isPrefixOf_iff_prefix.mp h⟩
  · rintro ⟨pre, hpre, h⟩
    exact ⟨pre, hpre, List.isPrefixOf_iff_prefix.mpr h⟩

theorem collectPhysical_foldl (host : Host) (lines : List String) (acc : List NetDeviceInfo) :
    lines.foldl
      (fun results line =>
        match linkNameOf line with
        | none => results
        | some iface =>
          if isVirtualInterface iface then results
          else results ++
            [{ Name := iface, NUMANode := GetInterfaceNUMANode host iface, IsVirtual := false }])
      acc
    = acc ++ ((lines.filterMap linkNameOf).filter (fun iface => !isVirtualInterface iface)).map
        (fun iface =>
          { Name := iface, NUMANode := GetInterfaceNUMANode host iface, IsVirtual := false }) := by
  induction lines generalizing acc with
  | nil => simp
  | cons line more ih =>
    rw [List.foldl_cons, ih]
    cases hl : linkNameOf line with
    | none => simp [List.filterMap_cons, hl]
    | some iface =>
      by_cases hv : isVirtualInterface iface = true
      · simp [List.filterMap_cons, hl, hv, List.filter_cons]
      · have hv2 : isVirtualInterface iface = false := by simpa using hv
        simp [List.filterMap_cons, hl, hv2, List.filter_cons]

theorem collectPhysical_names (host : Host) (lines : List String) :
    (collectPhysical host lines).map (fun d => d.Name)
      = (lines.filterMap linkNameOf).filter (fun iface => !isVirtualInterface iface) := by
  unfold collectPhysical
  rw [collectPhysical_foldl, List.nil_append, List.map_map]
  exact List.map_id _

theorem collectPhysical_not_virtual (host : Host) (lines : List String) :
    ∀ d ∈ collectPhysical host lines, isVirtualInterface d.Name = false := by
  intro d hd
  have hmem : d.Name ∈ (collectPhysical host lines).map (fun d => d.Name) :=
    List.mem_map.mpr ⟨d, hd, rfl⟩
  rw [collectPhysical_names] at hmem
  simpa using (List.mem_filter.mp hmem).2

theorem detectAllPhysicalInterfaces_not_virtual (host : Host) :
    ∀ d ∈ detectAllPhysicalInterfaces host, isVirtualInterface d.Name = false := by
  unfold detectAllPhysicalInterfaces
  cases host.ipLinkShow with
  | none =>
    intro d hd
    exact absurd hd (List.not_mem_nil d)
  | some lines => exact collectPhysical_not_virtual host lines

theorem fallbackInterface_not_virtual (goarch : String) :
    isVirtualInterface (fallbackInterface goarch) = false := by
  unfold fallbackInterface
  split <;> decide

theorem firstPhysical_not_virtual (lines : List String) (iface : String)
    (h : refactor.firstPhysical lines = some iface) : isVirtualInterface iface = false := by
  induction lines with
  | nil => cases h
  | cons line more ih =>
    rw [refactor.firstPhysical] at h
    cases hl : linkNameOf line with
    | none =>
      rw [hl] at h
      exact ih h
    | some name =>
      rw [hl] at h
      by_cases hv : isVirtualInterface name = true
      · simp only [hv, if_true] at h
        exact ih h
      · simp only [hv, Bool.false_eq_true, if_false, Option.some.injEq] at h
        rw [← h]
        simpa using hv

/-- C21: `isVirtualInterface(name)` is true exactly when `name` starts with one of the seven
prefixes `lo`, `docker`, `br`, `veth`, `dummy`, `ip6tnl`, `virbr`.  The names that
`detectAllPhysicalInterfaces` returns are, in the order of the listing, the interface names
of the lines of `ip -o link show` for which `isVirtualInterface` is false, so that none of
them starts with one of the prefixes; the default interface, in both versions of the
scanner, is never a virtual one. -/
theorem virtual_interfaces_excluded (host : Host) (goarch : String) :
    (∀ name : String, isVirtualInterface name = true ↔
      ∃ pre ∈ ["lo", "docker", "br", "veth", "dummy", "ip6tnl", "virbr"],
        List.IsPrefix (String.data pre) name.data) ∧
    (∀ d ∈ detectAllPhysicalInterfaces host,
      ∀ pre ∈ ["lo", "docker", "br", "veth", "dummy", "ip6tnl", "virbr"],
        ¬ List.IsPrefix (String.data pre) d.Name.data) ∧
    (∀ lines : List String, (collectPhysical host lines).map (fun d => d.Name)
      = (lines.filterMap linkNameOf).filter (fun iface => !isVirtualInterface iface)) ∧
    isVirtualInterface (detectDefaultInterface host goarch) = false ∧
    isVirtualInterface (refactor.detectDefaultInterface host goarch) = false := by
  refine ⟨isVirtualInterface_iff, ?_, collectPhysical_names host, ?_, ?_⟩
  · intro d hd pre hpre hprefix
    have hfalse := detectAllPhysicalInterfaces_not_virtual host d hd
    have htrue := (isVirtualInterface_iff d.Name).mpr ⟨pre, hpre, hprefix⟩
    rw [hfalse] at htrue
    cases htrue
  · unfold detectDefaultInterface
    cases hall : detectAllPhysicalInterfaces host with
    | nil => exact fallbackInterface_not_virtual goarch
    | cons info more =>
      exact detectAllPhysicalInterfaces_not_virtual host info (by rw [hall]; exact List.mem_cons_self _ _)
  · unfold refactor.detectDefaultInterface
    cases host.ipLinkShow with
    | none => exact fallbackInterface_not_virtual goarch
    | some lines =>
      show isVirtualInterface
        (match refactor.firstPhysical lines with
          | some iface => iface
          | none => fallbackInterface goarch) = false
      cases hf : refactor.firstPhysical lines with
      | none => exact fallbackInterface_not_virtual goarch
      | some iface => exact firstPhysical_not_virtual lines iface hf

/-- The listing of a machine with a loopback, two physical ports and a bridge: the ports
are kept, in the order of the listing, with the node of their affinity file. -/
theorem detectAllPhysicalInterfaces_sample :
    detectAllPhysicalInterfaces
      { cardNumaFile := fun _ => none,
        netNumaFile := fun name => if name == "enP5p1s0f0" then some "8\n" else none,
        ipLinkShow := some
          ["1: lo: <LOOPBACK,UP,LOWER_UP> mtu 65536 qdisc noqueue state UNKNOWN",
           "2: enP5p1s0f0: <BROADCAST,MULTICAST,UP,LOWER_UP> mtu 1500 qdisc mq state UP",
           "3: eth1@if7: <BROADCAST,MULTICAST> mtu 1500 qdisc noop state DOWN",
           "4: br-4fe2: <NO-CARRIER,BROADCAST,MULTICAST,UP> mtu 1500 state DOWN"] }
      = [{ Name := "enP5p1s0f0", NUMANode := 8, IsVirtual := false },
         { Name := "eth1", NUMANode := -1, IsVirtual := false }] := by
  decide

/-! ## Ports handed out by the `start` command -/

theorem triangle_succ (k : Nat) : (k + 1) * (k + 1 + 1) / 2 = k * (k + 1) / 2 + (k + 1) := by
  have h : (k + 1) * (k + 1 + 1) = k * (k + 1) + (k + 1) * 2 := by ring
  rw [h, Nat.add_mul_div_right _ _ (by norm_num : 0 < 2)]

theorem startLoop_launches (n : Nat) :
    ∀ (i : Int) (run : StartRun), 0 ≤ i → 0 ≤ run.cfg.GRPCBasePort →
      run.cfg.GRPCBasePort + (n : Int) * (i + n) < 9223372036854775808 →
      (startLoop (fun _ _ => none) n i run).launches.map (fun l => (l.2, l.1.GRPCBasePort))
        = run.launches.map (fun l => (l.2, l.1.GRPCBasePort)) ++
          (List.range n).map (fun k : Nat =>
            (i + (k : Int),
              run.cfg.GRPCBasePort + ((k : Int) + 1) * i + ((k * (k + 1) / 2 : Nat) : Int))) := by
  induction n with
  | zero =>
    intro i run _ _ _
    simp [startLoop]
  | succ n ih =>
    intro i run hi hp hbound
    have hn : (0 : Int) ≤ (n : Int) := Int.ofNat_nonneg _
    have hcast : ((n + 1 : Nat) : Int) = (n : Int) + 1 := by push_cast; ring
    rw [hcast] at hbound
    have hprod : ((n : Int) + 1) * (i + ((n : Int) + 1))
        = (n : Int) * (i + 1 + (n : Int)) + (i + (n : Int) + 1) := by ring
    have hnonneg : 0 ≤ (n : Int) * (i + 1 + (n : Int)) := by positivity
    have hwrap : wrapInt64 (run.cfg.GRPCBasePort + i) = run.cfg.GRPCBasePort + i :=
      wrapInt64_of_range _ ⟨by omega, by omega⟩
    have hnext : run.cfg.GRPCBasePort + i + (n : Int) * (i + 1 + (n : Int))
        < 9223372036854775808 := by omega
    rw [startLoop]
    simp only [hwrap]
    rw [ih (i + 1) _ (by omega) (by show 0 ≤ run.cfg.GRPCBasePort + i; omega)
      (by show run.cfg.GRPCBasePort + i + (n : Int) * (i + 1 + (n : Int)) < _
          exact hnext)]
    rw [List.range_succ_eq_map, List.map_cons, List.map_map, List.map_append, List.append_assoc]
    congr 1
    simp only [List.map_cons, List.map_nil, List.singleton_append, List.cons.injEq, Prod.mk.injEq]
    refine ⟨⟨by simp, by simp⟩, ?_⟩
    apply List.map_congr_left
    intro k _
    simp only [Function.comp, Prod.mk.injEq]
    constructor
    · push_cast
      ring
    · rw [triangle_succ k]
      push_cast
      ring

/-- With `N` topology files, no limit `--num-numa` and a helper that starts every
container, the configuration handed over for the index `k` carries the base port
`p + k * (k + 1) / 2`: the loop adds `i` to the base port it left behind in the round
before, not to the port of the flag. -/
theorem start_ports_triangular (numaFiles : List String) (changed : Bool) (cfg : CLIConfig)
    (hfiles : numaFiles ≠ []) (hnum : cfg.NumNUMA = 0) (hp : 0 ≤ cfg.GRPCBasePort)
    (hbound : cfg.GRPCBasePort + (numaFiles.length : Int) * (numaFiles.length : Int)
      < 9223372036854775808) :
    (startCmdRun (fun _ _ => none) (Except.ok numaFiles) changed cfg).launches.map
        (fun l => (l.2, l.1.GRPCBasePort))
      = (List.range numaFiles.length).map (fun k : Nat =>
          ((k : Int), cfg.GRPCBasePort + ((k * (k + 1) / 2 : Nat) : Int))) := by
  have hlen : (numaFiles.length == 0) = false := by
    cases numaFiles with
    | nil => exact absurd rfl hfiles
    | cons a l => rfl
  have hstart : ¬ (cfg.NumNUMA > 0 ∧ cfg.NumNUMA < (numaFiles.length : Int)) := by
    rw [hnum]
    omega
  unfold startCmdRun
  simp only [hlen, Bool.false_eq_true, if_false, hstart, Int.toNat_ofNat]
  have hport : (if (!changed) = true then { cfg with DisableNUMABinding := false }
      else cfg).GRPCBasePort = cfg.GRPCBasePort := by
    split <;> rfl
  rw [startLoop_launches numaFiles.length 0 _ (le_refl 0)
    (by show 0 ≤ (if (!changed) = true then { cfg with DisableNUMABinding := false }
          else cfg).GRPCBasePort
        rw [hport]; exact hp)
    (by show (if (!changed) = true then { cfg with DisableNUMABinding := false }
          else cfg).GRPCBasePort + _ < _
        rw [hport]; simpa using hbound)]
  simp only [List.map_nil, List.nil_append]
  apply List.map_congr_left
  intro k _
  show ((0 : Int) + (k : Int), (if (!changed) = true then { cfg with DisableNUMABinding := false }
      else cfg).GRPCBasePort + ((k : Int) + 1) * 0 + _) = _
  rw [hport]
  simp

/-- C22: with the default base port 50051 and three topology files, the `start` command
hands the base ports 50051, 50052 and 50054 to the calls for the indexes 0, 1 and 2 and
announces them as the gRPC ports: the instance with ordinal 2 is not started on
`50051 + 2 = 50053`.  Under the rule of the sibling `StartContainers`, which adds the index
to the base port it is given, the ports are 50051, 50053 and 50056. -/
theorem start_ports_accumulate :
    ((startCmdRun (fun _ _ => none)
        (Except.ok ["/var/lib/aitherion/topology/numa0_gpus.txt",
          "/var/lib/aitherion/topology/numa1_gpus.txt",
          "/var/lib/aitherion/topology/numa2_gpus.txt"])
        false DefaultCLIConfig).launches.map (fun l => (l.2, l.1.GRPCBasePort))
      = [(0, 50051), (1, 50052), (2, 50054)]) ∧
    ((startCmdRun (fun _ _ => none)
        (Except.ok ["/var/lib/aitherion/topology/numa0_gpus.txt",
          "/var/lib/aitherion/topology/numa1_gpus.txt",
          "/var/lib/aitherion/topology/numa2_gpus.txt"])
        false DefaultCLIConfig).launches.map (fun l => siblingGrpcPort l.1 l.2)
      = [50051, 50053, 50056]) ∧
    (startCmdRun (fun _ _ => none)
        (Except.ok ["/var/lib/aitherion/topology/numa0_gpus.txt",
          "/var/lib/aitherion/topology/numa1_gpus.txt",
          "/var/lib/aitherion/topology/numa2_gpus.txt"])
        false DefaultCLIConfig).exitCode = none ∧
    (50054 : Int) ≠ 50051 + 2 := by
  decide

/-! ## Order of the groups that `MapNUMATopology` returns -/

theorem mayReturn_reverse (netIfs : Except String (List NetDeviceInfo))
    (gpuNumaMap : Except String (GoMap Int Int)) (result : List NUMAGroup)
    (h : mayReturn netIfs gpuNumaMap result) : mayReturn netIfs gpuNumaMap result.reverse := by
  unfold mayReturn at h ⊢
  cases hres : MapNUMATopology netIfs gpuNumaMap with
  | error e =>
    rw [hres] at h
    exact h
  | ok groups =>
    rw [hres] at h
    exact (List.reverse_perm result).trans h

theorem not_sorted_reverse (l : List Int) (hlen : 2 ≤ l.length) (h : l.Sorted (· < ·)) :
    ¬ l.reverse.Sorted (· < ·) := by
  intro hrev
  match l, hlen with
  | a :: b :: t, _ =>
    have hab : a < b := (List.pairwise_cons.mp h).1 b (List.mem_cons_self b t)
    have hflip := List.pairwise_reverse.mp hrev
    have hba : b < a := (List.pairwise_cons.mp hflip).1 b (List.mem_cons_self b t)
    omega

/-- Whenever the topology has two groups or more, a call of `MapNUMATopology` may return
them in an order in which the nodes are not increasing: nothing in the function sorts the
slice. -/
theorem unsorted_result_possible (netIfs : List NetDeviceInfo) (gpuNumaMap : GoMap Int Int)
    (groups : List NUMAGroup)
    (hres : MapNUMATopology (Except.ok netIfs) (Except.ok gpuNumaMap) = Except.ok groups)
    (hlen : 2 ≤ groups.length) :
    ∃ result, mayReturn (Except.ok netIfs) (Except.ok gpuNumaMap) result ∧
      ¬ (result.map (fun g => g.NUMANode)).Sorted (· < ·) := by
  have hself : mayReturn (Except.ok netIfs) (Except.ok gpuNumaMap) groups := by
    unfold mayReturn
    rw [hres]
  by_cases hs : (groups.map (fun g => g.NUMANode)).Sorted (· < ·)
  · refine ⟨groups.reverse, mayReturn_reverse _ _ _ hself, ?_⟩
    rw [List.map_reverse]
    exact not_sorted_reverse _ (by rw [List.length_map]; exact hlen) hs
  · exact ⟨groups, hself, hs⟩

/-- C23: on a machine where device 0 sits on node 1 and device 1 on node 0, the groups are
the one of node 0 (device 1) and the one of node 1 (device 0), and `MapNUMATopology` may
return them in either order, as the order of `range` over the map of groups falls: the
slice with node 1 first is a possible result, and its nodes 1, 0 are not increasing.  The
group of node 1 then has the ordinal 0 in one run and the ordinal 1 in another. -/
theorem groups_order_not_fixed :
    mayReturn (Except.ok []) (Except.ok [(0, 1), (1, 0)])
      [{ NUMANode := 1, GPUIDs := [0], NetIfs := [] },
       { NUMANode := 0, GPUIDs := [1], NetIfs := [] }] ∧
    mayReturn (Except.ok []) (Except.ok [(0, 1), (1, 0)])
      [{ NUMANode := 0, GPUIDs := [1], NetIfs := [] },
       { NUMANode := 1, GPUIDs := [0], NetIfs := [] }] ∧
    ¬ (([{ NUMANode := 1, GPUIDs := [0], NetIfs := [] },
         { NUMANode := 0, GPUIDs := [1], NetIfs := [] }] : List NUMAGroup).map
        (fun g => g.NUMANode)).Sorted (· < ·) := by
  have hrun : MapNUMATopology (Except.ok []) (Except.ok [(0, 1), (1, 0)])
      = Except.ok [{ NUMANode := 0, GPUIDs := [1], NetIfs := [] },
                   { NUMANode := 1, GPUIDs := [0], NetIfs := [] }] := rfl
  refine ⟨?_, ?_, by decide⟩
  · unfold mayReturn
    rw [hrun]
    exact List.Perm.swap _ _ _
  · unfold mayReturn
    rw [hrun]

/-! ## Topology files: what the scans file and what they pass over -/

theorem wellFiled_numaInfoAt (host : TopoHost) (numaMap : GoMap Int NumaInfo) (node : Int)
    (hmap : ∀ e ∈ numaMap, wellFiled host e.1 e.2) (hnode : 0 ≤ node) :
    wellFiled host node (numaInfoAt numaMap node) := by
  unfold numaInfoAt
  cases hl : mapLookup numaMap node with
  | some info => exact hmap (node, info) (mem_of_mapLookup numaMap node info hl)
  | none =>
    exact ⟨hnode, fun name h => absurd h (List.not_mem_nil name),
      fun name h => absurd h (List.not_mem_nil name)⟩

theorem wellFiled_mapSet (host : TopoHost) (numaMap : GoMap Int NumaInfo) (node : Int)
    (info : NumaInfo) (hmap : ∀ e ∈ numaMap, wellFiled host e.1 e.2)
    (hinfo : wellFiled host node info) :
    ∀ e ∈ mapSet numaMap node info, wellFiled host e.1 e.2 := by
  intro e he
  rcases (mem_mapSet numaMap node info e).mp he with h | h
  · rw [h]
    exact hinfo
  · exact hmap e h.1

theorem wellFiled_scanCard (host : TopoHost) (numaMap : GoMap Int NumaInfo) (name : String)
    (hmap : ∀ e ∈ numaMap, wellFiled host e.1 e.2) :
    ∀ e ∈ scanCard host numaMap name, wellFiled host e.1 e.2 := by
  unfold scanCard
  by_cases hcard : (!HasPrefix name "card") = true
  · simp only [hcard, if_true]
    exact hmap
  · simp only [hcard, Bool.false_eq_true, if_false]
    cases hfile : host.drmNumaFile name with
    | none => exact hmap
    | some data =>
      by_cases hneg : AtoiValue (TrimSpace data) < 0
      · simp only [hneg, if_true]
        exact hmap
      · simp only [hneg, if_false]
        have hold := wellFiled_numaInfoAt host numaMap (AtoiValue (TrimSpace data)) hmap
          (by omega)
        apply wellFiled_mapSet host numaMap _ _ hmap
        refine ⟨hold.1, ?_, hold.2.2⟩
        intro n hn
        rcases List.mem_append.mp hn with h | h
        · exact hold.2.1 n h
        · rw [List.mem_singleton.mp h]
          exact ⟨data, hfile, rfl⟩

theorem wellFiled_scanNet (host : TopoHost) (numaMap : GoMap Int NumaInfo) (name : String)
    (hmap : ∀ e ∈ numaMap, wellFiled host e.1 e.2) :
    ∀ e ∈ scanNet host numaMap name, wellFiled host e.1 e.2 := by
  unfold scanNet
  cases hfile : host.netNumaFile name with
  | none => exact hmap
  | some data =>
    by_cases hneg : AtoiValue (TrimSpace data) < 0
    · simp only [hneg, if_true]
      exact hmap
    · simp only [hneg, if_false]
      have hold := wellFiled_numaInfoAt host numaMap (AtoiValue (TrimSpace data)) hmap
        (by omega)
      apply wellFiled_mapSet host numaMap _ _ hmap
      refine ⟨hold.1, hold.2.1, ?_⟩
      intro n hn
      rcases List.mem_append.mp hn with h | h
      · exact hold.2.2 n h
      · rw [List.mem_singleton.mp h]
        exact ⟨data, hfile, rfl⟩

theorem wellFiled_scanMemory (host : TopoHost) (numaMap : GoMap Int NumaInfo) (node : Int)
    (hmap : ∀ e ∈ numaMap, wellFiled host e.1 e.2) (hnode : 0 ≤ node) :
    ∀ e ∈ scanMemory host numaMap node, wellFiled host e.1 e.2 := by
  unfold scanMemory
  cases host.meminfo node with
  | none => exact hmap
  | some data =>
    show ∀ e ∈ (match memTotalBytes (SplitLines data) with
      | none => numaMap
      | some bytes =>
        mapSet numaMap node { numaInfoAt numaMap node with Memory := bytes }),
      wellFiled host e.1 e.2
    cases memTotalBytes (SplitLines data) with
    | none => exact hmap
    | some bytes =>
      have hold := wellFiled_numaInfoAt host numaMap node hmap hnode
      exact wellFiled_mapSet host numaMap _ _ hmap ⟨hold.1, hold.2.1, hold.2.2⟩

theorem wellFiled_foldl_scanCard (host : TopoHost) (names : List String) :
    ∀ numaMap : GoMap Int NumaInfo, (∀ e ∈ numaMap, wellFiled host e.1 e.2) →
      ∀ e ∈ names.foldl (scanCard host) numaMap, wellFiled host e.1 e.2 := by
  induction names with
  | nil => exact fun _ h => h
  | cons name more ih =>
    exact fun numaMap h => ih _ (wellFiled_scanCard host numaMap name h)

theorem wellFiled_foldl_scanNet (host : TopoHost) (names : List String) :
    ∀ numaMap : GoMap Int NumaInfo, (∀ e ∈ numaMap, wellFiled host e.1 e.2) →
      ∀ e ∈ names.foldl (scanNet host) numaMap, wellFiled host e.1 e.2 := by
  induction names with
  | nil => exact fun _ h => h
  | cons name more ih =>
    exact fun numaMap h => ih _ (wellFiled_scanNet host numaMap name h)

theorem wellFiled_foldl_scanMemory (host : TopoHost) (nodes : List Int) :
    ∀ numaMap : GoMap Int NumaInfo, (∀ node ∈ nodes, 0 ≤ node) →
      (∀ e ∈ numaMap, wellFiled host e.1 e.2) →
      ∀ e ∈ nodes.foldl (scanMemory host) numaMap, wellFiled host e.1 e.2 := by
  induction nodes with
  | nil => exact fun _ _ h => h
  | cons node more ih =>
    intro numaMap hnodes h
    exact ih _ (fun k hk => hnodes k (List.mem_cons_of_mem node hk))
      (wellFiled_scanMemory host numaMap node h (hnodes node (List.mem_cons_self node more)))

theorem wellFiled_topologyMap (host : TopoHost) :
    ∀ e ∈ topologyMap host, wellFiled host e.1 e.2 := by
  have hcards := wellFiled_foldl_scanCard host host.drmEntries []
    (fun e he => absurd he (List.not_mem_nil e))
  have hnets := wellFiled_foldl_scanNet host host.netEntries _ hcards
  unfold topologyMap
  apply wellFiled_foldl_scanMemory host _ _ _ hnets
  intro node hnode
  rcases List.mem_map.mp hnode with ⟨e, he, hk⟩
  rw [← hk]
  exact (hnets e he).1

theorem mem_foldl_nodeFiles (formatGb : Nat → String) (numaMap : GoMap Int NumaInfo)
    (file : String × String) :
    ∀ files : List (String × String),
      file ∈ numaMap.foldl (fun files entry => files ++ nodeFiles formatGb entry) files ↔
        file ∈ files ∨ ∃ e ∈ numaMap, file ∈ nodeFiles formatGb e := by
  induction numaMap with
  | nil => simp
  | cons entry more ih =>
    intro files
    rw [List.foldl_cons, ih, List.mem_append]
    constructor
    · rintro ((h | h) | ⟨e, he, h⟩)
      · exact Or.inl h
      · exact Or.inr ⟨entry, List.mem_cons_self _ _, h⟩
      · exact Or.inr ⟨e, List.mem_cons_of_mem _ he, h⟩
    · rintro (h | ⟨e, he, h⟩)
      · exact Or.inl (Or.inl h)
      · rcases List.mem_cons.mp he with h1 | h1
        · rw [h1] at h
          exact Or.inl (Or.inr h)
        · exact Or.inr ⟨e, h1, h⟩

/-- C24: on a machine where `card0` and `eth0` report the affinity -1 and `card1` and
`eth1` report node 0, the only node of the map of `GenerateTopologyFiles` is node 0 with
`card1` and `eth1`, and the descriptors written are those of node 0 with the contents
`card1` and `eth1`: `card0` and `eth0` are not filed under node 0, they are in no
descriptor at all.  (`MapNUMATopology` files an affinity below 0 under node 0.) -/
theorem negative_affinity_counterexample :
    topologyMap flatHost = [(0, { GPUs := ["card1"], IFaces := ["eth1"], Memory := 0 })] ∧
    GenerateTopologyFiles (fun _ => "0.00") flatHost
      = { err := none,
          files := [("/var/lib/juice/topology/numa0_gpus.txt", "card1"),
                    ("/var/lib/juice/topology/numa0_iface.txt", "eth1"),
                    ("/var/lib/juice/topology/numa0_mem_gb.txt", "0.00")] } ∧
    flatHost.drmNumaFile "card0" = some "-1\n" ∧ AtoiValue (TrimSpace "-1\n") = -1 ∧
    flatHost.netNumaFile "eth0" = some "-1\n" := by
  decide

/-- In `GenerateTopologyFiles`, a card entry or an interface whose affinity file is readable
and gives a negative node (the first result of `strconv.Atoi` on the trimmed content) is
passed over, on every machine: it is in the list of no node of the map, and the files
written are the descriptors of the nodes of the map. -/
theorem negative_affinity_skipped (formatGb : Nat → String) (host : TopoHost)
    (name data : String) (hneg : AtoiValue (TrimSpace data) < 0) :
    (∀ file ∈ (GenerateTopologyFiles formatGb host).files,
      ∃ e ∈ topologyMap host, file ∈ nodeFiles formatGb e) ∧
    (∀ e ∈ topologyMap host, wellFiled host e.1 e.2) ∧
    (host.drmNumaFile name = some data → ∀ e ∈ topologyMap host, name ∉ e.2.GPUs) ∧
    (host.netNumaFile name = some data → ∀ e ∈ topologyMap host, name ∉ e.2.IFaces) := by
  have hinv := wellFiled_topologyMap host
  refine ⟨?_, hinv, ?_, ?_⟩
  · intro file hfile
    unfold GenerateTopologyFiles at hfile
    cases hmk : host.mkdirErr with
    | some err =>
      rw [hmk] at hfile
      exact absurd hfile (List.not_mem_nil file)
    | none =>
      rw [hmk] at hfile
      rcases (mem_foldl_nodeFiles formatGb _ file []).mp hfile with h | h
      · exact absurd h (List.not_mem_nil file)
      · exact h
  · intro hread e he hmem
    rcases (hinv e he).2.1 name hmem with ⟨data2, hread2, hval⟩
    rw [hread] at hread2
    have hnode := (hinv e he).1
    rw [← Option.some.inj hread2] at hval
    omega
  · intro hread e he hmem
    rcases (hinv e he).2.2 name hmem with ⟨data2, hread2, hval⟩
    rw [hread] at hread2
    have hnode := (hinv e he).1
    rw [← Option.some.inj hread2] at hval
    omega

theorem negative_affinity_skipped_witness :
    AtoiValue (TrimSpace "-1\n") < 0 ∧
    (∀ e ∈ topologyMap flatHost, "card0" ∉ e.2.GPUs) ∧
    (∀ e ∈ topologyMap flatHost, "eth0" ∉ e.2.IFaces) :=
  ⟨by decide,
    (negative_affinity_skipped (fun _ => "0.00") flatHost "card0" "-1\n" (by decide)).2.2.1 rfl,
    (negative_affinity_skipped (fun _ => "0.00") flatHost "eth0" "-1\n" (by decide)).2.2.2 rfl⟩

/-! ## The integer that `Sscanf` reads -/

theorem parseUintLoop_overflow (cs : List Char) (acc : Nat)
    (hdig : ∀ c ∈ cs, isDecimalDigit c = true) (hacc : acc ≤ 18446744073709551615)
    (hval : 18446744073709551615 < cs.foldl (fun a c => a * 10 + (c.toNat - 48)) acc) :
    parseUintLoop cs acc = some none := by
  induction cs generalizing acc with
  | nil =>
    rw [List.foldl_nil] at hval
    omega
  | cons c cs ih =>
    rw [List.foldl_cons] at hval
    unfold parseUintLoop
    rw [if_pos (hdig c (List.mem_cons_self _ _))]
    by_cases h1 : acc ≥ 18446744073709551615 / 10 + 1
    · rw [if_pos h1]
    · rw [if_neg h1]
      simp only []
      by_cases h2 : acc * 10 + (c.toNat - 48) > 18446744073709551615
      · rw [if_pos h2]
      · rw [if_neg h2]
        exact ih _ (fun x hx => hdig x (List.mem_cons_of_mem _ hx)) (by omega) hval

theorem parseInt_unsigned (digits : List Char) (hne : digits ≠ [])
    (hdig : ∀ c ∈ digits, isDecimalDigit c = true) :
    ParseInt digits
      = if digitsValue digits < 9223372036854775808 then Except.ok (digitsValue digits : Int)
        else Except.error NumError.outOfRange := by
  by_cases hr : digitsValue digits < 9223372036854775808
  · rw [if_pos hr]
    exact parseInt_digits digits hne hdig hr
  · rw [if_neg hr]
    cases digits with
    | nil => exact absurd rfl hne
    | cons c cs =>
      have hc := (decimalDigit_facts c (hdig c (List.mem_cons_self _ _))).2.2.1
      have hminus : (c == '-') = false := (Bool.or_eq_false_iff.mp hc).2
      have hplus : (c == '+') = false := (Bool.or_eq_false_iff.mp hc).1
      unfold ParseInt
      simp only [hplus, hminus, Bool.or_self, Bool.false_eq_true, if_false]
      by_cases hmax : digitsValue (c :: cs) ≤ 18446744073709551615
      · rw [parseUintLoop_digits (c :: cs) 0 hdig hmax]
        simp only [Bool.not_false, Bool.true_and, decide_eq_true_eq]
        rw [if_pos (by unfold digitsValue at hr; omega)]
      · rw [parseUintLoop_overflow (c :: cs) 0 hdig (by omega)
          (by unfold digitsValue at hmax; omega)]

theorem parseInt_plus (digits : List Char) (hne : digits ≠ [])
    (hdig : ∀ c ∈ digits, isDecimalDigit c = true) :
    ParseInt ('+' :: digits)
      = if digitsValue digits < 9223372036854775808 then Except.ok (digitsValue digits : Int)
        else Except.error NumError.outOfRange := by
  cases digits with
  | nil => exact absurd rfl hne
  | cons c cs =>
    have hplus : ('+' == '+') = true := rfl
    have hminus : ('+' == '-') = false := by decide
    unfold ParseInt
    simp only [hplus, hminus, Bool.true_or, if_true]
    by_cases hmax : digitsValue (c :: cs) ≤ 18446744073709551615
    · rw [parseUintLoop_digits (c :: cs) 0 hdig hmax]
      simp only [Bool.not_false, Bool.true_and, Bool.false_and, Bool.false_eq_true, if_false,
        decide_eq_true_eq]
      by_cases hr : digitsValue (c :: cs) < 9223372036854775808
      · rw [if_pos hr, if_neg (by unfold digitsValue at hr; omega)]
        rfl
      · rw [if_neg hr, if_pos (by unfold digitsValue at hr; omega)]
    · rw [parseUintLoop_overflow (c :: cs) 0 hdig (by omega)
        (by unfold digitsValue at hmax; omega)]
      rw [if_neg (by omega)]

theorem parseInt_minus (digits : List Char) (hne : digits ≠ [])
    (hdig : ∀ c ∈ digits, isDecimalDigit c = true) :
    ParseInt ('-' :: digits)
      = if digitsValue digits ≤ 9223372036854775808 then
          Except.ok (-(digitsValue digits : Int))
        else Except.error NumError.outOfRange := by
  cases digits with
  | nil => exact absurd rfl hne
  | cons c cs =>
    have hplus : ('-' == '+') = false := by decide
    have hminus : ('-' == '-') = true := rfl
    unfold ParseInt
    simp only [hplus, hminus, Bool.or_true, if_true]
    by_cases hmax : digitsValue (c :: cs) ≤ 18446744073709551615
    · rw [parseUintLoop_digits (c :: cs) 0 hdig hmax]
      simp only [Bool.not_true, Bool.false_and, Bool.true_and, Bool.false_eq_true, if_false,
        decide_eq_true_eq]
      by_cases hr : digitsValue (c :: cs) ≤ 9223372036854775808
      · rw [if_pos hr, if_neg (by unfold digitsValue at hr; omega)]
        rfl
      · rw [if_neg hr, if_pos (by unfold digitsValue at hr; omega)]
    · rw [parseUintLoop_overflow (c :: cs) 0 hdig (by omega)
        (by unfold digitsValue at hmax; omega)]
      rw [if_neg (by omega)]

theorem fmtSkipSpace_append (ws body : List Char)
    (hws : ∀ c ∈ ws, unicodeIsSpace c = true ∧ c ≠ '\n') :
    fmtSkipSpace (ws ++ body) = fmtSkipSpace body := by
  induction ws with
  | nil => rfl
  | cons c ws ih =>
    have hc := hws c (List.mem_cons_self _ _)
    have hnl : (c == '\n') = false := by
      rw [beq_eq_false_iff_ne]
      exact hc.2
    rw [List.cons_append, fmtSkipSpace]
    simp only [hnl, Bool.false_eq_true, if_false, hc.1, if_true]
    exact ih (fun x hx => hws x (List.mem_cons_of_mem _ hx))

theorem fmtSkipSpace_head (c : Char) (cs : List Char) (hnl : (c == '\n') = false)
    (hsp : unicodeIsSpace c = false) : fmtSkipSpace (c :: cs) = Except.ok (c :: cs) := by
  rw [fmtSkipSpace]
  simp only [hnl, hsp, Bool.false_eq_true, if_false]

theorem fmtSkipSpace_ok (text : List Char) :
    ∀ body, fmtSkipSpace text = Except.ok body →
      ∃ ws, text = ws ++ body ∧ ∀ c ∈ ws, unicodeIsSpace c = true ∧ c ≠ '\n' := by
  induction text with
  | nil =>
    intro body h
    rw [fmtSkipSpace] at h
    cases h
    exact ⟨[], rfl, fun c hc => absurd hc (List.not_mem_nil c)⟩
  | cons c cs ih =>
    intro body h
    rw [fmtSkipSpace] at h
    by_cases hnl : (c == '\n') = true
    · simp only [hnl, if_true] at h
      cases h
    · simp only [hnl, Bool.false_eq_true, if_false] at h
      by_cases hsp : unicodeIsSpace c = true
      · simp only [hsp, if_true] at h
        rcases ih body h with ⟨ws, hws, hall⟩
        refine ⟨c :: ws, by rw [hws]; rfl, ?_⟩
        intro x hx
        rcases List.mem_cons.mp hx with hx1 | hx1
        · rw [hx1]
          exact ⟨hsp, fun hc => hnl (by rw [hc]; rfl)⟩
        · exact hall x hx1
      · simp only [hsp, Bool.false_eq_true, if_false] at h
        cases h
        exact ⟨[], rfl, fun x hx => absurd hx (List.not_mem_nil x)⟩

theorem takeWhile_digits_rest (digits rest : List Char)
    (hdig : ∀ c ∈ digits, isDecimalDigit c = true)
    (hrest : ∀ c ∈ rest.head?, isDecimalDigit c = false) :
    (digits ++ rest).takeWhile isDecimalDigit = digits := by
  cases rest with
  | nil =>
    rw [List.append_nil, List.takeWhile_eq_self_iff]
    exact hdig
  | cons r rs => exact (takeWhile_digits_append digits r rs hdig (hrest r rfl)).1

theorem head_dropWhile_digits (l : List Char) :
    ∀ c ∈ (l.dropWhile isDecimalDigit).head?, isDecimalDigit c = false := by
  induction l with
  | nil =>
    intro c hc
    cases hc
  | cons x xs ih =>
    by_cases hx : isDecimalDigit x = true
    · rw [List.dropWhile_cons_of_pos hx]
      exact ih
    · rw [List.dropWhile_cons_of_neg hx]
      intro c hc
      cases hc
      simpa using hx

theorem sign_facts (c : Char) (h : (c == '+' || c == '-') = true) :
    (c = '+' ∨ c = '-') ∧ (c == '\n') = false ∧ unicodeIsSpace c = false ∧
      isDecimalDigit c = false := by
  have hc : c = '+' ∨ c = '-' := by simpa using h
  rcases hc with hc | hc <;> subst hc <;> exact ⟨by simp, by decide, by decide, by decide⟩

theorem sscanfInt_of_startsWithInteger (text : List Char) (value : Int)
    (h : StartsWithInteger text value) : SscanfInt (String.mk text) = Except.ok value := by
  rcases h with ⟨ws, sign, digits, rest, htext, hws, hsign, hne, hdig, hrest, hval, hlo, hhi⟩
  cases digits with
  | nil => exact absurd rfl hne
  | cons d ds =>
    have hd := hdig d (List.mem_cons_self _ _)
    have hdf := decimalDigit_facts d hd
    have hdplus : (d == '+') = false := (Bool.or_eq_false_iff.mp hdf.2.2.1).1
    have hdminus : (d == '-') = false := (Bool.or_eq_false_iff.mp hdf.2.2.1).2
    have htake : List.takeWhile isDecimalDigit (d :: (ds ++ rest)) = d :: ds :=
      takeWhile_digits_rest (d :: ds) rest hdig hrest
    unfold SscanfInt
    show (match fmtSkipSpace text with
      | Except.error err => Except.error err
      | Except.ok [] => Except.error ScanError.endOfInput
      | Except.ok (c :: cs) => _) = _
    rw [htext, fmtSkipSpace_append ws _ hws]
    rcases hsign with hs | hs | hs
    · subst hs
      rw [if_neg (by decide)] at hval
      rw [List.nil_append, List.cons_append, fmtSkipSpace_head d _ hdf.1 hdf.2.1]
      simp only [hdplus, hdminus, Bool.or_self, Bool.false_eq_true, if_false, hd, if_true,
        htake, List.nil_append]
      rw [parseInt_unsigned (d :: ds) hne hdig, if_pos (by omega), hval]
    · subst hs
      rw [if_neg (by decide)] at hval
      have hp : ('+' == '+' || '+' == '-') = true := by decide
      rw [List.cons_append, List.nil_append, List.cons_append,
        fmtSkipSpace_head '+' _ (by decide) (by decide)]
      simp only [hp, if_true, hd, htake, List.singleton_append]
      rw [parseInt_plus (d :: ds) hne hdig, if_pos (by omega), hval]
    · subst hs
      rw [if_pos rfl] at hval
      have hp : ('-' == '+' || '-' == '-') = true := by decide
      rw [List.cons_append, List.nil_append, List.cons_append,
        fmtSkipSpace_head '-' _ (by decide) (by decide)]
      simp only [hp, if_true, hd, htake, List.singleton_append]
      rw [parseInt_minus (d :: ds) hne hdig, if_pos (by omega), hval]

theorem startsWithInteger_of_sscanfInt (text : List Char) (value : Int)
    (h : SscanfInt (String.mk text) = Except.ok value) : StartsWithInteger text value := by
  unfold SscanfInt at h
  cases hskip : fmtSkipSpace text with
  | error err =>
    rw [show (String.mk text).data = text from rfl, hskip] at h
    cases h
  | ok body =>
    rw [show (String.mk text).data = text from rfl, hskip] at h
    rcases fmtSkipSpace_ok text body hskip with ⟨ws, htext, hws⟩
    cases body with
    | nil => cases h
    | cons c cs =>
      by_cases hs : (c == '+' || c == '-') = true
      · simp only [hs, if_true] at h
        cases cs with
        | nil => cases h
        | cons d cs =>
          by_cases hd : isDecimalDigit d = true
          · simp only [hd, if_true] at h
            have hsplit : d :: cs = List.takeWhile isDecimalDigit (d :: cs) ++
                List.dropWhile isDecimalDigit (d :: cs) :=
              (List.takeWhile_append_dropWhile isDecimalDigit (d :: cs)).symm
            have hne : List.takeWhile isDecimalDigit (d :: cs) ≠ [] := by
              rw [List.takeWhile_cons_of_pos hd]
              exact List.cons_ne_nil _ _
            have hdig : ∀ x ∈ List.takeWhile isDecimalDigit (d :: cs),
                isDecimalDigit x = true := fun x hx => List.mem_takeWhile_imp hx
            rcases (sign_facts c hs).1 with hc | hc
            · subst hc
              rw [List.singleton_append, parseInt_plus _ hne hdig] at h
              by_cases hr : digitsValue (List.takeWhile isDecimalDigit (d :: cs))
                  < 9223372036854775808
              · rw [if_pos hr] at h
                simp only [Except.ok.injEq] at h
                refine ⟨ws, ['+'], List.takeWhile isDecimalDigit (d :: cs),
                  List.dropWhile isDecimalDigit (d :: cs), ?_, hws, Or.inr (Or.inl rfl), hne,
                  hdig, head_dropWhile_digits _, ?_, by omega, by omega⟩
                · rw [htext, ← hsplit]
                  rfl
                · rw [if_neg (by decide)]
                  exact h.symm
              · rw [if_neg hr] at h
                cases h
            · subst hc
              rw [List.singleton_append, parseInt_minus _ hne hdig] at h
              by_cases hr : digitsValue (List.takeWhile isDecimalDigit (d :: cs))
                  ≤ 9223372036854775808
              · rw [if_pos hr] at h
                simp only [Except.ok.injEq] at h
                refine ⟨ws, ['-'], List.takeWhile isDecimalDigit (d :: cs),
                  List.dropWhile isDecimalDigit (d :: cs), ?_, hws, Or.inr (Or.inr rfl), hne,
                  hdig, head_dropWhile_digits _, ?_, by omega, by omega⟩
                · rw [htext, ← hsplit]
                  rfl
                · rw [if_pos rfl]
                  exact h.symm
              · rw [if_neg hr] at h
                cases h
          · simp only [hd, Bool.false_eq_true, if_false] at h
            cases h
      · simp only [hs, Bool.false_eq_true, if_false] at h
        by_cases hd : isDecimalDigit c = true
        · simp only [hd, if_true, List.nil_append] at h
          have hsplit : c :: cs = List.takeWhile isDecimalDigit (c :: cs) ++
              List.dropWhile isDecimalDigit (c :: cs) :=
            (List.takeWhile_append_dropWhile isDecimalDigit (c :: cs)).symm
          have hne : List.takeWhile isDecimalDigit (c :: cs) ≠ [] := by
            rw [List.takeWhile_cons_of_pos hd]
            exact List.cons_ne_nil _ _
          have hdig : ∀ x ∈ List.takeWhile isDecimalDigit (c :: cs),
              isDecimalDigit x = true := fun x hx => List.mem_takeWhile_imp hx
          rw [parseInt_unsigned _ hne hdig] at h
          by_cases hr : digitsValue (List.takeWhile isDecimalDigit (c :: cs))
              < 9223372036854775808
          · rw [if_pos hr] at h
            simp only [Except.ok.injEq] at h
            refine ⟨ws, [], List.takeWhile isDecimalDigit (c :: cs),
              List.dropWhile isDecimalDigit (c :: cs), ?_, hws, Or.inl rfl, hne,
              hdig, head_dropWhile_digits _, ?_, by omega, by omega⟩
            · rw [htext, ← hsplit]
              rfl
            · rw [if_neg (by decide)]
              exact h.symm
          · rw [if_neg hr] at h
            cases h
        · simp only [hd, Bool.false_eq_true, if_false] at h
          cases h

theorem parseSpeed_of_unit (unicodeToLower : Char → Char) (speedStr : String)
    (pre unit : List Char) (hunit : unit = "gb/s".data ∨ unit = "mb/s".data)
    (hlow : (ToLower unicodeToLower speedStr).data = pre ++ unit) :
    parseSpeed unicodeToLower speedStr
      = match SscanfInt (String.mk pre) with
        | Except.error err => Except.error (SpeedError.parseValue err)
        | Except.ok val =>
          Except.ok (wrapInt64 (val * (if unit = "gb/s".data then 1000 else 1))) := by
  have hstr : ToLower unicodeToLower speedStr = String.mk (pre ++ unit) := by
    rw [← hlow]
  unfold parseSpeed
  simp only [hstr]
  rcases hunit with h | h
  · subst h
    rw [if_pos (hasSuffix_append pre _), trimSuffix_append, if_pos rfl]
  · subst h
    rw [if_neg (by rw [not_hasSuffix_gb_of_mb]; simp), if_pos (hasSuffix_append pre _),
      trimSuffix_append, if_neg (by decide)]

/-- The verb `%d` takes no underscore: of "1_000Mb/s" only the digit 1 is read. -/
theorem parseSpeed_underscore : parseSpeed id "1_000Mb/s" = Except.ok 1 := rfl

/-- C13, amended: for every input whose lower-cased form ends in "gb/s" or "mb/s",
`parseSpeed` returns the error "failed to parse speed value" exactly when the part before
the unit does not start with a decimal integer, that is with optional white space other
than a newline, an optional sign and a run of decimal digits whose value fits in 64 bits;
when the part does start with such an integer, the text behind the digits is not looked at
and the result is the integer times the multiplier of the unit, in 64-bit arithmetic. -/
theorem parseSpeed_error_iff_no_integer (unicodeToLower : Char → Char) (speedStr : String)
    (pre unit : List Char)
    (hunit : unit = "gb/s".data ∨ unit = "mb/s".data)
    (hlow : (ToLower unicodeToLower speedStr).data = pre ++ unit) :
    ((∃ cause, parseSpeed unicodeToLower speedStr
        = Except.error (SpeedError.parseValue cause)) ↔
      ¬ ∃ value, StartsWithInteger pre value) ∧
    (∀ value, StartsWithInteger pre value →
      parseSpeed unicodeToLower speedStr
        = Except.ok (wrapInt64 (value * (if unit = "gb/s".data then 1000 else 1)))) := by
  have hparse := parseSpeed_of_unit unicodeToLower speedStr pre unit hunit hlow
  have hok : ∀ value, StartsWithInteger pre value →
      parseSpeed unicodeToLower speedStr
        = Except.ok (wrapInt64 (value * (if unit = "gb/s".data then 1000 else 1))) := by
    intro value hv
    rw [hparse, sscanfInt_of_startsWithInteger pre value hv]
  refine ⟨⟨?_, ?_⟩, hok⟩
  · rintro ⟨cause, hcause⟩ ⟨value, hv⟩
    rw [hok value hv] at hcause
    cases hcause
  · intro hnone
    cases hscan : SscanfInt (String.mk pre) with
    | error err =>
      rw [hscan] at hparse
      exact ⟨err, hparse⟩
    | ok val => exact absurd ⟨val, startsWithInteger_of_sscanfInt pre val hscan⟩ hnone

theorem parseSpeed_error_iff_no_integer_witness :
    (ToLower id "xMb/s").data = ['x'] ++ "mb/s".data ∧
    ((∃ cause, parseSpeed id "xMb/s" = Except.error (SpeedError.parseValue cause)) ↔
      ¬ ∃ value, StartsWithInteger ['x'] value) ∧
    parseSpeed id "xMb/s" = Except.error (SpeedError.parseValue ScanError.expectedInteger) ∧
    parseSpeed id "Gb/s" = Except.error (SpeedError.parseValue ScanError.endOfInput) :=
  ⟨by decide,
    (parseSpeed_error_iff_no_integer id "xMb/s" ['x'] "mb/s".data (Or.inr rfl)
      (by decide)).1,
    rfl, rfl⟩

end GpuOverIP
